import Mathlib

/-! WordGame server: player registry and guess validation.

A shallow embedding of `wordgame_common.h`, `GameData.h`, `Server.h` and the configuration
part of `WordGame_server.cpp`, with the push listener and the guess frames of `Client.h`.

* `TCHAR` is a UTF-16 code unit, a C string is the list of its code units before the
  terminator.
* `int32_t` values are integers; arithmetic on them wraps modulo `2^32` (`wrap32`).
* `std::map` is an association list kept in key order; `std::multimap` is a list kept in
  comparator order, new entries going to the upper bound of their key.
* Win32 calls whose result the code branches on are fields of `Win32`.
* `_stprintf_s` is concatenation of its arguments into a buffer of a given capacity; a text
  that does not fit invokes the invalid parameter handler, and the call does not return.
* Undefined behaviour (dereferencing `end()`, indexing outside an array) is `none`, and so
  is a call that ends in the invalid parameter handler.
* Pushes to clients are returned as the list of deliveries attempted.
* Threads meet at their semaphore calls, each call being one atomic step of `Gate.step`.
* The calls a handler makes on the registry mutex and the gate semaphore are a list of
  `LockCall`, run by one thread over `Locks`.
-/

namespace WordGame

/-! ## wordgame_common.h -/

abbrev TCHAR := Nat
abbrev WString := List TCHAR

/-- Wide string literal: the code units of `s`. -/
def TEXT (s : String) : WString := s.toList.map Char.toNat

def ARRAY_SIZE : Nat := 10
def BUFFER_SIZE : Nat := 256
def MAX_PLAYERS : Nat := 20
def MAX_WORD_LENGTH : Nat := 12
def MAX_WORDS : Nat := 128

/-- Two's complement reading of an integer as `int32_t`. -/
def wrap32 (x : Int) : Int := (x + 2147483648) % 4294967296 - 2147483648

/-- Conversion of an `int32_t` to `unsigned int`. -/
def toU32 (x : Int) : Int := x % 4294967296

/-- Values of `enum MsgFlags`, in declaration order. -/
inductive MsgFlags where
  | LOGIN | LOGOUT | GUESS | NAME_USED | SERVER_FULL | NO_EVENT | NO_PIPE
  | MVP | PLAYER_LOGIN | PLAYER_LOGOUT | SCORE | LIST
deriving DecidableEq, Repr

/-- Numeric value of an enumerator. -/
def MsgFlags.val : MsgFlags → Int
  | .LOGIN => 0 | .LOGOUT => 1 | .GUESS => 2 | .NAME_USED => 3 | .SERVER_FULL => 4
  | .NO_EVENT => 5 | .NO_PIPE => 6 | .MVP => 7 | .PLAYER_LOGIN => 8 | .PLAYER_LOGOUT => 9
  | .SCORE => 10 | .LIST => 11

structure Login_Return_Type where
  flag : Int
  id : Int
deriving DecidableEq, Repr

structure Packet where
  code : Int
  id : Int
  buffer : WString
deriving DecidableEq, Repr

/-- The shared letter row: `t` is the active length, `array` the letter buffer, a zero entry
standing for a position not yet revealed. Positions past the end of the list read as zero,
as in the zero-filled mapping the buffer lives in. -/
structure GameState where
  t : Nat
  array : List TCHAR
deriving DecidableEq, Repr

/-! ## Win32 calls the registry branches on -/

/-- Results of the operating-system calls made by the server. `OpenEvent` gives the handle
for an event name (`0` is `NULL`); the others tell whether the call succeeds for a pipe
name. -/
structure Win32 where
  OpenEvent : WString → Nat
  WaitNamedPipe : WString → Bool
  CreateFile : WString → Bool
  WriteFile : WString → Bool
  ReadFile : WString → Bool

/-! ## Secure CRT string functions -/

/-- Meaning of `_stprintf_s` into a buffer of `capacity` code units with a format made of
`%s` items: the text written, `none` when the text and its terminator do not fit and the
invalid parameter handler is invoked. -/
def _stprintf_s (capacity : Nat) (args : List WString) : Option WString :=
  let text := args.foldr (fun a rest => a ++ rest) []
  if text.length + 1 ≤ capacity then some text else none

/-- Meaning of `_tcscpy_s(dst, capacity, src)`: the units copied, `none` when the string and
its terminator do not fit and the invalid parameter handler is invoked. -/
def _tcscpy_s (capacity : Nat) (src : WString) : Option WString :=
  if src.length + 1 ≤ capacity then some src else none

/-! ## std::map and std::multimap -/

namespace StdMap

variable {K V : Type} [DecidableEq K]

/-- The value stored under `k`, `none` standing for `end()`. -/
def find : List (K × V) → K → Option V
  | [], _ => none
  | (k', v) :: rest, k => if k' = k then some v else find rest k

/-- Removal of the entry with key `k`. -/
def erase (m : List (K × V)) (k : K) : List (K × V) :=
  m.filter (fun e => decide (e.1 ≠ k))

/-- Overwrite the value stored under an existing key. -/
def replace : List (K × V) → K → V → List (K × V)
  | [], _, _ => []
  | (k', v') :: rest, k, v => if k' = k then (k, v) :: rest else (k', v') :: replace rest k v

/-- Insertion of a new key at its place in key order. -/
def insertNew (lt : K → K → Bool) : List (K × V) → K → V → List (K × V)
  | [], k, v => [(k, v)]
  | (k', v') :: rest, k, v =>
    if lt k k' then (k, v) :: (k', v') :: rest else (k', v') :: insertNew lt rest k v

/-- Meaning of `m[k] = v`. -/
def assign (lt : K → K → Bool) (m : List (K × V)) (k : K) (v : V) : List (K × V) :=
  if (find m k).isSome then replace m k v else insertNew lt m k v

end StdMap

/-- Key order of `std::map<int32_t, _>`. -/
def intLess (a b : Int) : Bool := decide (a < b)

/-- Key order of `std::map<std::wstring, _>`: lexicographic on code units. -/
def wstringLess : WString → WString → Bool
  | [], [] => false
  | [], _ :: _ => true
  | _ :: _, [] => false
  | a :: as, b :: bs => if a < b then true else if b < a then false else wstringLess as bs

/-- Comparator of `score_map`, `std::greater<unsigned int>` applied to `int32_t` keys. -/
def scoreComp (a b : Int) : Bool := decide (toU32 a > toU32 b)

namespace Multimap

/-- Insertion into `score_map`: the new entry goes before the first entry whose key the
comparator orders after the new key. -/
def insert : List (Int × WString) → Int × WString → List (Int × WString)
  | [], e => [e]
  | x :: rest, e => if scoreComp e.1 x.1 then e :: x :: rest else x :: insert rest e

/-- The entries before, inside and after `equal_range(score)`. -/
def equal_range (m : List (Int × WString)) (score : Int) :
    List (Int × WString) × List (Int × WString) × List (Int × WString) :=
  let pre := m.takeWhile (fun x => scoreComp x.1 score)
  let rest := m.dropWhile (fun x => scoreComp x.1 score)
  let range := rest.takeWhile (fun x => !scoreComp score x.1)
  let post := rest.dropWhile (fun x => !scoreComp score x.1)
  (pre, range, post)

/-- The loop over a range that erases the first entry naming `name`; `none` when the loop
runs to the end of the range. -/
def eraseNamed : List (Int × WString) → WString → Option (List (Int × WString))
  | [], _ => none
  | x :: rest, name =>
    if x.2 = name then some rest else (eraseNamed rest name).map (fun r => x :: r)

/-- The lookup over `equal_range(score)` followed by `erase` of the entry found. -/
def eraseEntry (m : List (Int × WString)) (score : Int) (name : WString) :
    Option (List (Int × WString)) :=
  match equal_range m score with
  | (pre, range, post) => (eraseNamed range name).map (fun r => pre ++ r ++ post)

end Multimap

/-! ## GameData.h -/

structure Player_ID_Generator where
  state : Int
deriving DecidableEq, Repr

/-- Result of `gen()`: the id handed out and the generator afterwards. -/
def Player_ID_Generator.gen (g : Player_ID_Generator) : Int × Player_ID_Generator :=
  let state := wrap32 (g.state + 1)
  (state, ⟨state⟩)

structure Player where
  id : Int
  score : Int
  pipe_name : WString
  update_handle : Nat
deriving DecidableEq, Repr

/-- The event name as `GameData::insert` formats it into `temp`. -/
def insert_temp (name : WString) : Option WString :=
  _stprintf_s (2 * ARRAY_SIZE + 2) [TEXT "Local\\", name, TEXT "_update"]

/-- The pipe name as `GameData::insert` formats it into `p.pipe_name`. -/
def insert_pipe_name (name : WString) : Option WString :=
  _stprintf_s (2 * ARRAY_SIZE + 2) [TEXT "\\\\.\\pipe\\", name]

structure GameData where
  id_map : List (Int × WString)
  score_map : List (Int × WString)
  name_map : List (WString × Player)
deriving DecidableEq, Repr

namespace GameData

/-- A freshly constructed registry. -/
def empty : GameData := ⟨[], [], []⟩

def playerExists (g : GameData) (name : WString) : Bool :=
  (StdMap.find g.name_map name).isSome

/-- The event name formatted into `temp`: `Local\<name>_update`. -/
def updateEventName (name : WString) : WString := TEXT "Local\\" ++ name ++ TEXT "_update"

/-- The pipe name formatted into `pipe_name`: `\\.\pipe\<name>`. -/
def pipeName (name : WString) : WString := TEXT "\\\\.\\pipe\\" ++ name

/-- Registration of a player: the reply, the id generator and the registry afterwards.
`none`: a derived name does not fit its buffer, and `_stprintf_s` invokes the invalid
parameter handler instead of returning. -/
def insert (os : Win32) (pid_gen : Player_ID_Generator) (g : GameData) (name : WString)
    (initial_score : Int) : Option (Login_Return_Type × Player_ID_Generator × GameData) :=
  if g.playerExists name then
    some (⟨MsgFlags.NAME_USED.val, -1⟩, pid_gen, g)
  else if g.name_map.length ≥ MAX_PLAYERS then
    some (⟨MsgFlags.SERVER_FULL.val, -1⟩, pid_gen, g)
  else
    match insert_temp name with
    | none => none
    | some temp =>
      let update_event := os.OpenEvent temp
      if update_event = 0 then
        some (⟨MsgFlags.NO_EVENT.val, -1⟩, pid_gen, g)
      else
        match insert_pipe_name name with
        | none => none
        | some pipe_name =>
          if !os.WaitNamedPipe pipe_name then
            some (⟨MsgFlags.NO_PIPE.val, -1⟩, pid_gen, g)
          else
            let r := pid_gen.gen
            let p : Player := ⟨r.1, initial_score, pipe_name, update_event⟩
            some (⟨MsgFlags.LOGIN.val, p.id⟩, r.2,
              ⟨StdMap.assign intLess g.id_map p.id name,
               Multimap.insert g.score_map (initial_score, name),
               StdMap.assign wstringLess g.name_map name p⟩)

/-- Removal by name: the returned flag and the registry afterwards. -/
def remove (g : GameData) (name : WString) : Bool × GameData :=
  match StdMap.find g.name_map name with
  | some p =>
    let id := p.id
    let score := p.score
    let g1 : GameData := ⟨g.id_map, g.score_map, StdMap.erase g.name_map name⟩
    match StdMap.find g1.id_map id with
    | some _ =>
      let g2 : GameData := ⟨StdMap.erase g1.id_map id, g1.score_map, g1.name_map⟩
      match Multimap.eraseEntry g2.score_map score name with
      | some sm => (true, ⟨g2.id_map, sm, g2.name_map⟩)
      | none => (false, g2)
    | none => (false, g1)
  | none => (false, g)

/-- Removal by id: the returned flag and the registry afterwards. -/
def removeId (g : GameData) (id : Int) : Bool × GameData :=
  match StdMap.find g.id_map id with
  | some player_name =>
    let g1 : GameData := ⟨StdMap.erase g.id_map id, g.score_map, g.name_map⟩
    match StdMap.find g1.name_map player_name with
    | some p =>
      let score := p.score
      let g2 : GameData := ⟨g1.id_map, g1.score_map, StdMap.erase g1.name_map player_name⟩
      match Multimap.eraseEntry g2.score_map score player_name with
      | some sm => (true, ⟨g2.id_map, sm, g2.name_map⟩)
      | none => (false, g2)
    | none => (false, g1)
  | none => (false, g)

/-- The part of both `update` overloads after the player record has been found: clamp the
new score at zero, store it, and move the score_map entry. -/
def updateFound (g : GameData) (player_name : WString) (p : Player) (increment : Int) :
    Bool × GameData :=
  let score := p.score
  let new_score := if wrap32 (score + increment) < 0 then 0 else wrap32 (score + increment)
  let g1 : GameData :=
    ⟨g.id_map, g.score_map,
     StdMap.replace g.name_map player_name ⟨p.id, new_score, p.pipe_name, p.update_handle⟩⟩
  match Multimap.eraseEntry g1.score_map score player_name with
  | some sm => (true, ⟨g1.id_map, Multimap.insert sm (new_score, player_name), g1.name_map⟩)
  | none => (false, g1)

/-- Score update by id. `none`: the code dereferences `name_map.end()`. -/
def update (g : GameData) (id : Int) (increment : Int) : Option (Bool × GameData) :=
  match StdMap.find g.id_map id with
  | none => some (false, g)
  | some player_name =>
    match StdMap.find g.name_map player_name with
    | none => none
    | some p => some (g.updateFound player_name p increment)

/-- Score update by name. `none`: the code dereferences `name_map.end()`. -/
def updateName (g : GameData) (name : WString) (increment : Int) : Option (Bool × GameData) :=
  match StdMap.find g.name_map name with
  | none => none
  | some p => some (g.updateFound name p increment)

def score (g : GameData) (gameId : Int) : Int :=
  match StdMap.find g.id_map gameId with
  | some name =>
    match StdMap.find g.name_map name with
    | some p => p.score
    | none => -1
  | none => -1

def byName (g : GameData) (name : WString) : Int :=
  match StdMap.find g.name_map name with
  | some p => p.id
  | none => -1

/-- Lookup by id; `none` is the `NULL` return. -/
def playerName (g : GameData) (id : Int) : Option WString :=
  match StdMap.find g.id_map id with
  | some name =>
    match StdMap.find g.name_map name with
    | some p => some p.pipe_name
    | none => none
  | none => none

def count (g : GameData) : Int := g.name_map.length

end GameData

/-- How far one delivery over a player's pipe got. -/
inductive Delivery where
  | noPipe | writeFailed | noAck | delivered
deriving DecidableEq, Repr

/-- One `CreateFile` on a player's pipe together with the frame meant for it. -/
structure Attempt where
  pipe_name : WString
  packet : Packet
  outcome : Delivery
deriving DecidableEq, Repr

/-- Connect to a pipe, write the frame and, when `ack` is set, read the acknowledgment. -/
def deliver (os : Win32) (pipe_name : WString) (p : Packet) (ack : Bool) : Attempt :=
  if !os.CreateFile pipe_name then ⟨pipe_name, p, .noPipe⟩
  else if !os.WriteFile pipe_name then ⟨pipe_name, p, .writeFailed⟩
  else if ack && !os.ReadFile pipe_name then ⟨pipe_name, p, .noAck⟩
  else ⟨pipe_name, p, .delivered⟩

namespace GameData

/-- Single-target push: the returned flag and the delivery attempted, if any. -/
def send (os : Win32) (g : GameData) (id : Int) (p : Packet) : Bool × List Attempt :=
  match StdMap.find g.id_map id with
  | some name =>
    match StdMap.find g.name_map name with
    | some player =>
      let a := deliver os player.pipe_name p false
      (decide (a.outcome = .delivered), [a])
    | none => (false, [])
  | none => (false, [])

/-- Fan-out push: the deliveries attempted, in name_map order. -/
def broadcast (os : Win32) (g : GameData) (p : Packet) (except : Int) : List Attempt :=
  (g.name_map.filter (fun pr => !(decide (except ≠ -1) && decide (pr.2.id = except)))).map
    (fun pr => deliver os pr.2.pipe_name p true)

end GameData

/-! ## Server.h -/

/-- Meaning of `_tcsncpy_s(dst, src, n)` with a large enough `dst`: the first `n` code units. -/
def tcsncpy (src : WString) (n : Nat) : WString := src.take n

/-- Logout by name: the registry afterwards and the pushes attempted. -/
def handleLogoutName (os : Win32) (data : GameData) (name : WString) :
    GameData × List Attempt :=
  let p : Packet := ⟨MsgFlags.PLAYER_LOGOUT.val, 0, tcsncpy name (ARRAY_SIZE + 1)⟩
  let exit_order : Packet := ⟨MsgFlags.LOGOUT.val, 0, []⟩
  let player_id := data.byName name
  if player_id ≠ -1 then
    let s := data.send os player_id exit_order
    let r := data.remove name
    (r.2, s.2 ++ r.2.broadcast os p player_id)
  else (data, [])

/-- Logout by id: the registry afterwards and the pushes attempted. -/
def handleLogout (os : Win32) (data : GameData) (id : Int) : GameData × List Attempt :=
  match data.playerName id with
  | none => (data, [])
  | some name =>
    let p : Packet := ⟨MsgFlags.PLAYER_LOGOUT.val, 0, tcsncpy name (ARRAY_SIZE + 1)⟩
    let exit_order : Packet := ⟨MsgFlags.LOGOUT.val, 0, []⟩
    let s := data.send os id exit_order
    let r := data.remove name
    (r.2, s.2 ++ r.2.broadcast os p (-1))

/-- Index into the 26-entry frequency table for a code unit, `none` when `c - 'a'` falls
outside the table. -/
def tableIndex (c : TCHAR) : Option Nat :=
  let d : Int := (c : Int) - 97
  if 0 ≤ d ∧ d < 26 then some d.toNat else none

/-- First loop of `word_match`: count the entries of `array` at the given positions. -/
def countLetters (array : List TCHAR) : List Nat → List Int → Option (List Int)
  | [], t => some t
  | i :: is, t =>
    match tableIndex (array.getD i 0) with
    | none => none
    | some j => countLetters array is (t.set j (t.getD j 0 + 1))

/-- Second loop of `word_match`: `some false` is the early `return false`, `some true`
means every letter was available. -/
def useLetters : List Int → WString → Option Bool
  | _, [] => some true
  | t, c :: cs =>
    match tableIndex c with
    | none => none
    | some j =>
      let f := t.getD j 0 - 1
      if f < 0 then some false else useLetters (t.set j f) cs

/-- Guess validation against the letter array and the dictionary map. `none`: an index
outside the frequency table is used. -/
def word_match (word_map : List (WString × Bool)) (input : WString) (array : List TCHAR) :
    Option Bool :=
  match countLetters array (List.range ARRAY_SIZE) (List.replicate 26 0) with
  | none => none
  | some t =>
    match useLetters t input with
    | none => none
    | some false => some false
    | some true => some (StdMap.find word_map input).isSome

/-! ## Invariants and call sequences -/

/-- The values an `int32_t` can hold. -/
def isInt32 (x : Int) : Prop := -2147483648 ≤ x ∧ x < 2147483648

instance (x : Int) : Decidable (isInt32 x) := by unfold isInt32; infer_instance

/-- Order of `score_map` entries: no entry is ordered before one that precedes it. -/
def scoreSorted (m : List (Int × WString)) : Prop :=
  m.Pairwise (fun a b => scoreComp b.1 a.1 = false)

instance (m : List (Int × WString)) : Decidable (scoreSorted m) := by
  unfold scoreSorted; infer_instance

namespace GameData

/-- What the container types guarantee by themselves: unique keys in the two maps, comparator
order in the multimap, and `int32_t` scores. -/
def WellFormed (g : GameData) : Prop :=
  (g.name_map.map Prod.fst).Nodup ∧ (g.id_map.map Prod.fst).Nodup ∧ scoreSorted g.score_map ∧
  (∀ e ∈ g.score_map, isInt32 e.1) ∧ (∀ e ∈ g.name_map, isInt32 e.2.score)

instance (g : GameData) : Decidable (WellFormed g) := by unfold WellFormed; infer_instance

/-- The three indices describe the same player set: equal sizes, and every name_map entry
has its id_map entry and exactly one score_map entry. -/
def Consistent (g : GameData) : Prop :=
  g.id_map.length = g.name_map.length ∧ g.score_map.length = g.name_map.length ∧
  ∀ e ∈ g.name_map,
    StdMap.find g.id_map e.2.id = some e.1 ∧ g.score_map.count (e.2.score, e.1) = 1

instance (g : GameData) : Decidable (Consistent g) := by unfold Consistent; infer_instance

/-- Entry-wise form of consistency, in both directions. -/
def Linked (g : GameData) : Prop :=
  (∀ e ∈ g.name_map, (e.2.id, e.1) ∈ g.id_map ∧ (e.2.score, e.1) ∈ g.score_map) ∧
  (∀ e ∈ g.id_map, ∃ p, (e.2, p) ∈ g.name_map ∧ p.id = e.1) ∧
  (∀ e ∈ g.score_map, ∃ p, (e.2, p) ∈ g.name_map ∧ p.score = e.1) ∧
  (g.score_map.map Prod.snd).Nodup ∧
  g.id_map.length = g.name_map.length ∧ g.score_map.length = g.name_map.length

/-- What insert returns when both derived names fit their buffers: the same checks in the
same order, made on the names `updateEventName name` and `pipeName name`. -/
def insertFormatted (os : Win32) (pid_gen : Player_ID_Generator) (g : GameData)
    (name : WString) (initial_score : Int) : Login_Return_Type × Player_ID_Generator × GameData :=
  if g.playerExists name then
    (⟨MsgFlags.NAME_USED.val, -1⟩, pid_gen, g)
  else if g.name_map.length ≥ MAX_PLAYERS then
    (⟨MsgFlags.SERVER_FULL.val, -1⟩, pid_gen, g)
  else
    let temp := updateEventName name
    let update_event := os.OpenEvent temp
    if update_event = 0 then
      (⟨MsgFlags.NO_EVENT.val, -1⟩, pid_gen, g)
    else
      let pipe_name := pipeName name
      if !os.WaitNamedPipe pipe_name then
        (⟨MsgFlags.NO_PIPE.val, -1⟩, pid_gen, g)
      else
        let r := pid_gen.gen
        let p : Player := ⟨r.1, initial_score, pipe_name, update_event⟩
        (⟨MsgFlags.LOGIN.val, p.id⟩, r.2,
          ⟨StdMap.assign intLess g.id_map p.id name,
           Multimap.insert g.score_map (initial_score, name),
           StdMap.assign wstringLess g.name_map name p⟩)

/-- The registry left by a removal of the player `p` registered under `n`. -/
def without (g : GameData) (n : WString) (p : Player) : GameData :=
  ⟨StdMap.erase g.id_map p.id, g.score_map.erase (p.score, n), StdMap.erase g.name_map n⟩

/-- The score `update` stores: the wrapped sum, clamped at zero. -/
def newScore (score increment : Int) : Int :=
  if wrap32 (score + increment) < 0 then 0 else wrap32 (score + increment)

/-- The registry left by a score update of the player `p` registered under `n`. -/
def rescored (g : GameData) (n : WString) (p : Player) (s : Int) : GameData :=
  ⟨g.id_map, Multimap.insert (g.score_map.erase (p.score, n)) (s, n),
    StdMap.replace g.name_map n ⟨p.id, s, p.pipe_name, p.update_handle⟩⟩

end GameData

/-- The registry together with the global id generator it draws from. -/
structure Registry where
  pid_gen : Player_ID_Generator
  data : GameData
deriving DecidableEq, Repr

/-- The state at server start. -/
def Registry.fresh : Registry := ⟨⟨0⟩, GameData.empty⟩

/-- One call on the registry; `insert` is called with the default initial score, under the
operating-system answers `os`. -/
inductive Call where
  | insert (os : Win32) (name : WString)
  | remove (name : WString)
  | removeId (id : Int)
  | update (id : Int) (increment : Int)
  | updateName (name : WString) (increment : Int)

/-- What a call returns. -/
inductive Reply where
  | login (r : Login_Return_Type)
  | done (b : Bool)
deriving DecidableEq, Repr

/-- The id carried by an accepted login. -/
def Reply.acceptedId : Reply → Option Int
  | .login r => if r.flag = MsgFlags.LOGIN.val then some r.id else none
  | .done _ => none

/-- One call: its reply and the state afterwards, `none` when the call has undefined
behaviour or does not return. -/
def Registry.call (r : Registry) : Call → Option (Reply × Registry)
  | .insert os name =>
    (r.data.insert os r.pid_gen name 0).map (fun x => (.login x.1, ⟨x.2.1, x.2.2⟩))
  | .remove name =>
    let x := r.data.remove name
    some (.done x.1, ⟨r.pid_gen, x.2⟩)
  | .removeId id =>
    let x := r.data.removeId id
    some (.done x.1, ⟨r.pid_gen, x.2⟩)
  | .update id increment =>
    (r.data.update id increment).map (fun x => (.done x.1, ⟨r.pid_gen, x.2⟩))
  | .updateName name increment =>
    (r.data.updateName name increment).map (fun x => (.done x.1, ⟨r.pid_gen, x.2⟩))

/-- A sequence of calls: the replies in order and the final state. -/
def Registry.run : Registry → List Call → Option (List Reply × Registry)
  | r, [] => some ([], r)
  | r, c :: cs =>
    match r.call c with
    | none => none
    | some x => (Registry.run x.2 cs).map (fun y => (x.1 :: y.1, y.2))

/-- The ids handed out by the accepted logins among the replies, in order. -/
def acceptedIds (replies : List Reply) : List Int := replies.filterMap Reply.acceptedId

/-- Whether a call is one of the two removals. -/
def Call.isRemove : Call → Bool
  | .remove _ => true
  | .removeId _ => true
  | _ => false

/-- The invariant of a registry in which `N` logins have been accepted so far: the
containers are well formed and linked, the generator has counted `N` ids, and every id in use
is one of the first `N` ids handed out. -/
def Registry.Inv (r : Registry) (N : Nat) : Prop :=
  r.data.WellFormed ∧ r.data.Linked ∧ r.pid_gen.state = wrap32 N ∧
  ∀ e ∈ r.data.id_map, ∃ j : Nat, 1 ≤ j ∧ j ≤ N ∧ e.1 = wrap32 j

/-! ## Concrete inputs -/

/-- An operating system in which every event and every pipe is reachable. -/
def allReachable : Win32 :=
  ⟨fun _ => 1, fun _ => true, fun _ => true, fun _ => true, fun _ => true⟩

/-- An operating system in which no event and no pipe is reachable. -/
def noneReachable : Win32 :=
  ⟨fun _ => 0, fun _ => false, fun _ => false, fun _ => false, fun _ => false⟩

/-- The registry after `Ana` has logged in to a fresh server. -/
def onlyAna : GameData :=
  match GameData.insert allReachable ⟨0⟩ GameData.empty (TEXT "Ana") 0 with
  | some x => x.2.2
  | none => GameData.empty

/-- The registry after `Ana` and then `Bob` have logged in to a fresh server. -/
def anaAndBob : GameData :=
  match GameData.insert allReachable ⟨1⟩ onlyAna (TEXT "Bob") 0 with
  | some x => x.2.2
  | none => onlyAna

/-- Twenty distinct one-letter names. -/
def twentyNames : List WString := (List.range 20).map (fun i => [97 + i])

/-- The calls by which twenty players log in, all of them reachable. -/
def twentyLogins : List Call := twentyNames.map (fun n => Call.insert allReachable n)

/-- The registry after twenty players have logged in to a fresh server. -/
def fullHouse : GameData :=
  match Registry.fresh.run twentyLogins with
  | some x => x.2.data
  | none => GameData.empty

/-- The registry in which `Ana` alone is registered, with score 3. -/
def anaScoresThree : GameData :=
  match onlyAna.update 1 3 with
  | some x => x.2
  | none => onlyAna

/-- A short session: two logins, a refused login, a score update and a logout. -/
def sampleCalls : List Call :=
  [Call.insert allReachable (TEXT "Ana"), Call.insert allReachable (TEXT "Bob"),
   Call.insert noneReachable (TEXT "Eve"), Call.update 2 5, Call.remove (TEXT "Ana"),
   Call.insert allReachable (TEXT "Ana")]

/-- The replies and the final state of the short session. -/
def sampleOutcome : List Reply × Registry :=
  match Registry.fresh.run sampleCalls with
  | some x => x
  | none => ([], Registry.fresh)

/-- Repeated login and logout of `Bob`, `k` times over. -/
def churn : Nat → List Call
  | 0 => []
  | k + 1 => Call.insert allReachable (TEXT "Bob") :: Call.remove (TEXT "Bob") :: churn k

/-- A session in which `Ana` stays registered while `Bob` logs in and out until the 32-bit id
generator has gone round once, and then logs in again. -/
def wrapAround : List Call :=
  Call.insert allReachable (TEXT "Ana") ::
    (churn 4294967295 ++ [Call.insert allReachable (TEXT "Bob")])

/-- The registry after `Bob` logs in next to `Ana` while the id generator stands at 0 again:
both players hold id 1. -/
def collided : GameData :=
  match onlyAna.insert allReachable ⟨0⟩ (TEXT "Bob") 0 with
  | some x => x.2.2
  | none => onlyAna

/-- A twelve-letter row, the longest the server can be configured for, with every position
revealed. -/
def twelveLetterRow : List TCHAR := TEXT "cbdefghijkat"

/-- The row of the specification's example: `abcde` and five positions not yet revealed. -/
def halfRevealedRow : List TCHAR := TEXT "abcde" ++ List.replicate 5 0

/-- Formable, in the words of the specification: the letters of the word are a sub-multiset
of the revealed letters among the first `length` positions of the row. -/
def formable (word : WString) (array : List TCHAR) (length : Nat) : Prop :=
  ∀ c ∈ word, word.count c ≤ ((array.take length).filter (fun x => decide (x ≠ 0))).count c

instance (word : WString) (array : List TCHAR) (length : Nat) :
    Decidable (formable word array length) := by
  unfold formable; infer_instance

/-- The state after `Ana` and `Bob` have logged in and `Ana` has scored four points. -/
def anaAndBobScored : Registry :=
  match (⟨⟨2⟩, anaAndBob⟩ : Registry).call (Call.update 1 4) with
  | some x => x.2
  | none => ⟨⟨2⟩, anaAndBob⟩

/-! ## GameData.h: leaderboard text -/

/-- The decimal text an output stream writes for an `int32_t`. -/
def decimal (x : Int) : WString := TEXT (toString x)

/-- One leaderboard line, as `str` writes it for a score_map entry. -/
def leaderboardLine (pr : Int × WString) : WString :=
  TEXT "Nome: " ++ pr.2 ++ TEXT " Pontuaçăo: " ++ decimal pr.1 ++ TEXT "\n"

/-- The loop of `str`: the score_map entries it writes a line for, `n` being the `int32_t`
countdown that stops the loop at zero. -/
def strLoop : List (Int × WString) → Int → List (Int × WString)
  | [], _ => []
  | pr :: rest, n => if n = 0 then [] else pr :: strLoop rest (wrap32 (n - 1))

/-- The leaderboard text: the lines of the entries listed, one after the other. -/
def GameData.str (g : GameData) (n : Int) : WString :=
  ((strLoop g.score_map n).map leaderboardLine).foldr (fun line text => line ++ text) []

/-! ## Server.h: request handlers -/

/-- The C string held in a buffer: the code units before the first terminator. -/
def cstr (buffer : WString) : WString := buffer.takeWhile (fun c => decide (c ≠ 0))

/-- Meaning of `(char)c` followed by the conversion back to `wchar_t`: the low byte, sign
extended. -/
def narrow (c : TCHAR) : TCHAR := if c % 256 < 128 then c % 256 else 65280 + c % 256

/-- The word a request frame carries: the units of its buffer before the terminator. -/
def frameWord (buffer : WString) : WString := cstr (buffer.take BUFFER_SIZE)

/-- The string `guess` that handleGuess builds from the buffer, a unit at a time. -/
def guessOf (buffer : WString) : WString := (frameWord buffer).map narrow

/-- The global state of the server that the request handlers and the game thread work on:
the registry and its id generator, the shared letter row, the clear event, and the
dictionary map. -/
structure Server where
  data : GameData
  pid_gen : Player_ID_Generator
  state : GameState
  clear_handle : Bool
  word_map : List (WString × Bool)
deriving DecidableEq, Repr

/-- Login: the reply, the server afterwards and the pushes attempted. `none`: insert, or the
copy of the name into the frame, invokes the invalid parameter handler. -/
def handleLogin (os : Win32) (s : Server) (name : WString) :
    Option (Login_Return_Type × Server × List Attempt) :=
  match s.data.insert os s.pid_gen name 0 with
  | none => none
  | some res =>
    let s1 : Server := ⟨res.2.2, res.2.1, s.state, s.clear_handle, s.word_map⟩
    if res.1.flag = MsgFlags.LOGIN.val then
      match _tcscpy_s ((ARRAY_SIZE + 2) * 2) name with
      | none => none
      | some buffer =>
        let p : Packet := ⟨MsgFlags.PLAYER_LOGIN.val, 0, buffer⟩
        some (res.1, s1, s1.data.broadcast os p res.1.id)
    else some (res.1, s1, [])

/-- Score query: the reply frame. -/
def handleScoreRequest (data : GameData) (id : Int) : Packet :=
  let score := data.score id
  ⟨MsgFlags.SCORE.val, if score < 0 then 0 else score, []⟩

/-- Guess: the server afterwards and the pushes attempted. `none`: word_match or update has
undefined behaviour. -/
def handleGuess (os : Win32) (s : Server) (gameId : Int) (buffer : WString) :
    Option (Server × List Attempt) :=
  match s.data.playerName gameId with
  | none => some (s, [])
  | some name =>
    let guess := guessOf buffer
    if guess = [] then some (s, [])
    else
      match word_match s.word_map (cstr guess) s.state.array with
      | none => none
      | some false => some (s, [])
      | some true =>
        match s.data.update gameId 1 with
        | none => none
        | some u =>
          let score := u.2.score gameId
          let p : Packet := ⟨MsgFlags.GUESS.val, score, tcsncpy name (ARRAY_SIZE + 1)⟩
          some (⟨u.2, s.pid_gen, s.state, true, s.word_map⟩, u.2.broadcast os p (-1))

/-- What the listener writes back on the control pipe. -/
inductive Written where
  | login (r : Login_Return_Type)
  | packet (p : Packet)
deriving DecidableEq, Repr

/-- The body of the listener loop for one request frame: the server afterwards, the replies
written on the control pipe, and the pushes attempted. `none`: the handler of the frame has
undefined behaviour or does not return, and nothing is written. -/
def _listen (os : Win32) (s : Server) (input : Packet) :
    Option (Server × List Written × List Attempt) :=
  if input.code = MsgFlags.LOGIN.val then
    (handleLogin os s (cstr input.buffer)).map (fun r => (r.2.1, [Written.login r.1], r.2.2))
  else if input.code = MsgFlags.LOGOUT.val then
    let r := handleLogout os s.data input.id
    some (⟨r.1, s.pid_gen, s.state, s.clear_handle, s.word_map⟩, [], r.2)
  else if input.code = MsgFlags.SCORE.val then
    some (s, [Written.packet (handleScoreRequest s.data input.id)], [])
  else if input.code = MsgFlags.GUESS.val then
    (handleGuess os s input.id input.buffer).map
      (fun r => (r.1, [Written.packet input], r.2))
  else some (s, [], [])

/-! ## Server.h: game thread -/

/-- Meaning of `memset(array, 0, ARRAY_SIZE * sizeof(TCHAR))`. -/
def clear (array : List TCHAR) : List TCHAR :=
  List.replicate (min ARRAY_SIZE array.length) 0 ++ array.drop ARRAY_SIZE

/-- One pass of the loop of the game thread while it holds the whole gate: `i` is the
cursor and `rand` the value `rand()` returns. The result is the server and the cursor
afterwards. -/
def game (s : Server) (i : Nat) (rand : Nat) : Server × Nat :=
  let array := if s.clear_handle then clear s.state.array else s.state.array
  let array1 := array.set i (97 + rand % (122 + 1 - 97))
  (⟨s.data, s.pid_gen, ⟨s.state.t, array1⟩, false, s.word_map⟩, (i + 1) % s.state.t)

/-! ## Server.h and Client.h: the semaphore over the shared letter row -/

/-- A Win32 semaphore: its count and the maximum it was created with. -/
structure Semaphore where
  count : Nat
  maximum : Nat
deriving DecidableEq, Repr

/-- Result of `WaitForSingleObject(h, INFINITE)`: the semaphore once a unit has been taken,
`none` while the count is zero and the caller keeps waiting. -/
def Semaphore.wait (s : Semaphore) : Option Semaphore :=
  if 0 < s.count then some ⟨s.count - 1, s.maximum⟩ else none

/-- Result of `ReleaseSemaphore(h, n, NULL)`: the call fails and changes nothing when the
count would pass the maximum. -/
def Semaphore.release (s : Semaphore) (n : Nat) : Semaphore :=
  if s.count + n ≤ s.maximum then ⟨s.count + n, s.maximum⟩ else s

/-- The semaphore together with the places the threads are at: `writer` is the number of
units the game thread has taken in its acquisition loop, `readers` lists the threads that
are between their wait and their release (client update loops, the guess handler, the
speed commands). -/
structure Gate where
  semaphore : Semaphore
  writer : Nat
  readers : List Nat
deriving DecidableEq, Repr

/-- The thread that makes the next semaphore call. -/
inductive Thread where
  | game
  | reader (i : Nat)
deriving DecidableEq, Repr

/-- The gate as initShmEventsSemaphore creates it. -/
def Gate.initial : Gate := ⟨⟨MAX_PLAYERS + 2, MAX_PLAYERS + 2⟩, 0, []⟩

/-- The next semaphore call of a thread. The game thread waits until it has taken
`MAX_PLAYERS + 2` units, then writes the row and releases them in one call; a reader waits
for one unit, reads, and releases it. A thread whose wait cannot be served stays where it
is. -/
def Gate.step (g : Gate) : Thread → Gate
  | .game =>
    if g.writer < MAX_PLAYERS + 2 then
      match g.semaphore.wait with
      | some s => ⟨s, g.writer + 1, g.readers⟩
      | none => g
    else ⟨g.semaphore.release (MAX_PLAYERS + 2), 0, g.readers⟩
  | .reader i =>
    if i ∈ g.readers then ⟨g.semaphore.release 1, g.writer, g.readers.erase i⟩
    else
      match g.semaphore.wait with
      | some s => ⟨s, g.writer, i :: g.readers⟩
      | none => g

/-- The gate after the threads have made their calls in the order of the schedule. -/
def Gate.run (g : Gate) (schedule : List Thread) : Gate := schedule.foldl Gate.step g

/-! ## Concrete inputs for the request handlers and the game thread -/

/-- A ten-letter row with every position revealed. -/
def tenLetterRow : List TCHAR := TEXT "catdoghens"

/-- The server on which `Ana` alone is registered, the row is `catdoghens`, the clear event
is not set and the dictionary holds the word `cat`. -/
def anaPlaying : Server :=
  ⟨onlyAna, ⟨1⟩, ⟨10, tenLetterRow⟩, false, [(TEXT "cat", true)]⟩

/-- The registry in which `Ana` alone is registered, with the largest score an `int32_t`
holds. -/
def anaAtTopScore : GameData :=
  ⟨[(1, TEXT "Ana")], [(2147483647, TEXT "Ana")],
   [(TEXT "Ana", ⟨1, 2147483647, GameData.pipeName (TEXT "Ana"), 1⟩)]⟩

/-- The server of `anaPlaying` with `Ana` at the largest score. -/
def anaAtTopPlaying : Server :=
  ⟨anaAtTopScore, ⟨1⟩, ⟨10, tenLetterRow⟩, false, [(TEXT "cat", true)]⟩

/-- The server of `anaPlaying` on the registry in which `Ana` and `Bob` both hold id 1. -/
def collidedPlaying : Server :=
  ⟨collided, ⟨1⟩, ⟨10, tenLetterRow⟩, false, [(TEXT "cat", true)]⟩

/-- A guess buffer holding `c`, the letter s with caron (U+0161) and `t`. -/
def caronGuess : WString := [99, 353, 116]

/-- The server in the middle of a twelve-letter game: every position of the row holds a
letter and a correct guess has set the clear event. -/
def twelveLetterGame : Server :=
  ⟨onlyAna, ⟨1⟩, ⟨12, TEXT "abcdefghijkl"⟩, true, [(TEXT "cat", true)]⟩

/-- Login and logout of `Bob` until the id generator stands at -2, and then the login of
`Ana`. -/
def loginNumberMinusOne : List Call :=
  churn 4294967294 ++ [Call.insert allReachable (TEXT "Ana")]

/-- The registry in which `Ana` alone is registered, under id -1. -/
def anaMinusOne : GameData :=
  match GameData.insert allReachable ⟨-2⟩ GameData.empty (TEXT "Ana") 0 with
  | some x => x.2.2
  | none => GameData.empty

/-! ## WordGame_server.cpp and Server.h: configuration and the speed commands -/

/-- Result of `dwordFromRegistryKey`: the DWORD stored under the value name, converted to
`int`, or -1 when the key or the value cannot be read. -/
def dwordFromRegistryKey (dwData : Option Nat) : Int :=
  match dwData with
  | some d => wrap32 d
  | none => -1

/-- The globals `INTERVAL` and `LETTERS` of Server.h, both `uint32_t`. -/
structure Settings where
  INTERVAL : Int
  LETTERS : Nat
deriving DecidableEq, Repr

/-- The globals as Server.h initialises them. -/
def Settings.initial : Settings := ⟨2000, 10⟩

/-- The configuration part of `_tmain`: `ritmo` and `maxletras` are the two values read from
the registry. The product `ritmo * 1000` is computed in `int` and stored as `uint32_t`. -/
def _tmain (ritmo maxletras : Int) : Settings :=
  let LETTERS :=
    if maxletras > 0 then
      (if maxletras < 6 then 6 else if maxletras > 12 then 12 else (toU32 maxletras).toNat)
    else Settings.initial.LETTERS
  let INTERVAL :=
    if ritmo > 0 then toU32 (wrap32 (ritmo * 1000)) else Settings.initial.INTERVAL
  ⟨INTERVAL, LETTERS⟩

/-- The `acelerar` command: the new value of `INTERVAL`, computed in `uint32_t`. -/
def acelerar (INTERVAL : Int) : Int :=
  if toU32 (INTERVAL - 1000) < 1000 then 1000 else toU32 (INTERVAL - 1000)

/-- The `travar` command: the new value of `INTERVAL`, computed in `uint32_t`. -/
def travar (INTERVAL : Int) : Int := toU32 (INTERVAL + 1000)

/-- The two commands that change the interval. -/
inductive SpeedCommand where
  | acelerar
  | travar
deriving DecidableEq, Repr

/-- The interval after one speed command. -/
def SpeedCommand.apply (INTERVAL : Int) : SpeedCommand → Int
  | .acelerar => WordGame.acelerar INTERVAL
  | .travar => WordGame.travar INTERVAL

/-- The interval after the speed commands of a console session, in order. -/
def speedCommands (INTERVAL : Int) (cmds : List SpeedCommand) : Int :=
  cmds.foldl SpeedCommand.apply INTERVAL

/-- The game thread before its loop: the row is cleared and the active length is set from
`LETTERS`. -/
def gameStart (s : Server) (LETTERS : Nat) : Server :=
  ⟨s.data, s.pid_gen, ⟨LETTERS, clear s.state.array⟩, s.clear_handle, s.word_map⟩

/-- The loop of the game thread over the values `rand()` returns, one pass each. -/
def gameLoop (s : Server) (i : Nat) : List Nat → Server × Nat
  | [] => (s, i)
  | rand :: rest => gameLoop (game s i rand).1 (game s i rand).2 rest

/-! ## Client.h: the push listener and the frames a client sends -/

/-- The calls a thread makes on its end of a pipe connection. -/
inductive PipeCall where
  | ConnectNamedPipe
  | ReadFile
  | WriteFile
  | FlushFileBuffers
  | DisconnectNamedPipe
  | CloseHandle
deriving DecidableEq, Repr

/-- One pass of the loop of listenPipeThreadProc in which the server connects and the frame
`inputPacket` is read: the calls made on the client's pipe, in order, and whether the loop
goes on. -/
def listenPipeThreadProc (inputPacket : Packet) : List PipeCall × Bool :=
  let calls :=
    [PipeCall.ConnectNamedPipe, PipeCall.ReadFile, PipeCall.FlushFileBuffers,
     PipeCall.DisconnectNamedPipe]
  if inputPacket.code = MsgFlags.LOGOUT.val then (calls ++ [PipeCall.CloseHandle], false)
  else (calls, true)

/-- Whether a `ReadFile` by the other end of the connection has anything to read: the calls
made on this end include a write before the connection is disconnected. -/
def acknowledged (calls : List PipeCall) : Bool :=
  decide (PipeCall.WriteFile ∈
    calls.takeWhile (fun c => decide (c ≠ PipeCall.DisconnectNamedPipe)))

/-- The operating system as the server meets it when it pushes the frame `p` to a client
whose listener is running: the pipe is there, the write succeeds, and the read of the
acknowledgment succeeds when the listener has written one. -/
def listening (p : Packet) : Win32 :=
  ⟨fun _ => 1, fun _ => true, fun _ => true, fun _ => true,
   fun _ => acknowledged (listenPipeThreadProc p).1⟩

/-- The frame `guessWord` sends for a word typed at the console. -/
def guessWord (gameId : Int) (word : WString) : Option Packet :=
  (_tcscpy_s (BUFFER_SIZE - 5) word).map (fun buffer => ⟨MsgFlags.GUESS.val, gameId, buffer⟩)

/-- The frame botThreadProc sends in one pass of its loop: `gameId` is the id the login
returned, `dictionary` the words of the shared dictionary (rows past its end are empty) and
`rand` the value `rand()` returns. The frame starts as `Packet p = { 0 }`; the loop sets
its id and its buffer. -/
def botThreadProc (gameId : Int) (dictionary : List WString) (rand : Nat) : Option Packet :=
  let idx := rand % MAX_WORDS
  (_tcscpy_s BUFFER_SIZE (dictionary.getD idx [])).map (fun buffer => ⟨0, gameId, buffer⟩)

/-! ## GameData.h and Client.h: the buffers the derived names are formatted into -/

/-- The event name as the client formats it into `eventName`. -/
def eventName (playerName : WString) : Option WString :=
  _stprintf_s (2 * ARRAY_SIZE + 2) [TEXT "Local\\", playerName, TEXT "_update"]

/-- The pipe name as the client formats it into `thisPipeName`. -/
def thisPipeName (playerName : WString) : Option WString :=
  _stprintf_s BUFFER_SIZE [TEXT "\\\\.\\pipe\\", playerName]

/-- The name the client keeps of its command-line argument (`parseCommandLineArguments`):
arguments longer than ARRAY_SIZE are refused. -/
def parseCommandLineArguments (arg : WString) : Option WString :=
  _tcscpy_s (ARRAY_SIZE + 1) arg

/-! ## Server.h: the registry mutex and the gate semaphore as the handlers use them -/

/-- A Win32 mutex: the thread that owns it, if any, and how many times that thread has
acquired it. -/
structure Mutex where
  owner : Option Nat
  count : Nat
deriving DecidableEq, Repr

/-- Result of `WaitForSingleObject(h, INFINITE)` on a mutex by `thread`: the mutex once
acquired, `none` while another thread owns it and the caller keeps waiting. -/
def Mutex.wait (m : Mutex) (thread : Nat) : Option Mutex :=
  match m.owner with
  | none => some ⟨some thread, 1⟩
  | some o => if o = thread then some ⟨some thread, m.count + 1⟩ else none

/-- Result of `ReleaseMutex(h)` by `thread`: the call fails and changes nothing when the
thread does not own the mutex. -/
def Mutex.release (m : Mutex) (thread : Nat) : Mutex :=
  if m.owner = some thread then
    (if m.count ≤ 1 then ⟨none, 0⟩ else ⟨some thread, m.count - 1⟩)
  else m

/-- The number of times `thread` holds the mutex. -/
def Mutex.held (m : Mutex) (thread : Nat) : Nat :=
  if m.owner = some thread then m.count else 0

/-- The two handles the request handlers and the console commands synchronise on. -/
inductive Handle where
  | data_handle
  | semaphore_handle
deriving DecidableEq, Repr

/-- The objects behind the two handles. -/
structure Locks where
  data_handle : Mutex
  semaphore_handle : Semaphore
deriving DecidableEq, Repr

/-- The calls a handler makes on the two handles. -/
inductive LockCall where
  | WaitForSingleObject (h : Handle)
  | ReleaseMutex (h : Handle)
  | ReleaseSemaphore (h : Handle) (n : Nat)
deriving DecidableEq, Repr

/-- One call by `thread`. `none`: the wait does not return. A release through the function
of the other kind of object fails and changes nothing. -/
def Locks.call (thread : Nat) (l : Locks) : LockCall → Option Locks
  | .WaitForSingleObject .data_handle =>
    (l.data_handle.wait thread).map (fun m => ⟨m, l.semaphore_handle⟩)
  | .WaitForSingleObject .semaphore_handle =>
    l.semaphore_handle.wait.map (fun s => ⟨l.data_handle, s⟩)
  | .ReleaseMutex .data_handle => some ⟨l.data_handle.release thread, l.semaphore_handle⟩
  | .ReleaseMutex .semaphore_handle => some l
  | .ReleaseSemaphore .semaphore_handle n =>
    some ⟨l.data_handle, l.semaphore_handle.release n⟩
  | .ReleaseSemaphore .data_handle _ => some l

/-- The calls of a handler, made by `thread` one after the other. -/
def Locks.run (thread : Nat) : Locks → List LockCall → Option Locks
  | l, [] => some l
  | l, c :: cs =>
    match l.call thread c with
    | none => none
    | some l1 => Locks.run thread l1 cs

/-- The locks as initShmEventsSemaphore creates them. -/
def Locks.initial : Locks := ⟨⟨none, 0⟩, ⟨MAX_PLAYERS + 2, MAX_PLAYERS + 2⟩⟩

/-- The calls handleLogout(name) makes on the two handles. -/
def handleLogoutNameLocks : List LockCall :=
  [LockCall.WaitForSingleObject Handle.data_handle, LockCall.ReleaseMutex Handle.data_handle]

/-- The calls handleGuess makes on the two handles: the early return for an unknown id
releases in the order semaphore, mutex; the other paths in the order mutex, semaphore. -/
def handleGuessLocks (s : Server) (gameId : Int) : List LockCall :=
  match s.data.playerName gameId with
  | none =>
    [LockCall.WaitForSingleObject Handle.semaphore_handle,
     LockCall.WaitForSingleObject Handle.data_handle,
     LockCall.ReleaseSemaphore Handle.semaphore_handle 1,
     LockCall.ReleaseMutex Handle.data_handle]
  | some _ =>
    [LockCall.WaitForSingleObject Handle.semaphore_handle,
     LockCall.WaitForSingleObject Handle.data_handle,
     LockCall.ReleaseMutex Handle.data_handle,
     LockCall.ReleaseSemaphore Handle.semaphore_handle 1]

/-- The calls on the two handles made by the command handlers that initCmds registers, for
the command word `cmd` and its argument text `args`. `CreateProcess` is the result of the
call that launches the bot. A word that is no command makes no call. -/
def initCmds (data : GameData) (CreateProcess : Bool) (cmd args : WString) : List LockCall :=
  if cmd = TEXT "listar" then
    [LockCall.WaitForSingleObject Handle.data_handle, LockCall.ReleaseMutex Handle.data_handle]
  else if cmd = TEXT "excluir" then
    [LockCall.WaitForSingleObject Handle.data_handle] ++ handleLogoutNameLocks
      ++ [LockCall.ReleaseMutex Handle.data_handle]
  else if cmd = TEXT "acelerar" then
    [LockCall.WaitForSingleObject Handle.semaphore_handle,
     LockCall.ReleaseSemaphore Handle.semaphore_handle 1]
  else if cmd = TEXT "travar" then
    [LockCall.WaitForSingleObject Handle.semaphore_handle,
     LockCall.ReleaseSemaphore Handle.semaphore_handle 1]
  else if cmd = TEXT "bot" then
    if args.length = 0 ∨ args.length > ARRAY_SIZE + 2 then []
    else if !data.playerExists args then
      if !CreateProcess then
        [LockCall.WaitForSingleObject Handle.data_handle,
         LockCall.ReleaseSemaphore Handle.data_handle 1]
      else
        [LockCall.WaitForSingleObject Handle.data_handle,
         LockCall.ReleaseSemaphore Handle.data_handle 1]
    else
      [LockCall.WaitForSingleObject Handle.data_handle,
       LockCall.ReleaseSemaphore Handle.data_handle 1]
  else []

/-! ## Concrete inputs for the client, the buffers and the locks -/

/-- The server of `anaPlaying` after the game thread has started and made its first pass,
drawing the letter `c`: the row holds `c` and nine positions not yet revealed. -/
def firstTick : Server := (game (gameStart anaPlaying 10) 0 2).1

/-- A name of ten letters, the longest the client accepts. -/
def tenLetterName : WString := TEXT "Bartolomeu"

/-- The five command words of the console. -/
def adminCommands : List WString :=
  [TEXT "listar", TEXT "excluir", TEXT "acelerar", TEXT "travar", TEXT "bot"]

end WordGame

/-! ## Facts about the containers -/

namespace WordGame

namespace StdMap

variable {K V : Type} [DecidableEq K]

theorem find_eq_none_iff (m : List (K × V)) (k : K) :
    find m k = none ↔ k ∉ m.map Prod.fst := by
  induction m with
  | nil => simp [find]
  | cons e rest ih =>
    obtain ⟨k', v⟩ := e
    by_cases h : k' = k
    · simp [find, h]
    · simp only [find, h, if_false, ih, List.map_cons, List.mem_cons]
      constructor
      · intro hn hk
        rcases hk with hk | hk
        · exact h hk.symm
        · exact hn hk
      · intro hn hk
        exact hn (Or.inr hk)

theorem mem_of_find (m : List (K × V)) (k : K) (v : V) (h : find m k = some v) :
    (k, v) ∈ m := by
  induction m with
  | nil => simp [find] at h
  | cons e rest ih =>
    obtain ⟨k', v'⟩ := e
    by_cases hk : k' = k
    · simp only [find, hk, if_true, Option.some.injEq] at h
      subst hk; subst h
      exact List.mem_cons_self _ _
    · simp only [find, hk, if_false] at h
      exact List.mem_cons_of_mem _ (ih h)

theorem find_of_mem (m : List (K × V)) (k : K) (v : V) (hnd : (m.map Prod.fst).Nodup)
    (h : (k, v) ∈ m) : find m k = some v := by
  induction m with
  | nil => simp at h
  | cons e rest ih =>
    obtain ⟨k', v'⟩ := e
    simp only [List.map_cons, List.nodup_cons] at hnd
    rcases List.mem_cons.mp h with heq | hin
    · cases heq
      simp [find]
    · have hne : k' ≠ k := by
        intro hk
        subst hk
        exact hnd.1 (List.mem_map_of_mem Prod.fst hin)
      simp only [find, hne, if_false]
      exact ih hnd.2 hin

theorem mem_erase (m : List (K × V)) (k : K) (e : K × V) :
    e ∈ erase m k ↔ e ∈ m ∧ e.1 ≠ k := by
  simp [erase, List.mem_filter]

theorem erase_of_not_mem (m : List (K × V)) (k : K) (h : k ∉ m.map Prod.fst) :
    erase m k = m := by
  unfold erase
  apply List.filter_eq_self.mpr
  intro e he
  have : e.1 ≠ k := fun hk => h (hk ▸ List.mem_map_of_mem Prod.fst he)
  simpa using this

theorem length_erase (m : List (K × V)) (k : K) (hnd : (m.map Prod.fst).Nodup)
    (h : k ∈ m.map Prod.fst) : (erase m k).length + 1 = m.length := by
  induction m with
  | nil => simp at h
  | cons e rest ih =>
    obtain ⟨k', v'⟩ := e
    simp only [List.map_cons, List.nodup_cons] at hnd
    by_cases hk : k' = k
    · subst hk
      have h1 : erase ((k', v') :: rest) k' = erase rest k' := by
        simp [erase, List.filter_cons]
      rw [h1, erase_of_not_mem rest k' hnd.1]
      simp
    · have h1 : erase ((k', v') :: rest) k = (k', v') :: erase rest k := by
        simp [erase, List.filter_cons, hk]
      have h2 : k ∈ rest.map Prod.fst := by
        simp only [List.map_cons, List.mem_cons] at h
        rcases h with h | h
        · exact absurd h.symm hk
        · exact h
      rw [h1]
      simp only [List.length_cons]
      have := ih hnd.2 h2
      omega

theorem nodup_erase (m : List (K × V)) (k : K) (hnd : (m.map Prod.fst).Nodup) :
    ((erase m k).map Prod.fst).Nodup := by
  unfold erase
  exact List.Nodup.sublist (List.Sublist.map _ (List.filter_sublist _)) hnd

theorem find_erase_self (m : List (K × V)) (k : K) : find (erase m k) k = none := by
  rw [find_eq_none_iff]
  intro h
  obtain ⟨e, he, hk⟩ := List.mem_map.mp h
  exact ((mem_erase m k e).mp he).2 hk

theorem insertNew_perm {A B : Type} (lt : A → A → Bool) (m : List (A × B)) (k : A) (v : B) :
    (insertNew lt m k v).Perm ((k, v) :: m) := by
  induction m with
  | nil => simp [insertNew]
  | cons e rest ih =>
    obtain ⟨k', v'⟩ := e
    by_cases h : lt k k' = true
    · simp [insertNew, h]
    · simp only [insertNew, h]
      exact (List.Perm.cons _ ih).trans (List.Perm.swap _ _ _)

theorem assign_new (lt : K → K → Bool) (m : List (K × V)) (k : K) (v : V)
    (h : k ∉ m.map Prod.fst) : (assign lt m k v).Perm ((k, v) :: m) := by
  have h1 : find m k = none := (find_eq_none_iff m k).mpr h
  simp only [assign, h1, Option.isSome_none]
  exact insertNew_perm lt m k v

theorem map_fst_replace (m : List (K × V)) (k : K) (v : V) :
    (replace m k v).map Prod.fst = m.map Prod.fst := by
  induction m with
  | nil => simp [replace]
  | cons e rest ih =>
    obtain ⟨k', v'⟩ := e
    by_cases h : k' = k
    · simp [replace, h]
    · simp [replace, h, ih]

theorem length_replace (m : List (K × V)) (k : K) (v : V) :
    (replace m k v).length = m.length := by
  have := congrArg List.length (map_fst_replace m k v)
  simpa using this

theorem mem_replace (m : List (K × V)) (k : K) (v : V) (hnd : (m.map Prod.fst).Nodup)
    (hk : k ∈ m.map Prod.fst) (e : K × V) :
    e ∈ replace m k v ↔ e = (k, v) ∨ (e ∈ m ∧ e.1 ≠ k) := by
  induction m with
  | nil => simp at hk
  | cons x rest ih =>
    obtain ⟨k', v'⟩ := x
    simp only [List.map_cons, List.nodup_cons] at hnd
    by_cases h : k' = k
    · subst h
      simp only [replace, if_true, List.mem_cons]
      constructor
      · rintro (h1 | h1)
        · exact Or.inl h1
        · refine Or.inr ⟨Or.inr h1, ?_⟩
          intro he
          exact hnd.1 (he ▸ List.mem_map_of_mem Prod.fst h1)
      · rintro (h1 | ⟨h1 | h1, h2⟩)
        · exact Or.inl h1
        · exact absurd (by rw [h1]) h2
        · exact Or.inr h1
    · have hk' : k ∈ rest.map Prod.fst := by
        simp only [List.map_cons, List.mem_cons] at hk
        rcases hk with hk | hk
        · exact absurd hk.symm h
        · exact hk
      simp only [replace, h, if_false, List.mem_cons, ih hnd.2 hk']
      constructor
      · rintro (h1 | h1 | ⟨h1, h2⟩)
        · refine Or.inr ⟨Or.inl h1, ?_⟩
          rw [h1]; exact h
        · exact Or.inl h1
        · exact Or.inr ⟨Or.inr h1, h2⟩
      · rintro (h1 | ⟨h1 | h1, h2⟩)
        · exact Or.inr (Or.inl h1)
        · exact Or.inl h1
        · exact Or.inr (Or.inr ⟨h1, h2⟩)

end StdMap

theorem isInt32_wrap32 (x : Int) : isInt32 (wrap32 x) := by
  unfold isInt32 wrap32
  omega

theorem wrap32_of_isInt32 (x : Int) (h : isInt32 x) : wrap32 x = x := by
  unfold isInt32 at h
  unfold wrap32
  omega

theorem scoreComp_self (s : Int) : scoreComp s s = false := by
  simp [scoreComp]

theorem scoreComp_iff (a b : Int) (ha : isInt32 a) (hb : isInt32 b) :
    scoreComp a b = false → scoreComp b a = false → a = b := by
  unfold isInt32 at ha hb
  simp only [scoreComp, toU32, decide_eq_false_iff_not, gt_iff_lt, not_lt]
  intro h1 h2
  omega

theorem scoreComp_trans (a b c : Int) :
    scoreComp b a = false → scoreComp c b = false → scoreComp c a = false := by
  simp only [scoreComp, toU32, decide_eq_false_iff_not, gt_iff_lt, not_lt]
  intro h1 h2
  omega

namespace Multimap

theorem insert_perm (m : List (Int × WString)) (e : Int × WString) :
    (insert m e).Perm (e :: m) := by
  induction m with
  | nil => simp [insert]
  | cons x rest ih =>
    by_cases h : scoreComp e.1 x.1 = true
    · simp [insert, h]
    · simp only [insert, h]
      exact (List.Perm.cons _ ih).trans (List.Perm.swap _ _ _)

theorem insert_sorted (m : List (Int × WString)) (e : Int × WString) (h : scoreSorted m) :
    scoreSorted (insert m e) := by
  unfold scoreSorted at *
  induction m with
  | nil => simp [insert]
  | cons x rest ih =>
    rw [List.pairwise_cons] at h
    by_cases hc : scoreComp e.1 x.1 = true
    · simp only [insert, hc, if_true]
      refine List.pairwise_cons.mpr ⟨?_, List.pairwise_cons.mpr h⟩
      intro y hy
      have hxe : scoreComp x.1 e.1 = false := by
        simp only [scoreComp, toU32, decide_eq_true_eq, gt_iff_lt] at hc
        simp only [scoreComp, toU32, decide_eq_false_iff_not, gt_iff_lt, not_lt]
        omega
      rcases List.mem_cons.mp hy with hy | hy
      · rw [hy]; exact hxe
      · exact scoreComp_trans e.1 x.1 y.1 hxe (h.1 y hy)
    · simp only [insert, hc]
      refine List.pairwise_cons.mpr ⟨?_, ih h.2⟩
      intro y hy
      rcases List.mem_cons.mp ((insert_perm rest e).subset hy) with hy | hy
      · rw [hy]; simpa using hc
      · exact h.1 y hy

/-- A range all of whose keys equal `s` up to the entry `(s, n)`: the loop erases the first
occurrence of `(s, n)`. -/
theorem eraseNamed_range (l : List (Int × WString)) (s : Int) (n : WString)
    (hs : isInt32 s) (hr : ∀ e ∈ l, isInt32 e.1) (hsorted : scoreSorted l)
    (hle : ∀ e ∈ l, scoreComp e.1 s = false) (hmem : (s, n) ∈ l) :
    (eraseNamed (l.takeWhile (fun x => !scoreComp s x.1)) n).map
        (fun r => r ++ l.dropWhile (fun x => !scoreComp s x.1)) = some (l.erase (s, n)) := by
  induction l with
  | nil => simp at hmem
  | cons x rest ih =>
    have hsorted' := List.pairwise_cons.mp hsorted
    have hq : scoreComp s x.1 = false := by
      rcases List.mem_cons.mp hmem with h | h
      · rw [← h]; exact scoreComp_self s
      · exact hsorted'.1 _ h
    have hx1 : x.1 = s :=
      scoreComp_iff x.1 s (hr x (List.mem_cons_self _ _)) hs (hle x (List.mem_cons_self _ _)) hq
    simp only [List.takeWhile_cons, List.dropWhile_cons, hq, Bool.not_false, if_true]
    by_cases hn : x.2 = n
    · have hx : x = (s, n) := Prod.ext hx1 hn
      simp only [eraseNamed, hn, if_true, Option.map_some']
      rw [List.takeWhile_append_dropWhile, hx, List.erase_cons_head]
    · have hx : x ≠ (s, n) := fun h => hn (by rw [h])
      have hmem' : (s, n) ∈ rest := by
        rcases List.mem_cons.mp hmem with h | h
        · exact absurd h.symm hx
        · exact h
      have ih' := ih (fun e he => hr e (List.mem_cons_of_mem _ he)) hsorted'.2
        (fun e he => hle e (List.mem_cons_of_mem _ he)) hmem'
      have herase : (x :: rest).erase (s, n) = x :: rest.erase (s, n) := by
        rw [List.erase_cons]
        simp [hx]
      simp only [eraseNamed, hn, if_false, herase]
      cases h : eraseNamed (rest.takeWhile (fun x => !scoreComp s x.1)) n with
      | none => rw [h] at ih'; simp at ih'
      | some r =>
        rw [h] at ih'
        simp only [Option.map_some', Option.some.injEq] at ih' ⊢
        rw [← ih']
        simp

theorem eraseEntry_of_mem (m : List (Int × WString)) (s : Int) (n : WString)
    (hs : isInt32 s) (hr : ∀ e ∈ m, isInt32 e.1) (hsorted : scoreSorted m)
    (hmem : (s, n) ∈ m) : eraseEntry m s n = some (m.erase (s, n)) := by
  induction m with
  | nil => simp at hmem
  | cons x rest ih =>
    have hsorted' := List.pairwise_cons.mp hsorted
    by_cases hp : scoreComp x.1 s = true
    · have hx : x ≠ (s, n) := by
        intro h
        rw [h, scoreComp_self] at hp
        exact Bool.false_ne_true hp
      have hmem' : (s, n) ∈ rest := by
        rcases List.mem_cons.mp hmem with h | h
        · exact absurd h.symm hx
        · exact h
      have ih' := ih (fun e he => hr e (List.mem_cons_of_mem _ he)) hsorted'.2 hmem'
      have herase : (x :: rest).erase (s, n) = x :: rest.erase (s, n) := by
        rw [List.erase_cons]
        simp [hx]
      simp only [eraseEntry, equal_range, List.takeWhile_cons, List.dropWhile_cons, hp,
        if_true, herase] at ih' ⊢
      cases h : eraseNamed ((rest.dropWhile (fun x => scoreComp x.1 s)).takeWhile
          (fun x => !scoreComp s x.1)) n with
      | none => rw [h] at ih'; simp at ih'
      | some r =>
        rw [h] at ih'
        simp only [Option.map_some', Option.some.injEq] at ih' ⊢
        rw [← ih']
        simp
    · have hp' : scoreComp x.1 s = false := by simpa using hp
      have hle : ∀ e ∈ x :: rest, scoreComp e.1 s = false := by
        intro e he
        rcases List.mem_cons.mp he with h | h
        · rw [h]; exact hp'
        · exact scoreComp_trans s x.1 e.1 hp' (hsorted'.1 e h)
      have := eraseNamed_range (x :: rest) s n hs hr hsorted hle hmem
      simp only [eraseEntry, equal_range, List.takeWhile_cons, List.dropWhile_cons, hp',
        List.nil_append]
      simpa using this

end Multimap

namespace GameData

theorem count_eq_one_of_nodup {α : Type} [BEq α] [LawfulBEq α] (l : List α) (a : α)
    (hn : l.Nodup) (h : a ∈ l) : l.count a = 1 := by
  induction l with
  | nil => simp at h
  | cons b rest ih =>
    rw [List.nodup_cons] at hn
    rw [List.count_cons]
    rcases List.mem_cons.mp h with h | h
    · subst h
      rw [List.count_eq_zero_of_not_mem hn.1]
      simp
    · have hb : b ≠ a := fun hb => hn.1 (hb ▸ h)
      rw [ih hn.2 h]
      simp [hb]

theorem linked_of_consistent (g : GameData) (hw : WellFormed g) (hc : Consistent g) :
    Linked g := by
  obtain ⟨hn, hi, -, -, -⟩ := hw
  obtain ⟨hl1, hl2, hc⟩ := hc
  have hnd1 : (g.name_map.map (fun e => (e.2.id, e.1))).Nodup := by
    apply List.Nodup.of_map Prod.snd
    simpa [List.map_map, Function.comp_def] using hn
  have hnd2 : (g.name_map.map (fun e => (e.2.score, e.1))).Nodup := by
    apply List.Nodup.of_map Prod.snd
    simpa [List.map_map, Function.comp_def] using hn
  have hsub1 : g.name_map.map (fun e => (e.2.id, e.1)) ⊆ g.id_map := by
    intro x hx
    obtain ⟨e, he, rfl⟩ := List.mem_map.mp hx
    exact StdMap.mem_of_find _ _ _ (hc e he).1
  have hsub2 : g.name_map.map (fun e => (e.2.score, e.1)) ⊆ g.score_map := by
    intro x hx
    obtain ⟨e, he, rfl⟩ := List.mem_map.mp hx
    apply List.count_pos_iff.mp
    rw [(hc e he).2]
    exact Nat.one_pos
  have hp1 : (g.name_map.map (fun e => (e.2.id, e.1))).Perm g.id_map :=
    (List.subperm_of_subset hnd1 hsub1).perm_of_length_le (by simp [hl1])
  have hp2 : (g.name_map.map (fun e => (e.2.score, e.1))).Perm g.score_map :=
    (List.subperm_of_subset hnd2 hsub2).perm_of_length_le (by simp [hl2])
  refine ⟨?_, ?_, ?_, ?_, hl1, hl2⟩
  · intro e he
    exact ⟨hsub1 (List.mem_map_of_mem _ he), hsub2 (List.mem_map_of_mem _ he)⟩
  · intro e he
    obtain ⟨x, hx, rfl⟩ := List.mem_map.mp (hp1.symm.subset he)
    exact ⟨x.2, hx, rfl⟩
  · intro e he
    obtain ⟨x, hx, rfl⟩ := List.mem_map.mp (hp2.symm.subset he)
    exact ⟨x.2, hx, rfl⟩
  · have := (hp2.map Prod.snd).nodup_iff.mp (by
      simpa [List.map_map, Function.comp_def] using hn)
    exact this

theorem consistent_of_linked (g : GameData) (hw : WellFormed g) (hl : Linked g) :
    Consistent g := by
  obtain ⟨-, hi, -, -, -⟩ := hw
  obtain ⟨he, -, -, hs, hl1, hl2⟩ := hl
  refine ⟨hl1, hl2, ?_⟩
  intro e hmem
  exact ⟨StdMap.find_of_mem _ _ _ hi (he e hmem).1,
    count_eq_one_of_nodup _ _ (List.Nodup.of_map Prod.snd hs) (he e hmem).2⟩

/-- Two name_map entries under one name are one entry. -/
theorem player_unique (g : GameData) (hw : WellFormed g) (n : WString) (p q : Player)
    (hp : (n, p) ∈ g.name_map) (hq : (n, q) ∈ g.name_map) : p = q := by
  have h1 := StdMap.find_of_mem _ _ _ hw.1 hp
  have h2 := StdMap.find_of_mem _ _ _ hw.1 hq
  rw [h1] at h2
  exact Option.some.inj h2

/-- Two id_map entries under one id are one entry. -/
theorem name_unique (g : GameData) (hw : WellFormed g) (i : Int) (n m : WString)
    (hn : (i, n) ∈ g.id_map) (hm : (i, m) ∈ g.id_map) : n = m := by
  have h1 := StdMap.find_of_mem _ _ _ hw.2.1 hn
  have h2 := StdMap.find_of_mem _ _ _ hw.2.1 hm
  rw [h1] at h2
  exact Option.some.inj h2

end GameData

namespace GameData

theorem good_insert (g : GameData) (hw : WellFormed g) (hl : Linked g) (n : WString)
    (p : Player) (hn : n ∉ g.name_map.map Prod.fst) (hi : p.id ∉ g.id_map.map Prod.fst)
    (hs : isInt32 p.score) :
    WellFormed ⟨StdMap.assign intLess g.id_map p.id n,
        Multimap.insert g.score_map (p.score, n), StdMap.assign wstringLess g.name_map n p⟩ ∧
      Linked ⟨StdMap.assign intLess g.id_map p.id n,
        Multimap.insert g.score_map (p.score, n), StdMap.assign wstringLess g.name_map n p⟩ := by
  have pn := StdMap.assign_new wstringLess g.name_map n p hn
  have pi := StdMap.assign_new intLess g.id_map p.id n hi
  have ps := Multimap.insert_perm g.score_map (p.score, n)
  obtain ⟨hw1, hw2, hw3, hw4, hw5⟩ := hw
  obtain ⟨hl1, hl2, hl3, hl4, hl5, hl6⟩ := hl
  have hns : n ∉ g.score_map.map Prod.snd := by
    intro h
    obtain ⟨e, he, rfl⟩ := List.mem_map.mp h
    obtain ⟨q, hq, -⟩ := hl3 e he
    exact hn (List.mem_map_of_mem Prod.fst hq)
  refine ⟨⟨?_, ?_, ?_, ?_, ?_⟩, ⟨?_, ?_, ?_, ?_, ?_, ?_⟩⟩
  · exact (pn.map Prod.fst).nodup_iff.mpr (List.nodup_cons.mpr ⟨hn, hw1⟩)
  · exact (pi.map Prod.fst).nodup_iff.mpr (List.nodup_cons.mpr ⟨hi, hw2⟩)
  · exact Multimap.insert_sorted _ _ hw3
  · intro e he
    rcases List.mem_cons.mp (ps.subset he) with h | h
    · rw [h]; exact hs
    · exact hw4 e h
  · intro e he
    rcases List.mem_cons.mp (pn.subset he) with h | h
    · rw [h]; exact hs
    · exact hw5 e h
  · intro e he
    rcases List.mem_cons.mp (pn.subset he) with h | h
    · rw [h]
      exact ⟨pi.symm.subset (List.mem_cons_self _ _), ps.symm.subset (List.mem_cons_self _ _)⟩
    · exact ⟨pi.symm.subset (List.mem_cons_of_mem _ (hl1 e h).1),
        ps.symm.subset (List.mem_cons_of_mem _ (hl1 e h).2)⟩
  · intro e he
    rcases List.mem_cons.mp (pi.subset he) with h | h
    · rw [h]
      exact ⟨p, pn.symm.subset (List.mem_cons_self _ _), rfl⟩
    · obtain ⟨q, hq, hqi⟩ := hl2 e h
      exact ⟨q, pn.symm.subset (List.mem_cons_of_mem _ hq), hqi⟩
  · intro e he
    rcases List.mem_cons.mp (ps.subset he) with h | h
    · rw [h]
      exact ⟨p, pn.symm.subset (List.mem_cons_self _ _), rfl⟩
    · obtain ⟨q, hq, hqi⟩ := hl3 e h
      exact ⟨q, pn.symm.subset (List.mem_cons_of_mem _ hq), hqi⟩
  · exact (ps.map Prod.snd).nodup_iff.mpr (List.nodup_cons.mpr ⟨hns, hl4⟩)
  · show (StdMap.assign intLess g.id_map p.id n).length
      = (StdMap.assign wstringLess g.name_map n p).length
    rw [pi.length_eq, pn.length_eq]
    simp [hl5]
  · show (Multimap.insert g.score_map (p.score, n)).length
      = (StdMap.assign wstringLess g.name_map n p).length
    rw [ps.length_eq, pn.length_eq]
    simp [hl6]

theorem good_remove (g : GameData) (hw : WellFormed g) (hl : Linked g) (n : WString)
    (p : Player) (hp : (n, p) ∈ g.name_map) :
    WellFormed ⟨StdMap.erase g.id_map p.id, g.score_map.erase (p.score, n),
        StdMap.erase g.name_map n⟩ ∧
      Linked ⟨StdMap.erase g.id_map p.id, g.score_map.erase (p.score, n),
        StdMap.erase g.name_map n⟩ := by
  have hw' := hw
  obtain ⟨hw1, hw2, hw3, hw4, hw5⟩ := hw
  obtain ⟨hl1, hl2, hl3, hl4, hl5, hl6⟩ := hl
  have hsn : g.score_map.Nodup := List.Nodup.of_map Prod.snd hl4
  refine ⟨⟨?_, ?_, ?_, ?_, ?_⟩, ⟨?_, ?_, ?_, ?_, ?_, ?_⟩⟩
  · exact StdMap.nodup_erase _ _ hw1
  · exact StdMap.nodup_erase _ _ hw2
  · exact List.Pairwise.sublist (List.erase_sublist _ _) hw3
  · exact fun e he => hw4 e (List.mem_of_mem_erase he)
  · exact fun e he => hw5 e ((StdMap.mem_erase _ _ _).mp he).1
  · intro e he
    obtain ⟨hmem, hne⟩ := (StdMap.mem_erase _ _ _).mp he
    refine ⟨(StdMap.mem_erase _ _ _).mpr ⟨(hl1 e hmem).1, ?_⟩,
      hsn.mem_erase_iff.mpr ⟨?_, (hl1 e hmem).2⟩⟩
    · intro hid
      have hid' : e.2.id = p.id := hid
      have h1 := (hl1 e hmem).1
      have h2 := (hl1 (n, p) hp).1
      rw [hid'] at h1
      exact hne (name_unique g hw' p.id e.1 n h1 h2)
    · intro heq
      exact hne (congrArg Prod.snd heq)
  · intro e he
    obtain ⟨hmem, hne⟩ := (StdMap.mem_erase _ _ _).mp he
    obtain ⟨q, hq, hqi⟩ := hl2 e hmem
    refine ⟨q, (StdMap.mem_erase _ _ _).mpr ⟨hq, ?_⟩, hqi⟩
    intro hn'
    have hn'' : e.2 = n := hn'
    rw [hn''] at hq
    have := player_unique g hw' n q p hq hp
    apply hne
    rw [← hqi, this]
  · intro e he
    obtain ⟨hne, hmem⟩ := hsn.mem_erase_iff.mp he
    obtain ⟨q, hq, hqs⟩ := hl3 e hmem
    refine ⟨q, (StdMap.mem_erase _ _ _).mpr ⟨hq, ?_⟩, hqs⟩
    intro hn'
    have hn'' : e.2 = n := hn'
    rw [hn''] at hq
    have := player_unique g hw' n q p hq hp
    apply hne
    exact Prod.ext (by rw [← hqs, this]) hn''
  · exact List.Nodup.sublist ((List.erase_sublist _ _).map Prod.snd) hl4
  · have h1 := StdMap.length_erase g.id_map p.id hw2 (List.mem_map_of_mem Prod.fst (hl1 _ hp).1)
    have h2 := StdMap.length_erase g.name_map n hw1 (List.mem_map_of_mem Prod.fst hp)
    show (StdMap.erase g.id_map p.id).length = (StdMap.erase g.name_map n).length
    omega
  · have h2 := StdMap.length_erase g.name_map n hw1 (List.mem_map_of_mem Prod.fst hp)
    have h3 : (g.score_map.erase (p.score, n)).length = g.score_map.length - 1 :=
      List.length_erase_of_mem (hl1 _ hp).2
    have h4 : 0 < g.score_map.length := List.length_pos_of_mem (hl1 _ hp).2
    show (g.score_map.erase (p.score, n)).length = (StdMap.erase g.name_map n).length
    omega

theorem good_update (g : GameData) (hw : WellFormed g) (hl : Linked g) (n : WString)
    (p : Player) (hp : (n, p) ∈ g.name_map) (s : Int) (hs : isInt32 s) :
    WellFormed ⟨g.id_map, Multimap.insert (g.score_map.erase (p.score, n)) (s, n),
        StdMap.replace g.name_map n ⟨p.id, s, p.pipe_name, p.update_handle⟩⟩ ∧
      Linked ⟨g.id_map, Multimap.insert (g.score_map.erase (p.score, n)) (s, n),
        StdMap.replace g.name_map n ⟨p.id, s, p.pipe_name, p.update_handle⟩⟩ := by
  have hw' := hw
  obtain ⟨hw1, hw2, hw3, hw4, hw5⟩ := hw
  obtain ⟨hl1, hl2, hl3, hl4, hl5, hl6⟩ := hl
  have hsn : g.score_map.Nodup := List.Nodup.of_map Prod.snd hl4
  have hk : n ∈ g.name_map.map Prod.fst := List.mem_map_of_mem Prod.fst hp
  have ps := Multimap.insert_perm (g.score_map.erase (p.score, n)) (s, n)
  have hmr := StdMap.mem_replace g.name_map n ⟨p.id, s, p.pipe_name, p.update_handle⟩ hw1 hk
  have hnew : (n, (⟨p.id, s, p.pipe_name, p.update_handle⟩ : Player)) ∈
      StdMap.replace g.name_map n ⟨p.id, s, p.pipe_name, p.update_handle⟩ :=
    (hmr _).mpr (Or.inl rfl)
  have hns : n ∉ (g.score_map.erase (p.score, n)).map Prod.snd := by
    intro h
    obtain ⟨e, he, hen⟩ := List.mem_map.mp h
    obtain ⟨hne, hmem⟩ := hsn.mem_erase_iff.mp he
    obtain ⟨q, hq, hqs⟩ := hl3 e hmem
    rw [hen] at hq
    have := player_unique g hw' n q p hq hp
    exact hne (Prod.ext (by rw [← hqs, this]) hen)
  refine ⟨⟨?_, hw2, ?_, ?_, ?_⟩, ⟨?_, ?_, ?_, ?_, ?_, ?_⟩⟩
  · show ((StdMap.replace g.name_map n _).map Prod.fst).Nodup
    rw [StdMap.map_fst_replace]
    exact hw1
  · exact Multimap.insert_sorted _ _ (List.Pairwise.sublist (List.erase_sublist _ _) hw3)
  · intro e he
    rcases List.mem_cons.mp (ps.subset he) with h | h
    · rw [h]; exact hs
    · exact hw4 e (List.mem_of_mem_erase h)
  · intro e he
    rcases (hmr e).mp he with h | h
    · rw [h]; exact hs
    · exact hw5 e h.1
  · intro e he
    rcases (hmr e).mp he with h | ⟨hmem, hne⟩
    · rw [h]
      exact ⟨(hl1 _ hp).1, ps.symm.subset (List.mem_cons_self _ _)⟩
    · refine ⟨(hl1 e hmem).1, ps.symm.subset (List.mem_cons_of_mem _
        (hsn.mem_erase_iff.mpr ⟨?_, (hl1 e hmem).2⟩))⟩
      intro heq
      exact hne (congrArg Prod.snd heq)
  · intro e he
    obtain ⟨q, hq, hqi⟩ := hl2 e he
    by_cases hen : e.2 = n
    · rw [hen] at hq
      have := player_unique g hw' n q p hq hp
      refine ⟨⟨p.id, s, p.pipe_name, p.update_handle⟩, ?_, ?_⟩
      · rw [hen]; exact hnew
      · rw [← hqi, this]
    · exact ⟨q, (hmr _).mpr (Or.inr ⟨hq, hen⟩), hqi⟩
  · intro e he
    rcases List.mem_cons.mp (ps.subset he) with h | h
    · rw [h]
      exact ⟨⟨p.id, s, p.pipe_name, p.update_handle⟩, hnew, rfl⟩
    · obtain ⟨hne, hmem⟩ := hsn.mem_erase_iff.mp h
      obtain ⟨q, hq, hqs⟩ := hl3 e hmem
      refine ⟨q, (hmr _).mpr (Or.inr ⟨hq, ?_⟩), hqs⟩
      intro hen
      have hen' : e.2 = n := hen
      rw [hen'] at hq
      have := player_unique g hw' n q p hq hp
      exact hne (Prod.ext (by rw [← hqs, this]) hen')
  · exact (ps.map Prod.snd).nodup_iff.mpr (List.nodup_cons.mpr
      ⟨hns, List.Nodup.sublist ((List.erase_sublist _ _).map Prod.snd) hl4⟩)
  · show g.id_map.length = (StdMap.replace g.name_map n _).length
    rw [StdMap.length_replace]
    exact hl5
  · have h3 : (g.score_map.erase (p.score, n)).length = g.score_map.length - 1 :=
      List.length_erase_of_mem (hl1 _ hp).2
    have h4 : 0 < g.score_map.length := List.length_pos_of_mem (hl1 _ hp).2
    show (Multimap.insert (g.score_map.erase (p.score, n)) (s, n)).length
      = (StdMap.replace g.name_map n _).length
    rw [StdMap.length_replace, ps.length_eq, List.length_cons]
    omega

end GameData

namespace StdMap

variable {K V : Type} [DecidableEq K]

theorem find_erase_ne (m : List (K × V)) (k k' : K) (h : k' ≠ k) :
    find (erase m k) k' = find m k' := by
  induction m with
  | nil => simp [erase, find]
  | cons e rest ih =>
    obtain ⟨k0, v0⟩ := e
    by_cases h0 : k0 = k
    · have h1 : erase ((k0, v0) :: rest) k = erase rest k := by
        simp [erase, List.filter_cons, h0]
      have h2 : k0 ≠ k' := fun hh => h (hh ▸ h0)
      rw [h1, ih]
      simp [find, h2]
    · have h1 : erase ((k0, v0) :: rest) k = (k0, v0) :: erase rest k := by
        simp [erase, List.filter_cons, h0]
      rw [h1]
      simp only [find, ih]

theorem find_replace_self (m : List (K × V)) (k : K) (v : V) (h : (find m k).isSome) :
    find (replace m k v) k = some v := by
  induction m with
  | nil => simp [find] at h
  | cons e rest ih =>
    obtain ⟨k0, v0⟩ := e
    by_cases h0 : k0 = k
    · simp [replace, find, h0]
    · simp only [find, h0, if_false] at h
      simp only [replace, find, h0, if_false]
      exact ih h

theorem find_replace_ne (m : List (K × V)) (k k' : K) (v : V) (h : k' ≠ k) :
    find (replace m k v) k' = find m k' := by
  induction m with
  | nil => simp [replace, find]
  | cons e rest ih =>
    obtain ⟨k0, v0⟩ := e
    by_cases h0 : k0 = k
    · have h2 : k0 ≠ k' := fun hh => h (hh ▸ h0)
      have h3 : k ≠ k' := fun hh => h hh.symm
      simp [replace, find, h0, h2, h3]
    · simp only [replace, h0, if_false, find, ih]

theorem find_insertNew_self (lt : K → K → Bool) (m : List (K × V)) (k : K) (v : V)
    (h : find m k = none) : find (insertNew lt m k v) k = some v := by
  induction m with
  | nil => simp [insertNew, find]
  | cons e rest ih =>
    obtain ⟨k0, v0⟩ := e
    by_cases h0 : k0 = k
    · simp [find, h0] at h
    · simp only [find, h0, if_false] at h
      by_cases hlt : lt k k0 = true
      · simp [insertNew, hlt, find]
      · simp only [insertNew, hlt, find, h0, if_false]
        exact ih h

theorem find_insertNew_ne (lt : K → K → Bool) (m : List (K × V)) (k k' : K) (v : V)
    (h : k' ≠ k) : find (insertNew lt m k v) k' = find m k' := by
  have h3 : k ≠ k' := fun hh => h hh.symm
  induction m with
  | nil => simp [insertNew, find, h3]
  | cons e rest ih =>
    obtain ⟨k0, v0⟩ := e
    by_cases hlt : lt k k0 = true
    · simp [insertNew, hlt, find, h3]
    · simp only [insertNew, hlt, find, ih]

theorem find_assign_self (lt : K → K → Bool) (m : List (K × V)) (k : K) (v : V) :
    find (assign lt m k v) k = some v := by
  unfold assign
  by_cases h : (find m k).isSome = true
  · simp only [h, if_true]
    exact find_replace_self m k v h
  · simp only [h]
    apply find_insertNew_self
    simpa using h

theorem find_assign_ne (lt : K → K → Bool) (m : List (K × V)) (k k' : K) (v : V)
    (h : k' ≠ k) : find (assign lt m k v) k' = find m k' := by
  unfold assign
  by_cases h1 : (find m k).isSome = true
  · simp only [h1, if_true]
    exact find_replace_ne m k k' v h
  · simp only [h1]
    exact find_insertNew_ne lt m k k' v h

end StdMap

namespace GameData

theorem isInt32_newScore (s d : Int) : isInt32 (newScore s d) := by
  unfold newScore
  split
  · unfold isInt32; omega
  · exact isInt32_wrap32 _

theorem remove_present (g : GameData) (hw : WellFormed g) (hl : Linked g) (n : WString)
    (p : Player) (hp : StdMap.find g.name_map n = some p) :
    g.remove n = (true, g.without n p) := by
  have hmem := StdMap.mem_of_find _ _ _ hp
  have hid := StdMap.find_of_mem _ _ _ hw.2.1 (hl.1 _ hmem).1
  have hsc := Multimap.eraseEntry_of_mem g.score_map p.score n (hw.2.2.2.2 _ hmem)
    hw.2.2.2.1 hw.2.2.1 (hl.1 _ hmem).2
  simp only [remove, hp, hid, hsc, without]

theorem removeId_present (g : GameData) (hw : WellFormed g) (hl : Linked g) (i : Int)
    (n : WString) (hi : StdMap.find g.id_map i = some n) :
    ∃ p, StdMap.find g.name_map n = some p ∧ p.id = i ∧
      g.removeId i = (true, g.without n p) := by
  obtain ⟨p, hp, hpi⟩ := hl.2.1 _ (StdMap.mem_of_find _ _ _ hi)
  have hfp := StdMap.find_of_mem _ _ _ hw.1 hp
  have hsc := Multimap.eraseEntry_of_mem g.score_map p.score n (hw.2.2.2.2 _ hp)
    hw.2.2.2.1 hw.2.2.1 (hl.1 _ hp).2
  subst hpi
  refine ⟨p, hfp, rfl, ?_⟩
  simp only [removeId, hi, hfp, hsc, without]

theorem updateFound_present (g : GameData) (hw : WellFormed g) (hl : Linked g)
    (n : WString) (p : Player) (hp : (n, p) ∈ g.name_map) (d : Int) :
    g.updateFound n p d = (true, g.rescored n p (newScore p.score d)) := by
  have hsc := Multimap.eraseEntry_of_mem g.score_map p.score n (hw.2.2.2.2 _ hp)
    hw.2.2.2.1 hw.2.2.1 (hl.1 _ hp).2
  simp only [updateFound, hsc, rescored, newScore]

end GameData

/-! ## Registration -/

namespace GameData

theorem insert_of_exists (os : Win32) (pid_gen : Player_ID_Generator) (g : GameData)
    (name : WString) (s : Int) (h : g.playerExists name = true) :
    g.insertFormatted os pid_gen name s = (⟨MsgFlags.NAME_USED.val, -1⟩, pid_gen, g) := by
  simp [insertFormatted, h]

theorem insert_of_full (os : Win32) (pid_gen : Player_ID_Generator) (g : GameData)
    (name : WString) (s : Int) (h : g.playerExists name = false)
    (hfull : MAX_PLAYERS ≤ g.name_map.length) :
    g.insertFormatted os pid_gen name s = (⟨MsgFlags.SERVER_FULL.val, -1⟩, pid_gen, g) := by
  simp [insertFormatted, h, hfull]

theorem insert_of_no_event (os : Win32) (pid_gen : Player_ID_Generator) (g : GameData)
    (name : WString) (s : Int) (h : g.playerExists name = false)
    (hroom : g.name_map.length < MAX_PLAYERS)
    (hev : os.OpenEvent (updateEventName name) = 0) :
    g.insertFormatted os pid_gen name s = (⟨MsgFlags.NO_EVENT.val, -1⟩, pid_gen, g) := by
  have hroom' : ¬ MAX_PLAYERS ≤ g.name_map.length := Nat.not_le.mpr hroom
  simp [insertFormatted, h, hroom', hev]

theorem insert_of_no_pipe (os : Win32) (pid_gen : Player_ID_Generator) (g : GameData)
    (name : WString) (s : Int) (h : g.playerExists name = false)
    (hroom : g.name_map.length < MAX_PLAYERS)
    (hev : os.OpenEvent (updateEventName name) ≠ 0)
    (hpipe : os.WaitNamedPipe (pipeName name) = false) :
    g.insertFormatted os pid_gen name s = (⟨MsgFlags.NO_PIPE.val, -1⟩, pid_gen, g) := by
  have hroom' : ¬ MAX_PLAYERS ≤ g.name_map.length := Nat.not_le.mpr hroom
  simp [insertFormatted, h, hroom', hev, hpipe]

theorem insert_of_accept (os : Win32) (pid_gen : Player_ID_Generator) (g : GameData)
    (name : WString) (s : Int) (h : g.playerExists name = false)
    (hroom : g.name_map.length < MAX_PLAYERS)
    (hev : os.OpenEvent (updateEventName name) ≠ 0)
    (hpipe : os.WaitNamedPipe (pipeName name) = true) :
    g.insertFormatted os pid_gen name s =
      (⟨MsgFlags.LOGIN.val, wrap32 (pid_gen.state + 1)⟩, ⟨wrap32 (pid_gen.state + 1)⟩,
        ⟨StdMap.assign intLess g.id_map (wrap32 (pid_gen.state + 1)) name,
         Multimap.insert g.score_map (s, name),
         StdMap.assign wstringLess g.name_map name
           ⟨wrap32 (pid_gen.state + 1), s, pipeName name,
            os.OpenEvent (updateEventName name)⟩⟩) := by
  have hroom' : ¬ MAX_PLAYERS ≤ g.name_map.length := Nat.not_le.mpr hroom
  simp [insertFormatted, h, hroom', hev, hpipe, Player_ID_Generator.gen]

/-- Every reply other than an accepted login carries id `-1` and changes nothing; an
accepted login makes the name present. -/
theorem insert_outcome (os : Win32) (pid_gen : Player_ID_Generator) (g : GameData)
    (name : WString) (s : Int) :
    ((g.insertFormatted os pid_gen name s).1.flag ≠ MsgFlags.LOGIN.val ∧
        (g.insertFormatted os pid_gen name s).1.id = -1 ∧
        (g.insertFormatted os pid_gen name s).2 = (pid_gen, g)) ∨
      ((g.insertFormatted os pid_gen name s).1 = ⟨MsgFlags.LOGIN.val, wrap32 (pid_gen.state + 1)⟩ ∧
        g.playerExists name = false ∧ g.name_map.length < MAX_PLAYERS ∧
        os.OpenEvent (updateEventName name) ≠ 0 ∧
        os.WaitNamedPipe (pipeName name) = true) := by
  by_cases h : g.playerExists name = true
  · rw [insert_of_exists os pid_gen g name s h]
    exact Or.inl ⟨by simp [MsgFlags.val], rfl, rfl⟩
  · have h' : g.playerExists name = false := by simpa using h
    by_cases hfull : MAX_PLAYERS ≤ g.name_map.length
    · rw [insert_of_full os pid_gen g name s h' hfull]
      exact Or.inl ⟨by simp [MsgFlags.val], rfl, rfl⟩
    · have hroom : g.name_map.length < MAX_PLAYERS := Nat.not_le.mp hfull
      by_cases hev : os.OpenEvent (updateEventName name) = 0
      · rw [insert_of_no_event os pid_gen g name s h' hroom hev]
        exact Or.inl ⟨by simp [MsgFlags.val], rfl, rfl⟩
      · by_cases hpipe : os.WaitNamedPipe (pipeName name) = true
        · rw [insert_of_accept os pid_gen g name s h' hroom hev hpipe]
          exact Or.inr ⟨rfl, h', hroom, hev, hpipe⟩
        · have hpipe' : os.WaitNamedPipe (pipeName name) = false := by
            simpa using hpipe
          rw [insert_of_no_pipe os pid_gen g name s h' hroom hev hpipe']
          exact Or.inl ⟨by simp [MsgFlags.val], rfl, rfl⟩

theorem insert_temp_eq (name : WString) (h : name.length ≤ 8) :
    insert_temp name = some (updateEventName name) := by
  have h6 : (TEXT "Local\\").length = 6 := by decide
  have h7 : (TEXT "_update").length = 7 := by decide
  have hfit : (TEXT "Local\\" ++ (name ++ TEXT "_update")).length + 1 ≤ 2 * 10 + 2 := by
    rw [List.length_append, List.length_append, h6, h7]
    omega
  simp only [insert_temp, _stprintf_s, List.foldr, List.append_nil, ARRAY_SIZE, hfit, if_true,
    updateEventName, List.append_assoc]

theorem insert_temp_none (name : WString) (h : 8 < name.length) : insert_temp name = none := by
  have h6 : (TEXT "Local\\").length = 6 := by decide
  have h7 : (TEXT "_update").length = 7 := by decide
  have hfit : ¬ (TEXT "Local\\" ++ (name ++ TEXT "_update")).length + 1 ≤ 2 * 10 + 2 := by
    rw [List.length_append, List.length_append, h6, h7]
    omega
  simp only [insert_temp, _stprintf_s, List.foldr, List.append_nil, ARRAY_SIZE, hfit, if_false]

theorem insert_pipe_name_eq (name : WString) (h : name.length ≤ 8) :
    insert_pipe_name name = some (pipeName name) := by
  have h9 : (TEXT "\\\\.\\pipe\\").length = 9 := by decide
  have hfit : (TEXT "\\\\.\\pipe\\" ++ name).length + 1 ≤ 2 * 10 + 2 := by
    rw [List.length_append, h9]
    omega
  simp only [insert_pipe_name, _stprintf_s, List.foldr, List.append_nil, ARRAY_SIZE, hfit,
    if_true, pipeName]

/-- insert returns exactly when the name is present, the registry is full, or the name has
at most eight units; what it returns is then what the checks on the formatted names give. -/
theorem insert_returns (os : Win32) (pid_gen : Player_ID_Generator) (g : GameData)
    (name : WString) (s : Int) :
    g.insert os pid_gen name s
      = if g.playerExists name = true ∨ MAX_PLAYERS ≤ g.name_map.length ∨ name.length ≤ 8
        then some (g.insertFormatted os pid_gen name s) else none := by
  by_cases h : g.playerExists name = true
  · simp [insert, insertFormatted, h]
  · have h' : g.playerExists name = false := by simpa using h
    by_cases hfull : MAX_PLAYERS ≤ g.name_map.length
    · simp [insert, insertFormatted, h', hfull]
    · by_cases hlen : name.length ≤ 8
      · simp only [insert, insertFormatted, h', hfull, hlen, insert_temp_eq name hlen,
          insert_pipe_name_eq name hlen, ge_iff_le, Bool.false_eq_true, if_false, or_true,
          if_true, false_or]
        split
        · rfl
        · split <;> rfl
      · have hlen' : 8 < name.length := by omega
        simp [insert, h', hfull, hlen, insert_temp_none name hlen']

theorem insert_some (os : Win32) (pid_gen : Player_ID_Generator) (g : GameData)
    (name : WString) (s : Int) (x : Login_Return_Type × Player_ID_Generator × GameData)
    (h : g.insert os pid_gen name s = some x) : x = g.insertFormatted os pid_gen name s := by
  rw [insert_returns] at h
  split at h
  · exact (Option.some.inj h).symm
  · exact absurd h (by simp)

theorem insert_present (os : Win32) (pid_gen : Player_ID_Generator) (g : GameData)
    (name : WString) (s : Int) (h : g.playerExists name = true) :
    g.insert os pid_gen name s = some (⟨MsgFlags.NAME_USED.val, -1⟩, pid_gen, g) := by
  rw [insert_returns, insert_of_exists os pid_gen g name s h]
  simp [h]

theorem insert_full (os : Win32) (pid_gen : Player_ID_Generator) (g : GameData)
    (name : WString) (s : Int) (h : g.playerExists name = false)
    (hfull : MAX_PLAYERS ≤ g.name_map.length) :
    g.insert os pid_gen name s = some (⟨MsgFlags.SERVER_FULL.val, -1⟩, pid_gen, g) := by
  rw [insert_returns, insert_of_full os pid_gen g name s h hfull]
  simp [hfull]

theorem insert_long_name (os : Win32) (pid_gen : Player_ID_Generator) (g : GameData)
    (name : WString) (s : Int) (h : g.playerExists name = false)
    (hroom : g.name_map.length < MAX_PLAYERS) (hlong : 8 < name.length) :
    g.insert os pid_gen name s = none := by
  rw [insert_returns]
  have h1 : ¬ MAX_PLAYERS ≤ g.name_map.length := by omega
  have h2 : ¬ name.length ≤ 8 := by omega
  simp [h, h1, h2]

theorem insert_of_fits (os : Win32) (pid_gen : Player_ID_Generator) (g : GameData)
    (name : WString) (s : Int) (h : name.length ≤ 8) :
    g.insert os pid_gen name s = some (g.insertFormatted os pid_gen name s) := by
  rw [insert_returns]
  simp [h]

end GameData

theorem call_insert (r r' : Registry) (rep : Reply) (os : Win32) (name : WString)
    (hc : r.call (Call.insert os name) = some (rep, r')) :
    r.data.insert os r.pid_gen name 0 = some (r.data.insertFormatted os r.pid_gen name 0) ∧
      Reply.login (r.data.insertFormatted os r.pid_gen name 0).1 = rep ∧
      (⟨(r.data.insertFormatted os r.pid_gen name 0).2.1,
        (r.data.insertFormatted os r.pid_gen name 0).2.2⟩ : Registry) = r' := by
  simp only [Registry.call, Option.map_eq_some', Prod.mk.injEq] at hc
  obtain ⟨x, hx, h1, h2⟩ := hc
  have hxe := GameData.insert_some os r.pid_gen r.data name 0 x hx
  rw [hxe] at hx h1 h2
  exact ⟨hx, h1, h2⟩

theorem name_map_updateFound (g : GameData) (n : WString) (p : Player) (d : Int) :
    ∃ q, (g.updateFound n p d).2.name_map = StdMap.replace g.name_map n q := by
  simp only [GameData.updateFound]
  split
  · exact ⟨_, rfl⟩
  · exact ⟨_, rfl⟩

theorem isSome_find_replace {K V : Type} [DecidableEq K] (m : List (K × V)) (k k' : K)
    (v : V) (h : (StdMap.find m k').isSome = true) :
    (StdMap.find (StdMap.replace m k v) k').isSome = true := by
  by_cases hk : k' = k
  · subst hk
    rw [StdMap.find_replace_self m k' v h]
    rfl
  · rw [StdMap.find_replace_ne m k k' v hk]
    exact h

/-- A call other than a removal keeps every registered name registered. -/
theorem call_keeps_name (r r' : Registry) (c : Call) (rep : Reply) (n : WString)
    (hc : r.call c = some (rep, r')) (hnr : c.isRemove = false)
    (hp : r.data.playerExists n = true) : r'.data.playerExists n = true := by
  cases c with
  | insert os name =>
    replace hc := (call_insert r _ _ os name hc).2
    rw [← hc.2]
    rcases GameData.insert_outcome os r.pid_gen r.data name 0 with h | ⟨-, h, hroom, hev, hpipe⟩
    · show (r.data.insertFormatted os r.pid_gen name 0).2.2.playerExists n = true
      rw [h.2.2]
      exact hp
    · have hne : n ≠ name := by
        intro heq
        rw [heq, h] at hp
        exact Bool.false_ne_true hp
      show (r.data.insertFormatted os r.pid_gen name 0).2.2.playerExists n = true
      rw [GameData.insert_of_accept os r.pid_gen r.data name 0 h hroom hev hpipe]
      simp only [GameData.playerExists, StdMap.find_assign_ne _ _ _ _ _ hne]
      exact hp
  | remove name => simp [Call.isRemove] at hnr
  | removeId id => simp [Call.isRemove] at hnr
  | update id d =>
    simp only [Registry.call, Option.map_eq_some', Prod.mk.injEq] at hc
    obtain ⟨x, hx, -, hr⟩ := hc
    rw [← hr]
    show x.2.playerExists n = true
    cases hf : StdMap.find r.data.id_map id with
    | none =>
      simp only [GameData.update, hf, Option.some.injEq] at hx
      rw [← hx]
      exact hp
    | some nm =>
      cases hf2 : StdMap.find r.data.name_map nm with
      | none => simp [GameData.update, hf, hf2] at hx
      | some p =>
        simp only [GameData.update, hf, hf2, Option.some.injEq] at hx
        rw [← hx]
        obtain ⟨q, hq⟩ := name_map_updateFound r.data nm p d
        simp only [GameData.playerExists, hq]
        exact isSome_find_replace _ _ _ _ hp
  | updateName name d =>
    simp only [Registry.call, Option.map_eq_some', Prod.mk.injEq] at hc
    obtain ⟨x, hx, -, hr⟩ := hc
    rw [← hr]
    show x.2.playerExists n = true
    cases hf : StdMap.find r.data.name_map name with
    | none => simp [GameData.updateName, hf] at hx
    | some p =>
      simp only [GameData.updateName, hf, Option.some.injEq] at hx
      rw [← hx]
      obtain ⟨q, hq⟩ := name_map_updateFound r.data name p d
      simp only [GameData.playerExists, hq]
      exact isSome_find_replace _ _ _ _ hp

theorem run_keeps_name (cs : List Call) (r r' : Registry) (replies : List Reply)
    (n : WString) (hrun : r.run cs = some (replies, r'))
    (hnr : ∀ c ∈ cs, c.isRemove = false) (hp : r.data.playerExists n = true) :
    r'.data.playerExists n = true := by
  induction cs generalizing r replies with
  | nil =>
    simp only [Registry.run, Option.some.injEq, Prod.mk.injEq] at hrun
    rw [← hrun.2]
    exact hp
  | cons c cs ih =>
    unfold Registry.run at hrun
    split at hrun
    · exact absurd hrun (by simp)
    · rename_i x hx
      simp only [Option.map_eq_some', Prod.mk.injEq] at hrun
      obtain ⟨y, hy, -, hr⟩ := hrun
      subst hr
      exact ih x.2 y.1 hy (fun c' hc' => hnr c' (List.mem_cons_of_mem _ hc'))
        (call_keeps_name r x.2 c x.1 n hx (hnr c (List.mem_cons_self _ _)) hp)

/-- C3: inserting a name that is already present returns NAME_USED with id -1 and leaves
the three indices and the id generator as they were; hence after an accepted insert of a
name, and any calls other than removals, a second insert of that name returns NAME_USED:
the two inserts are never both accepted. -/
theorem insert_name_taken (os os2 : Win32) (pid_gen : Player_ID_Generator) (g : GameData)
    (name : WString) (s s2 : Int) (cs : List Call) (replies : List Reply) (r : Registry) :
    (g.playerExists name = true →
      g.insert os pid_gen name s = some (⟨MsgFlags.NAME_USED.val, -1⟩, pid_gen, g)) ∧
    (∀ x, g.insert os pid_gen name s = some x → x.1.flag = MsgFlags.LOGIN.val →
      (∀ c ∈ cs, c.isRemove = false) →
      (⟨x.2.1, x.2.2⟩ : Registry).run cs = some (replies, r) →
      r.data.insert os2 r.pid_gen name s2
        = some (⟨MsgFlags.NAME_USED.val, -1⟩, r.pid_gen, r.data)) := by
  refine ⟨GameData.insert_present os pid_gen g name s, ?_⟩
  intro x hx h1 hnr hrun
  have hxe := GameData.insert_some os pid_gen g name s x hx
  subst hxe
  apply GameData.insert_present
  apply run_keeps_name cs _ r replies name hrun hnr
  rcases GameData.insert_outcome os pid_gen g name s with h | ⟨-, h, hroom, hev, hpipe⟩
  · exact absurd h1 h.1
  · show (g.insertFormatted os pid_gen name s).2.2.playerExists name = true
    rw [GameData.insert_of_accept os pid_gen g name s h hroom hev hpipe]
    simp [GameData.playerExists, StdMap.find_assign_self]

/-- Witness for C3: a second login of `Ana` while she is registered, at once and after
another login and a score update. -/
theorem insert_name_taken_witness :
    onlyAna.playerExists (TEXT "Ana") = true ∧
      onlyAna.insert allReachable ⟨1⟩ (TEXT "Ana") 0
        = some (⟨MsgFlags.NAME_USED.val, -1⟩, ⟨1⟩, onlyAna) ∧
      GameData.empty.insert allReachable ⟨0⟩ (TEXT "Ana") 0
        = some (⟨MsgFlags.LOGIN.val, 1⟩, ⟨1⟩, onlyAna) ∧
      anaAndBobScored.data.insert allReachable anaAndBobScored.pid_gen (TEXT "Ana") 0
        = some (⟨MsgFlags.NAME_USED.val, -1⟩, anaAndBobScored.pid_gen,
            anaAndBobScored.data) :=
  ⟨by decide,
    (insert_name_taken allReachable allReachable ⟨1⟩ onlyAna (TEXT "Ana") 0 0 [] []
      ⟨⟨1⟩, onlyAna⟩).1 (by decide),
    by decide,
    (insert_name_taken allReachable allReachable ⟨0⟩ GameData.empty (TEXT "Ana") 0 0
      [Call.insert allReachable (TEXT "Bob"), Call.update 1 4]
      [Reply.login ⟨0, 2⟩, Reply.done true] anaAndBobScored).2
      (⟨MsgFlags.LOGIN.val, 1⟩, ⟨1⟩, onlyAna) (by decide) (by decide) (by decide)
      (by decide)⟩

/-- The reply of insert is decided by the first failing check in the order name present
(NAME_USED), registry at capacity (SERVER_FULL), update event unreachable (NO_EVENT), pipe
unreachable (NO_PIPE), and is LOGIN when all four pass; every reply other than LOGIN leaves
the registry and the id generator unchanged. Between the second and the third check the
event name is formatted: for a new name of more than eight units, with room in the
registry, insert does not return. -/
theorem insert_first_failing_check (os : Win32) (pid_gen : Player_ID_Generator)
    (g : GameData) (name : WString) (s : Int) :
    (g.playerExists name = true →
      g.insert os pid_gen name s = some (⟨MsgFlags.NAME_USED.val, -1⟩, pid_gen, g)) ∧
    (g.playerExists name = false → MAX_PLAYERS ≤ g.name_map.length →
      g.insert os pid_gen name s = some (⟨MsgFlags.SERVER_FULL.val, -1⟩, pid_gen, g)) ∧
    (g.playerExists name = false → g.name_map.length < MAX_PLAYERS → 8 < name.length →
      g.insert os pid_gen name s = none) ∧
    (g.playerExists name = false → g.name_map.length < MAX_PLAYERS → name.length ≤ 8 →
      os.OpenEvent (GameData.updateEventName name) = 0 →
      g.insert os pid_gen name s = some (⟨MsgFlags.NO_EVENT.val, -1⟩, pid_gen, g)) ∧
    (g.playerExists name = false → g.name_map.length < MAX_PLAYERS → name.length ≤ 8 →
      os.OpenEvent (GameData.updateEventName name) ≠ 0 →
      os.WaitNamedPipe (GameData.pipeName name) = false →
      g.insert os pid_gen name s = some (⟨MsgFlags.NO_PIPE.val, -1⟩, pid_gen, g)) ∧
    (g.playerExists name = false → g.name_map.length < MAX_PLAYERS → name.length ≤ 8 →
      os.OpenEvent (GameData.updateEventName name) ≠ 0 →
      os.WaitNamedPipe (GameData.pipeName name) = true →
      ∃ g', g.insert os pid_gen name s
        = some (⟨MsgFlags.LOGIN.val, wrap32 (pid_gen.state + 1)⟩,
            ⟨wrap32 (pid_gen.state + 1)⟩, g')) := by
  refine ⟨?_, ?_, ?_, ?_, ?_, ?_⟩
  · exact GameData.insert_present os pid_gen g name s
  · exact GameData.insert_full os pid_gen g name s
  · exact GameData.insert_long_name os pid_gen g name s
  · intro h hroom hfit hev
    rw [GameData.insert_of_fits os pid_gen g name s hfit,
      GameData.insert_of_no_event os pid_gen g name s h hroom hev]
  · intro h hroom hfit hev hpipe
    rw [GameData.insert_of_fits os pid_gen g name s hfit,
      GameData.insert_of_no_pipe os pid_gen g name s h hroom hev hpipe]
  · intro h hroom hfit hev hpipe
    rw [GameData.insert_of_fits os pid_gen g name s hfit,
      GameData.insert_of_accept os pid_gen g name s h hroom hev hpipe]
    exact ⟨_, rfl⟩

/-- C5: a new name of ten letters, which the client accepts, is inserted into the empty
registry. With the update event unreachable the reply decided by the first failing check
is NO_EVENT, and with event and pipe reachable it is LOGIN; but insert returns neither: the
event name does not fit the 22 units of `temp`, and the call ends in the invalid parameter
handler before OpenEvent is reached. The same holds for a name of nine letters. A name of
eight letters gets NO_EVENT, and the two checks made before the name is formatted give
their replies for the long name too. -/
theorem insert_stops_at_long_name :
    tenLetterName.length = ARRAY_SIZE ∧
      GameData.empty.playerExists tenLetterName = false ∧
      GameData.empty.name_map.length < MAX_PLAYERS ∧
      noneReachable.OpenEvent (GameData.updateEventName tenLetterName) = 0 ∧
      GameData.empty.insert noneReachable ⟨0⟩ tenLetterName 0 = none ∧
      GameData.empty.insert allReachable ⟨0⟩ tenLetterName 0 = none ∧
      onlyAna.insert allReachable ⟨1⟩ (TEXT "Francisca") 0 = none ∧
      GameData.empty.insert noneReachable ⟨0⟩ (TEXT "Fernanda") 0
        = some (⟨MsgFlags.NO_EVENT.val, -1⟩, ⟨0⟩, GameData.empty) ∧
      fullHouse.insert allReachable ⟨20⟩ tenLetterName 0
        = some (⟨MsgFlags.SERVER_FULL.val, -1⟩, ⟨20⟩, fullHouse) ∧
      fullHouse.insert allReachable ⟨20⟩ [97] 0
        = some (⟨MsgFlags.NAME_USED.val, -1⟩, ⟨20⟩, fullHouse) := by
  decide

/-! ## Removal and score update -/

namespace GameData

theorem without_name_absent (g : GameData) (hw : WellFormed g) (hl : Linked g) (n : WString)
    (p : Player) (hp : (n, p) ∈ g.name_map) (s : Int) :
    (s, n) ∉ (g.without n p).score_map := by
  intro hmem
  obtain ⟨q, hq, -⟩ := (good_remove g hw hl n p hp).2.2.2.1 _ hmem
  exact ((StdMap.mem_erase _ _ _).mp hq).2 rfl

theorem newScore_eq_max (s d : Int) (h : isInt32 (s + d)) : newScore s d = max 0 (s + d) := by
  unfold newScore
  rw [wrap32_of_isInt32 _ h]
  by_cases hneg : s + d < 0
  · simp only [hneg, if_true]
    omega
  · simp only [hneg, if_false]
    omega

end GameData

/-- C8: in a consistent registry, removing a present player by name returns true, and so
does removing it by id, with the same result; afterwards the player is in none of the three
indices and the entries of every other player are as before. Removing an absent name or an
absent id returns false and leaves the registry as it was. -/
theorem remove_present_or_absent (g : GameData) (hw : g.WellFormed) (hc : g.Consistent)
    (n : WString) (i : Int) :
    (∀ p, StdMap.find g.name_map n = some p →
      (g.remove n).1 = true ∧ g.removeId p.id = g.remove n ∧
      StdMap.find (g.remove n).2.name_map n = none ∧
      StdMap.find (g.remove n).2.id_map p.id = none ∧
      (∀ s, (s, n) ∉ (g.remove n).2.score_map) ∧
      (∀ n', n' ≠ n → StdMap.find (g.remove n).2.name_map n' = StdMap.find g.name_map n') ∧
      (∀ i', i' ≠ p.id → StdMap.find (g.remove n).2.id_map i' = StdMap.find g.id_map i') ∧
      (∀ e, e.2 ≠ n → (g.remove n).2.score_map.count e = g.score_map.count e)) ∧
    (StdMap.find g.name_map n = none → g.remove n = (false, g)) ∧
    (StdMap.find g.id_map i = none → g.removeId i = (false, g)) := by
  have hl := GameData.linked_of_consistent g hw hc
  refine ⟨?_, ?_, ?_⟩
  · intro p hp
    have hmem := StdMap.mem_of_find _ _ _ hp
    have hid := StdMap.find_of_mem _ _ _ hw.2.1 (hl.1 _ hmem).1
    obtain ⟨q, hq, -, hrid⟩ := GameData.removeId_present g hw hl p.id n hid
    rw [hp] at hq
    cases hq
    rw [GameData.remove_present g hw hl n p hp]
    refine ⟨rfl, hrid, ?_, ?_, ?_, ?_, ?_, ?_⟩
    · exact StdMap.find_erase_self _ _
    · exact StdMap.find_erase_self _ _
    · exact GameData.without_name_absent g hw hl n p hmem
    · intro n' hn'
      exact StdMap.find_erase_ne _ _ _ hn'
    · intro i' hi'
      exact StdMap.find_erase_ne _ _ _ hi'
    · intro e he
      apply List.count_erase_of_ne
      intro heq
      exact he (by rw [heq])
  · intro hnone
    simp [GameData.remove, hnone]
  · intro hnone
    simp [GameData.removeId, hnone]

/-- Witness for C8: removing `Ana` from the registry of `Ana` and `Bob`. -/
theorem remove_present_or_absent_witness :
    anaAndBob.WellFormed ∧ anaAndBob.Consistent ∧
      (anaAndBob.remove (TEXT "Ana")).1 = true ∧
      anaAndBob.remove (TEXT "Zoe") = (false, anaAndBob) :=
  ⟨by decide, by decide,
    ((remove_present_or_absent anaAndBob (by decide) (by decide) (TEXT "Ana") 7).1
      ⟨1, 0, GameData.pipeName (TEXT "Ana"), 1⟩ (by decide)).1,
    (remove_present_or_absent anaAndBob (by decide) (by decide) (TEXT "Zoe") 7).2.1
      (by decide)⟩

/-- In a consistent registry, for a player registered under `n` with record `p` and a delta
whose sum with the score fits in `int32_t`, update by id returns true, the stored score
becomes `max 0 (p.score + d)`, and the player has exactly one score_map entry, keyed by the
new score. -/
theorem update_of_consistent (g : GameData) (hw : g.WellFormed) (hc : g.Consistent)
    (n : WString) (p : Player) (d : Int) (hp : StdMap.find g.name_map n = some p)
    (hfit : isInt32 (p.score + d)) :
    ∃ g', g.update p.id d = some (true, g') ∧
      StdMap.find g'.name_map n
        = some ⟨p.id, max 0 (p.score + d), p.pipe_name, p.update_handle⟩ ∧
      g'.score p.id = max 0 (p.score + d) ∧
      g'.score_map.count (max 0 (p.score + d), n) = 1 ∧
      (∀ s, s ≠ max 0 (p.score + d) → (s, n) ∉ g'.score_map) := by
  have hl := GameData.linked_of_consistent g hw hc
  have hmem := StdMap.mem_of_find _ _ _ hp
  have hid := StdMap.find_of_mem _ _ _ hw.2.1 (hl.1 _ hmem).1
  have hgood := GameData.good_update g hw hl n p hmem (max 0 (p.score + d))
    (by rw [← GameData.newScore_eq_max _ _ hfit]; exact GameData.isInt32_newScore _ _)
  have hfind : StdMap.find (g.rescored n p (max 0 (p.score + d))).name_map n
      = some ⟨p.id, max 0 (p.score + d), p.pipe_name, p.update_handle⟩ :=
    StdMap.find_replace_self _ _ _ (by rw [hp]; rfl)
  refine ⟨g.rescored n p (max 0 (p.score + d)), ?_, hfind, ?_, ?_, ?_⟩
  · simp only [GameData.update, hid, hp, GameData.updateFound_present g hw hl n p hmem d,
      GameData.newScore_eq_max _ _ hfit]
  · have hid' : StdMap.find (g.rescored n p (max 0 (p.score + d))).id_map p.id = some n := hid
    simp only [GameData.score, hid', hfind]
  · exact GameData.count_eq_one_of_nodup _ _ (List.Nodup.of_map Prod.snd hgood.2.2.2.2.1)
      (hgood.2.1 _ (StdMap.mem_of_find _ _ _ hfind)).2
  · intro s hs hin
    obtain ⟨q, hq, hqs⟩ := hgood.2.2.2.1 _ hin
    have := GameData.player_unique _ hgood.1 n q _ hq (StdMap.mem_of_find _ _ _ hfind)
    rw [this] at hqs
    exact hs hqs.symm

/-! ## Sequences of calls -/

theorem length_remove_le (g : GameData) (n : WString) :
    (g.remove n).2.name_map.length ≤ g.name_map.length := by
  have h : (StdMap.erase g.name_map n).length ≤ g.name_map.length := List.length_filter_le _ _
  simp only [GameData.remove]
  split
  · split
    · split
      · exact h
      · exact h
    · exact h
  · exact Nat.le_refl _

theorem length_removeId_le (g : GameData) (i : Int) :
    (g.removeId i).2.name_map.length ≤ g.name_map.length := by
  simp only [GameData.removeId]
  split
  · split
    · split
      · exact List.length_filter_le _ _
      · exact List.length_filter_le _ _
    · exact Nat.le_refl _
  · exact Nat.le_refl _

theorem length_updateFound (g : GameData) (n : WString) (p : Player) (d : Int) :
    (g.updateFound n p d).2.name_map.length = g.name_map.length := by
  simp only [GameData.updateFound]
  split
  · exact StdMap.length_replace _ _ _
  · exact StdMap.length_replace _ _ _

theorem length_insert_le (os : Win32) (pid_gen : Player_ID_Generator) (g : GameData)
    (n : WString) (s : Int) (h : g.name_map.length ≤ MAX_PLAYERS) :
    (g.insertFormatted os pid_gen n s).2.2.name_map.length ≤ MAX_PLAYERS := by
  rcases GameData.insert_outcome os pid_gen g n s with h1 | ⟨-, hnew, hroom, hev, hpipe⟩
  · rw [h1.2.2]
    exact h
  · rw [GameData.insert_of_accept os pid_gen g n s hnew hroom hev hpipe]
    have hnot : n ∉ g.name_map.map Prod.fst := by
      apply (StdMap.find_eq_none_iff _ _).mp
      simpa [GameData.playerExists] using hnew
    show (StdMap.assign wstringLess g.name_map n _).length ≤ MAX_PLAYERS
    rw [(StdMap.assign_new wstringLess g.name_map n _ hnot).length_eq, List.length_cons]
    exact hroom

theorem call_count (r r' : Registry) (c : Call) (rep : Reply)
    (h : r.data.name_map.length ≤ MAX_PLAYERS) (hc : r.call c = some (rep, r')) :
    r'.data.name_map.length ≤ MAX_PLAYERS := by
  cases c with
  | insert os name =>
    replace hc := (call_insert r _ _ os name hc).2
    rw [← hc.2]
    exact length_insert_le os r.pid_gen r.data name 0 h
  | remove name =>
    simp only [Registry.call, Option.some.injEq, Prod.mk.injEq] at hc
    rw [← hc.2]
    exact Nat.le_trans (length_remove_le _ _) h
  | removeId id =>
    simp only [Registry.call, Option.some.injEq, Prod.mk.injEq] at hc
    rw [← hc.2]
    exact Nat.le_trans (length_removeId_le _ _) h
  | update id d =>
    simp only [Registry.call, Option.map_eq_some', Prod.mk.injEq] at hc
    obtain ⟨x, hx, -, hr⟩ := hc
    rw [← hr]
    show x.2.name_map.length ≤ MAX_PLAYERS
    unfold GameData.update at hx
    split at hx
    · cases hx
      exact h
    · split at hx
      · exact absurd hx (by simp)
      · cases hx
        rw [length_updateFound]
        exact h
  | updateName name d =>
    simp only [Registry.call, Option.map_eq_some', Prod.mk.injEq] at hc
    obtain ⟨x, hx, -, hr⟩ := hc
    rw [← hr]
    show x.2.name_map.length ≤ MAX_PLAYERS
    unfold GameData.updateName at hx
    split at hx
    · exact absurd hx (by simp)
    · cases hx
      rw [length_updateFound]
      exact h

theorem run_count (cs : List Call) (r r' : Registry) (replies : List Reply)
    (h : r.data.name_map.length ≤ MAX_PLAYERS) (hrun : r.run cs = some (replies, r')) :
    r'.data.name_map.length ≤ MAX_PLAYERS := by
  induction cs generalizing r replies with
  | nil =>
    simp only [Registry.run, Option.some.injEq, Prod.mk.injEq] at hrun
    rw [← hrun.2]
    exact h
  | cons c cs ih =>
    unfold Registry.run at hrun
    split at hrun
    · exact absurd hrun (by simp)
    · rename_i x hx
      simp only [Option.map_eq_some', Prod.mk.injEq] at hrun
      obtain ⟨y, hy, -, hr⟩ := hrun
      subst hr
      exact ih x.2 y.1 (call_count r x.2 c x.1 h hx) hy

/-- C6: every registry reached from the fresh one by insert, remove and update calls holds
at most MAX_PLAYERS = 20 players; and inserting a new name into a registry that holds
MAX_PLAYERS players returns SERVER_FULL with id -1. -/
theorem count_at_most_max_players (cs : List Call) (replies : List Reply) (r : Registry)
    (os : Win32) (pid_gen : Player_ID_Generator) (g : GameData) (name : WString) (s : Int)
    (hrun : Registry.fresh.run cs = some (replies, r))
    (hnew : g.playerExists name = false) (hfull : g.count = MAX_PLAYERS) :
    r.data.count ≤ 20 ∧
      g.insert os pid_gen name s = some (⟨MsgFlags.SERVER_FULL.val, -1⟩, pid_gen, g) := by
  constructor
  · have := run_count cs Registry.fresh r replies (by decide) hrun
    simp only [MAX_PLAYERS] at this
    simp only [GameData.count]
    exact_mod_cast this
  · have hlen : MAX_PLAYERS ≤ g.name_map.length := by
      simp only [GameData.count] at hfull
      have : (g.name_map.length : Int) = (MAX_PLAYERS : Int) := hfull
      exact Nat.le_of_eq (by exact_mod_cast this.symm)
    exact GameData.insert_full os pid_gen g name s hnew hlen

/-- Witness for C6: the twenty-first login. -/
theorem count_at_most_max_players_witness :
    Registry.fresh.run sampleCalls = some sampleOutcome ∧
      fullHouse.playerExists (TEXT "Ana") = false ∧ fullHouse.count = MAX_PLAYERS ∧
      sampleOutcome.2.data.count ≤ 20 ∧
      fullHouse.insert allReachable ⟨20⟩ (TEXT "Ana") 0
        = some (⟨MsgFlags.SERVER_FULL.val, -1⟩, ⟨20⟩, fullHouse) :=
  ⟨by decide, by decide, by decide,
    count_at_most_max_players sampleCalls sampleOutcome.1 sampleOutcome.2 allReachable ⟨20⟩
      fullHouse (TEXT "Ana") 0 (by decide) (by decide) (by decide)⟩

theorem call_ids (r r' : Registry) (c : Call) (rep : Reply)
    (hc : r.call c = some (rep, r')) :
    (rep.acceptedId = none ∧ r'.pid_gen = r.pid_gen) ∨
      (rep.acceptedId = some (wrap32 (r.pid_gen.state + 1)) ∧
        r'.pid_gen.state = wrap32 (r.pid_gen.state + 1)) := by
  cases c with
  | insert os name =>
    replace hc := (call_insert r _ _ os name hc).2
    obtain ⟨hrep, hr⟩ := hc
    subst hrep
    subst hr
    rcases GameData.insert_outcome os r.pid_gen r.data name 0 with h | ⟨-, h, hroom, hev, hp⟩
    · left
      refine ⟨?_, ?_⟩
      · simp [Reply.acceptedId, h.1]
      · show (r.data.insertFormatted os r.pid_gen name 0).2.1 = r.pid_gen
        rw [h.2.2]
    · right
      rw [GameData.insert_of_accept os r.pid_gen r.data name 0 h hroom hev hp]
      exact ⟨by simp [Reply.acceptedId], rfl⟩
  | remove name =>
    simp only [Registry.call, Option.some.injEq, Prod.mk.injEq] at hc
    obtain ⟨hrep, hr⟩ := hc
    subst hrep
    subst hr
    exact Or.inl ⟨rfl, rfl⟩
  | removeId id =>
    simp only [Registry.call, Option.some.injEq, Prod.mk.injEq] at hc
    obtain ⟨hrep, hr⟩ := hc
    subst hrep
    subst hr
    exact Or.inl ⟨rfl, rfl⟩
  | update id d =>
    simp only [Registry.call, Option.map_eq_some', Prod.mk.injEq] at hc
    obtain ⟨x, -, hrep, hr⟩ := hc
    subst hrep
    subst hr
    exact Or.inl ⟨rfl, rfl⟩
  | updateName name d =>
    simp only [Registry.call, Option.map_eq_some', Prod.mk.injEq] at hc
    obtain ⟨x, -, hrep, hr⟩ := hc
    subst hrep
    subst hr
    exact Or.inl ⟨rfl, rfl⟩

theorem run_ids (cs : List Call) (r r' : Registry) (replies : List Reply)
    (hrun : r.run cs = some (replies, r')) (h0 : 0 ≤ r.pid_gen.state)
    (hb : r.pid_gen.state + (acceptedIds replies).length < 2147483648) :
    (∀ i ∈ acceptedIds replies, r.pid_gen.state < i) ∧
      (acceptedIds replies).Pairwise (fun a b => a < b) ∧
      (∀ i, (acceptedIds replies).head? = some i → i = r.pid_gen.state + 1) := by
  induction cs generalizing r replies with
  | nil =>
    simp only [Registry.run, Option.some.injEq, Prod.mk.injEq] at hrun
    rw [← hrun.1]
    simp [acceptedIds]
  | cons c cs ih =>
    unfold Registry.run at hrun
    split at hrun
    · exact absurd hrun (by simp)
    · rename_i x hx
      simp only [Option.map_eq_some', Prod.mk.injEq] at hrun
      obtain ⟨y, hy, hrep, hr⟩ := hrun
      subst hr
      subst hrep
      rcases call_ids r x.2 c x.1 hx with ⟨hnone, hgen⟩ | ⟨hsome, hgen⟩
      · have hacc : acceptedIds (x.1 :: y.1) = acceptedIds y.1 := by
          simp [acceptedIds, List.filterMap_cons, hnone]
        rw [hacc] at hb ⊢
        have := ih x.2 y.1 hy (by rw [hgen]; exact h0) (by rw [hgen]; exact hb)
        rw [hgen] at this
        exact this
      · have hacc : acceptedIds (x.1 :: y.1)
            = wrap32 (r.pid_gen.state + 1) :: acceptedIds y.1 := by
          simp [acceptedIds, List.filterMap_cons, hsome]
        rw [hacc] at hb ⊢
        simp only [List.length_cons, Nat.cast_add, Nat.cast_one] at hb
        have hw : wrap32 (r.pid_gen.state + 1) = r.pid_gen.state + 1 := by
          apply wrap32_of_isInt32
          unfold isInt32
          omega
        rw [hw] at hgen ⊢
        have := ih x.2 y.1 hy (by rw [hgen]; omega) (by rw [hgen]; omega)
        rw [hgen] at this
        refine ⟨?_, ?_, ?_⟩
        · intro i hi
          rcases List.mem_cons.mp hi with h | h
          · omega
          · have := this.1 i h
            omega
        · exact List.pairwise_cons.mpr ⟨this.1, this.2.1⟩
        · intro i hi
          simp only [List.head?_cons, Option.some.injEq] at hi
          exact hi.symm

/-- C7: counted from a fresh server, the first accepted login receives id 1, and as long as
fewer than 2^31 logins have been accepted every accepted login receives an id greater than
all ids handed out before it, whatever removals happen in between. -/
theorem ids_strictly_increase (cs : List Call) (replies : List Reply) (r : Registry)
    (hrun : Registry.fresh.run cs = some (replies, r))
    (hb : (acceptedIds replies).length < 2147483648) :
    (∀ i, (acceptedIds replies).head? = some i → i = 1) ∧
      (acceptedIds replies).Pairwise (fun a b => a < b) := by
  have h := run_ids cs Registry.fresh r replies hrun (by decide)
    (by
      show (0 : Int) + ((acceptedIds replies).length : Int) < 2147483648
      omega)
  refine ⟨?_, h.2.1⟩
  intro i hi
  have := h.2.2 i hi
  simpa [Registry.fresh] using this

/-- Witness for C7: `Ana` logs in again after her logout and receives id 3, not 1. -/
theorem ids_strictly_increase_witness :
    Registry.fresh.run sampleCalls = some sampleOutcome ∧
      acceptedIds sampleOutcome.1 = [1, 2, 3] ∧
      (acceptedIds sampleOutcome.1).Pairwise (fun a b => a < b) :=
  ⟨by decide, by decide,
    (ids_strictly_increase sampleCalls sampleOutcome.1 sampleOutcome.2 (by decide)
      (by decide)).2⟩

theorem wrap32_succ (x : Int) : wrap32 (wrap32 x + 1) = wrap32 (x + 1) := by
  unfold wrap32
  omega

theorem call_inv (r r' : Registry) (N : Nat) (c : Call) (rep : Reply) (h : r.Inv N)
    (hc : r.call c = some (rep, r')) :
    (rep.acceptedId = none ∧ r'.Inv N) ∨
      (rep.acceptedId = some (wrap32 (N + 1)) ∧ (N + 1 ≤ 4294967296 → r'.Inv (N + 1))) := by
  obtain ⟨hw, hl, hst, hids⟩ := h
  cases c with
  | insert os name =>
    replace hc := (call_insert r _ _ os name hc).2
    obtain ⟨hrep, hr⟩ := hc
    subst hrep
    subst hr
    rcases GameData.insert_outcome os r.pid_gen r.data name 0 with h1 | ⟨-, h1, hroom, hev, hp⟩
    · left
      refine ⟨by simp [Reply.acceptedId, h1.1], ?_⟩
      rw [h1.2.2]
      exact ⟨hw, hl, hst, hids⟩
    · right
      rw [GameData.insert_of_accept os r.pid_gen r.data name 0 h1 hroom hev hp]
      have hid : wrap32 (r.pid_gen.state + 1) = wrap32 (N + 1) := by
        rw [hst]
        exact wrap32_succ N
      rw [hid]
      refine ⟨by simp [Reply.acceptedId], ?_⟩
      intro hN
      have hnot : name ∉ r.data.name_map.map Prod.fst := by
        apply (StdMap.find_eq_none_iff _ _).mp
        simpa [GameData.playerExists] using h1
      have hfresh : wrap32 (N + 1) ∉ r.data.id_map.map Prod.fst := by
        intro hmem
        obtain ⟨e, he, heq⟩ := List.mem_map.mp hmem
        obtain ⟨j, hj1, hj2, hj⟩ := hids e he
        rw [hj] at heq
        unfold wrap32 at heq
        omega
      have hgood := GameData.good_insert r.data hw hl name
        ⟨wrap32 (N + 1), 0, GameData.pipeName name, os.OpenEvent (GameData.updateEventName name)⟩
        hnot hfresh (show isInt32 0 by decide)
      refine ⟨hgood.1, hgood.2, ?_, ?_⟩
      · show wrap32 (N + 1) = wrap32 ((N + 1 : Nat) : Int)
        simp
      · intro e he
        rcases List.mem_cons.mp ((StdMap.assign_new intLess r.data.id_map _ name hfresh).subset
          he) with h2 | h2
        · exact ⟨N + 1, by omega, Nat.le_refl _, by rw [h2]; simp⟩
        · obtain ⟨j, hj1, hj2, hj⟩ := hids e h2
          exact ⟨j, hj1, by omega, hj⟩
  | remove name =>
    simp only [Registry.call, Option.some.injEq, Prod.mk.injEq] at hc
    obtain ⟨hrep, hr⟩ := hc
    subst hrep
    subst hr
    left
    refine ⟨rfl, ?_⟩
    cases hf : StdMap.find r.data.name_map name with
    | none =>
      have : r.data.remove name = (false, r.data) := by simp [GameData.remove, hf]
      rw [this]
      exact ⟨hw, hl, hst, hids⟩
    | some p =>
      rw [GameData.remove_present r.data hw hl name p hf]
      have hgood := GameData.good_remove r.data hw hl name p (StdMap.mem_of_find _ _ _ hf)
      exact ⟨hgood.1, hgood.2, hst, fun e he => hids e ((StdMap.mem_erase _ _ _).mp he).1⟩
  | removeId id =>
    simp only [Registry.call, Option.some.injEq, Prod.mk.injEq] at hc
    obtain ⟨hrep, hr⟩ := hc
    subst hrep
    subst hr
    left
    refine ⟨rfl, ?_⟩
    cases hf : StdMap.find r.data.id_map id with
    | none =>
      have : r.data.removeId id = (false, r.data) := by simp [GameData.removeId, hf]
      rw [this]
      exact ⟨hw, hl, hst, hids⟩
    | some n =>
      obtain ⟨p, hp, -, hrem⟩ := GameData.removeId_present r.data hw hl id n hf
      rw [hrem]
      have hgood := GameData.good_remove r.data hw hl n p (StdMap.mem_of_find _ _ _ hp)
      exact ⟨hgood.1, hgood.2, hst, fun e he => hids e ((StdMap.mem_erase _ _ _).mp he).1⟩
  | update id d =>
    simp only [Registry.call, Option.map_eq_some', Prod.mk.injEq] at hc
    obtain ⟨x, hx, hrep, hr⟩ := hc
    subst hrep
    subst hr
    left
    refine ⟨rfl, ?_⟩
    cases hf : StdMap.find r.data.id_map id with
    | none =>
      simp only [GameData.update, hf, Option.some.injEq] at hx
      rw [← hx]
      exact ⟨hw, hl, hst, hids⟩
    | some n =>
      obtain ⟨p, hp, -⟩ := hl.2.1 _ (StdMap.mem_of_find _ _ _ hf)
      have hfp := StdMap.find_of_mem _ _ _ hw.1 hp
      simp only [GameData.update, hf, hfp, Option.some.injEq,
        GameData.updateFound_present r.data hw hl n p hp d] at hx
      rw [← hx]
      have hgood := GameData.good_update r.data hw hl n p hp _ (GameData.isInt32_newScore p.score d)
      exact ⟨hgood.1, hgood.2, hst, hids⟩
  | updateName name d =>
    simp only [Registry.call, Option.map_eq_some', Prod.mk.injEq] at hc
    obtain ⟨x, hx, hrep, hr⟩ := hc
    subst hrep
    subst hr
    left
    refine ⟨rfl, ?_⟩
    cases hf : StdMap.find r.data.name_map name with
    | none => simp [GameData.updateName, hf] at hx
    | some p =>
      have hp := StdMap.mem_of_find _ _ _ hf
      simp only [GameData.updateName, hf, Option.some.injEq,
        GameData.updateFound_present r.data hw hl name p hp d] at hx
      rw [← hx]
      have hgood := GameData.good_update r.data hw hl name p hp _
        (GameData.isInt32_newScore p.score d)
      exact ⟨hgood.1, hgood.2, hst, hids⟩

theorem run_inv (cs : List Call) (r r' : Registry) (N : Nat) (replies : List Reply)
    (h : r.Inv N) (hrun : r.run cs = some (replies, r'))
    (hb : N + (acceptedIds replies).length ≤ 4294967296) :
    r'.Inv (N + (acceptedIds replies).length) := by
  induction cs generalizing r N replies with
  | nil =>
    simp only [Registry.run, Option.some.injEq, Prod.mk.injEq] at hrun
    rw [← hrun.1, ← hrun.2]
    simpa [acceptedIds] using h
  | cons c cs ih =>
    unfold Registry.run at hrun
    split at hrun
    · exact absurd hrun (by simp)
    · rename_i x hx
      simp only [Option.map_eq_some', Prod.mk.injEq] at hrun
      obtain ⟨y, hy, hrep, hr⟩ := hrun
      subst hr
      subst hrep
      rcases call_inv r x.2 N c x.1 h hx with ⟨hnone, hinv⟩ | ⟨hsome, hinv⟩
      · have hacc : acceptedIds (x.1 :: y.1) = acceptedIds y.1 := by
          simp [acceptedIds, List.filterMap_cons, hnone]
        rw [hacc] at hb ⊢
        exact ih x.2 N y.1 hinv hy hb
      · have hacc : acceptedIds (x.1 :: y.1) = wrap32 (N + 1) :: acceptedIds y.1 := by
          simp [acceptedIds, List.filterMap_cons, hsome]
        rw [hacc] at hb ⊢
        simp only [List.length_cons] at hb ⊢
        have := ih x.2 (N + 1) y.1 (hinv (by omega)) hy (by omega)
        have hidx : N + ((acceptedIds y.1).length + 1) = N + 1 + (acceptedIds y.1).length := by
          omega
        rw [hidx]
        exact this

theorem inv_fresh : Registry.fresh.Inv 0 := by
  refine ⟨by decide, ?_, by decide, ?_⟩
  · exact GameData.linked_of_consistent _ (by decide) (by decide)
  · intro e he
    simp [Registry.fresh, GameData.empty] at he

/-- C1 (amended): for every sequence of insert, remove and update calls on a fresh server in
which at most 2^32 logins are accepted, the registry after the sequence is consistent: the
three indices have the same size and every name_map entry has its id_map entry and exactly
one score_map entry. From such a registry a further call is defined exactly when it is not
an update by a name that is absent nor a login that ends in the invalid parameter handler,
that of a new name of more than eight units while there is room. -/
theorem consistent_after_calls (cs : List Call) (replies : List Reply) (r : Registry)
    (hrun : Registry.fresh.run cs = some (replies, r))
    (hb : (acceptedIds replies).length ≤ 4294967296) :
    r.data.Consistent ∧
      ∀ c, (r.call c).isSome = true ↔
        ((∀ n d, c = Call.updateName n d → r.data.playerExists n = true) ∧
          (∀ os n, c = Call.insert os n →
            r.data.playerExists n = true ∨ MAX_PLAYERS ≤ r.data.name_map.length ∨
              n.length ≤ 8)) := by
  have hinv := run_inv cs Registry.fresh r 0 replies inv_fresh hrun (by omega)
  obtain ⟨hw, hl, -, -⟩ := hinv
  refine ⟨GameData.consistent_of_linked _ hw hl, ?_⟩
  intro c
  have hother : ∀ c : Call, (∀ n d, c ≠ Call.updateName n d) → (∀ os n, c ≠ Call.insert os n) →
      ((∀ n d, c = Call.updateName n d → r.data.playerExists n = true) ∧
        (∀ os n, c = Call.insert os n →
          r.data.playerExists n = true ∨ MAX_PLAYERS ≤ r.data.name_map.length ∨
            n.length ≤ 8)) :=
    fun c h1 h2 => ⟨fun n d h => absurd h (h1 n d), fun os n h => absurd h (h2 os n)⟩
  cases c with
  | insert os name =>
    simp only [Registry.call, GameData.insert_returns, Option.isSome_map']
    by_cases hret : r.data.playerExists name = true ∨ MAX_PLAYERS ≤ r.data.name_map.length ∨
        name.length ≤ 8
    · rw [if_pos hret]
      constructor
      · intro _
        constructor
        · intro n d h
          cases h
        · intro os' n h
          cases h
          exact hret
      · intro _
        rfl
    · rw [if_neg hret]
      constructor
      · intro h
        cases h
      · intro h
        exact absurd (h.2 os name rfl) hret
  | remove name =>
    exact ⟨fun _ => hother _ (fun _ _ h => by cases h) (fun _ _ h => by cases h), fun _ => rfl⟩
  | removeId id =>
    exact ⟨fun _ => hother _ (fun _ _ h => by cases h) (fun _ _ h => by cases h), fun _ => rfl⟩
  | update id d =>
    refine ⟨fun _ => hother _ (fun _ _ h => by cases h) (fun _ _ h => by cases h),
      fun _ => ?_⟩
    cases hf : StdMap.find r.data.id_map id with
    | none => simp [Registry.call, GameData.update, hf]
    | some n =>
      obtain ⟨p, hp, -⟩ := hl.2.1 _ (StdMap.mem_of_find _ _ _ hf)
      have hfp := StdMap.find_of_mem _ _ _ hw.1 hp
      simp [Registry.call, GameData.update, hf, hfp]
  | updateName name d =>
    cases hf : StdMap.find r.data.name_map name with
    | none =>
      constructor
      · intro h
        simp [Registry.call, GameData.updateName, hf] at h
      · intro h
        have := h.1 name d rfl
        simp [GameData.playerExists, hf] at this
    | some p =>
      constructor
      · intro _
        constructor
        · intro n d h
          cases h
          simp [GameData.playerExists, hf]
        · intro os n h
          cases h
      · intro _
        simp [Registry.call, GameData.updateName, hf]

/-- Witness for C1 (amended): the short session. -/
theorem consistent_after_calls_witness :
    Registry.fresh.run sampleCalls = some sampleOutcome ∧
      (acceptedIds sampleOutcome.1).length ≤ 4294967296 ∧
      sampleOutcome.2.data.Consistent :=
  ⟨by decide, by decide,
    (consistent_after_calls sampleCalls sampleOutcome.1 sampleOutcome.2 (by decide)
      (by decide)).1⟩

/-! ## The id generator going round -/

theorem erase_insertNew {K V : Type} [DecidableEq K] (lt : K → K → Bool) (m : List (K × V))
    (k : K) (v : V) (h : k ∉ m.map Prod.fst) :
    StdMap.erase (StdMap.insertNew lt m k v) k = m := by
  induction m with
  | nil => simp [StdMap.insertNew, StdMap.erase]
  | cons x rest ih =>
    obtain ⟨k0, v0⟩ := x
    have hk0 : k0 ≠ k := by
      intro hk
      exact h (by simp [hk])
    have hrest : k ∉ rest.map Prod.fst := fun hin => h (by simp [hin])
    by_cases hlt : lt k k0 = true
    · simp only [StdMap.insertNew, hlt, if_true]
      have h1 : StdMap.erase ((k, v) :: (k0, v0) :: rest) k
          = StdMap.erase ((k0, v0) :: rest) k := by
        simp [StdMap.erase, List.filter_cons]
      rw [h1]
      exact StdMap.erase_of_not_mem _ _ h
    · simp only [StdMap.insertNew, hlt, Bool.false_eq_true, if_false]
      have h1 : StdMap.erase ((k0, v0) :: StdMap.insertNew lt rest k v) k
          = (k0, v0) :: StdMap.erase (StdMap.insertNew lt rest k v) k := by
        simp [StdMap.erase, List.filter_cons, hk0]
      rw [h1, ih hrest]

theorem erase_assign_new {K V : Type} [DecidableEq K] (lt : K → K → Bool) (m : List (K × V))
    (k : K) (v : V) (h : k ∉ m.map Prod.fst) :
    StdMap.erase (StdMap.assign lt m k v) k = m := by
  have h1 : StdMap.find m k = none := (StdMap.find_eq_none_iff m k).mpr h
  simp only [StdMap.assign, h1, Option.isSome_none]
  exact erase_insertNew lt m k v h

theorem erase_multimap_insert (m : List (Int × WString)) (e : Int × WString) (h : e ∉ m) :
    (Multimap.insert m e).erase e = m := by
  induction m with
  | nil => simp [Multimap.insert]
  | cons x rest ih =>
    have hx : x ≠ e := fun hx => h (by simp [hx])
    have hrest : e ∉ rest := fun hin => h (List.mem_cons_of_mem _ hin)
    by_cases hc : scoreComp e.1 x.1 = true
    · simp only [Multimap.insert, hc, if_true]
      exact List.erase_cons_head _ _
    · simp only [Multimap.insert, hc, Bool.false_eq_true, if_false]
      rw [List.erase_cons]
      simp [hx, ih hrest]

/-- A login that is accepted and undone by a logout leaves the registry as it was and the
generator one step further. -/
theorem run_login_logout (c : Int) (g : GameData) (name : WString) (rest : List Call)
    (hw : g.WellFormed) (hl : g.Linked) (hnew : g.playerExists name = false)
    (hroom : g.name_map.length < MAX_PLAYERS)
    (hfresh : wrap32 (c + 1) ∉ g.id_map.map Prod.fst) (hfit : name.length ≤ 8) :
    (⟨⟨c⟩, g⟩ : Registry).run (Call.insert allReachable name :: Call.remove name :: rest)
      = ((⟨⟨wrap32 (c + 1)⟩, g⟩ : Registry).run rest).map
          (fun y => (Reply.login ⟨MsgFlags.LOGIN.val, wrap32 (c + 1)⟩
            :: Reply.done true :: y.1, y.2)) := by
  have hnot : name ∉ g.name_map.map Prod.fst := by
    apply (StdMap.find_eq_none_iff _ _).mp
    simpa [GameData.playerExists] using hnew
  have hins : g.insert allReachable ⟨c⟩ name 0 = some _ :=
    (GameData.insert_of_fits allReachable ⟨c⟩ g name 0 hfit).trans
      (congrArg some (GameData.insert_of_accept allReachable ⟨c⟩ g name 0 hnew hroom
        (by simp [allReachable]) (by simp [allReachable])))
  have hgood := GameData.good_insert g hw hl name
    ⟨wrap32 (c + 1), 0, GameData.pipeName name,
      allReachable.OpenEvent (GameData.updateEventName name)⟩ hnot hfresh
    (show isInt32 0 by decide)
  have hscore : ((0 : Int), name) ∉ g.score_map := by
    intro hin
    obtain ⟨q, hq, -⟩ := hl.2.2.1 _ hin
    exact hnot (List.mem_map_of_mem Prod.fst hq)
  have hrem := GameData.remove_present _ hgood.1 hgood.2 name _
    (StdMap.find_assign_self wstringLess g.name_map name _)
  have hback : GameData.without
      ⟨StdMap.assign intLess g.id_map (wrap32 (c + 1)) name,
        Multimap.insert g.score_map (0, name),
        StdMap.assign wstringLess g.name_map name
          ⟨wrap32 (c + 1), 0, GameData.pipeName name,
            allReachable.OpenEvent (GameData.updateEventName name)⟩⟩ name
      ⟨wrap32 (c + 1), 0, GameData.pipeName name,
        allReachable.OpenEvent (GameData.updateEventName name)⟩ = g := by
    simp only [GameData.without, erase_assign_new _ _ _ _ hfresh,
      erase_assign_new _ _ _ _ hnot, erase_multimap_insert _ _ hscore]
  rw [hback] at hrem
  simp only [Registry.run, Registry.call, hins, hrem, Option.map_map, Option.map_some']
  rfl

theorem run_churn (k : Nat) (c : Int) (rest : List Call) (hc : isInt32 c)
    (hne : ∀ j : Nat, j < k → wrap32 (c + j + 1) ≠ 1) :
    ∃ reps, (⟨⟨c⟩, onlyAna⟩ : Registry).run (churn k ++ rest)
      = ((⟨⟨wrap32 (c + k)⟩, onlyAna⟩ : Registry).run rest).map
          (fun y => (reps ++ y.1, y.2)) := by
  induction k generalizing c with
  | zero =>
    refine ⟨[], ?_⟩
    have h0 : wrap32 (c + ((0 : Nat) : Int)) = c := by
      rw [Nat.cast_zero, add_zero]
      exact wrap32_of_isInt32 c hc
    rw [h0]
    simp [churn]
  | succ k ih =>
    have h1 : wrap32 (c + 1) ≠ 1 := by
      have := hne 0 (Nat.succ_pos k)
      simpa using this
    have hfresh : wrap32 (c + 1) ∉ onlyAna.id_map.map Prod.fst := by
      intro hin
      have : onlyAna.id_map.map Prod.fst = [1] := by decide
      rw [this] at hin
      exact h1 (by simpa using hin)
    obtain ⟨reps, hreps⟩ := ih (wrap32 (c + 1)) (isInt32_wrap32 _) (by
      intro j hj
      have := hne (j + 1) (by omega)
      unfold wrap32 at this ⊢
      push_cast at this
      omega)
    have hstate : wrap32 (wrap32 (c + 1) + (k : Int)) = wrap32 (c + ((k + 1 : Nat) : Int)) := by
      unfold wrap32
      push_cast
      omega
    refine ⟨Reply.login ⟨MsgFlags.LOGIN.val, wrap32 (c + 1)⟩ :: Reply.done true :: reps, ?_⟩
    have hstep := run_login_logout c onlyAna (TEXT "Bob") (churn k ++ rest) (by decide)
      (GameData.linked_of_consistent _ (by decide) (by decide)) (by decide) (by decide) hfresh
      (by decide)
    show (⟨⟨c⟩, onlyAna⟩ : Registry).run
        (Call.insert allReachable (TEXT "Bob") :: Call.remove (TEXT "Bob") :: (churn k ++ rest))
      = _
    rw [hstep, hreps, hstate, Option.map_map]
    rfl

/-- C1 as stated fails: once the 32-bit id generator has gone round, a login receives an id
that is still in use, and id_map then holds one entry for two registered players. -/
theorem inconsistent_after_wrap_around :
    ∃ replies r, Registry.fresh.run wrapAround = some (replies, r) ∧
      r.data.id_map.length = 1 ∧ r.data.name_map.length = 2 ∧ ¬ r.data.Consistent := by
  have h1 : Registry.fresh.call (Call.insert allReachable (TEXT "Ana"))
      = some (Reply.login ⟨0, 1⟩, ⟨⟨1⟩, onlyAna⟩) := by decide
  obtain ⟨reps, hreps⟩ := run_churn 4294967295 1 [Call.insert allReachable (TEXT "Bob")]
    (by decide) (by
      intro j hj
      unfold wrap32
      omega)
  have h2 : wrap32 (1 + ((4294967295 : Nat) : Int)) = 0 := by
    unfold wrap32
    omega
  have h3 : (⟨⟨0⟩, onlyAna⟩ : Registry).run [Call.insert allReachable (TEXT "Bob")]
      = some ([Reply.login ⟨0, 1⟩], ⟨⟨1⟩, collided⟩) := by decide
  refine ⟨Reply.login ⟨0, 1⟩ :: (reps ++ [Reply.login ⟨0, 1⟩]), ⟨⟨1⟩, collided⟩, ?_,
    by decide, by decide, by decide⟩
  unfold wrapAround
  rw [Registry.run, h1]
  simp only []
  rw [hreps, h2, h3]
  rfl

/-! ## Guess validation and lookup by id at concrete inputs -/

/-- C2: with an active length of 12 and the row `cbdefghijkat`, the word `cat` is formable
from the row and is in the dictionary, yet word_match answers false, because it counts only
the first ARRAY_SIZE = 10 positions. On the row of the specification's own example the first
loop indexes the frequency table at `0 - 'a'`, outside its 26 entries. -/
theorem word_match_counts_ten_positions :
    formable (TEXT "cat") twelveLetterRow 12 ∧
      StdMap.find [(TEXT "cat", true)] (TEXT "cat") = some true ∧
      word_match [(TEXT "cat", true)] (TEXT "cat") twelveLetterRow = some false ∧
      word_match [(TEXT "bad", true), (TEXT "cab", true), (TEXT "zzz", true)] (TEXT "bad")
        halfRevealedRow = none := by
  decide

/-- C9: for `Ana`, registered with id 1, playerName returns the pipe name `\\.\pipe\Ana`
and not the name; looking that result up by name gives -1, not 1. -/
theorem playerName_is_pipe_name :
    onlyAna.byName (TEXT "Ana") = 1 ∧
      onlyAna.playerName 1 = some (TEXT "\\\\.\\pipe\\Ana") ∧
      onlyAna.playerName 1 ≠ some (TEXT "Ana") ∧
      onlyAna.byName (TEXT "\\\\.\\pipe\\Ana") = -1 := by
  decide

/-- C10: after the logout of id 1 the registry still holds `Ana` in all three indices and
count is still 1, because remove is called with the pipe name; the logout by name, which
passes the name itself, does remove her. -/
theorem logout_by_id_keeps_player :
    onlyAna.count = 1 ∧
      (handleLogout allReachable onlyAna 1).1 = onlyAna ∧
      (handleLogout allReachable onlyAna 1).1.count = 1 ∧
      (handleLogout allReachable onlyAna 1).1.playerExists (TEXT "Ana") = true ∧
      (handleLogoutName allReachable onlyAna (TEXT "Ana")).1 = GameData.empty := by
  decide

/-! ## Broadcast -/

theorem deliver_pipe_name (os : Win32) (n : WString) (p : Packet) (ack : Bool) :
    (deliver os n p ack).pipe_name = n := by
  unfold deliver
  split
  · rfl
  · split
    · rfl
    · split <;> rfl

theorem deliver_packet (os : Win32) (n : WString) (p : Packet) (ack : Bool) :
    (deliver os n p ack).packet = p := by
  unfold deliver
  split
  · rfl
  · split
    · rfl
    · split <;> rfl

/-- C15: whatever the outcome of each delivery, broadcast makes one delivery attempt, with
the message given, to the pipe of every player whose id differs from `except`, in name_map
order, and to every player when `except` is -1. Broadcast is a const member function: it is
a function of the registry that yields no registry, so the registry is as before. -/
theorem broadcast_attempts (os : Win32) (g : GameData) (p : Packet) (except : Int) :
    (g.broadcast os p except).map Attempt.pipe_name
        = (g.name_map.filter (fun pr => decide (except = -1 ∨ pr.2.id ≠ except))).map
            (fun pr => pr.2.pipe_name) ∧
      (∀ a ∈ g.broadcast os p except, a.packet = p) ∧
      (except = -1 → (g.broadcast os p except).map Attempt.pipe_name
        = g.name_map.map (fun pr => pr.2.pipe_name)) := by
  have hfilter : g.name_map.filter
        (fun pr => !(decide (except ≠ -1) && decide (pr.2.id = except)))
      = g.name_map.filter (fun pr => decide (except = -1 ∨ pr.2.id ≠ except)) := by
    apply List.filter_congr
    intro pr _
    by_cases h1 : except = -1 <;> by_cases h2 : pr.2.id = except <;> simp [h1, h2]
  have hmap : (g.broadcast os p except).map Attempt.pipe_name
      = (g.name_map.filter (fun pr => decide (except = -1 ∨ pr.2.id ≠ except))).map
          (fun pr => pr.2.pipe_name) := by
    simp only [GameData.broadcast, hfilter, List.map_map]
    apply List.map_congr_left
    intro pr _
    exact deliver_pipe_name os _ p true
  refine ⟨hmap, ?_, ?_⟩
  · intro a ha
    simp only [GameData.broadcast, List.mem_map] at ha
    obtain ⟨pr, -, rfl⟩ := ha
    exact deliver_packet os _ p true
  · intro h
    rw [hmap]
    congr 1
    apply List.filter_eq_self.mpr
    intro pr _
    simp [h]

/-- Witness for C15: `Bob` is left out of a broadcast that excepts id 2, and nobody is left
out when every pipe is unreachable and `except` is -1. -/
theorem broadcast_attempts_witness :
    (anaAndBob.broadcast allReachable ⟨8, 0, TEXT "Eve"⟩ 2).map Attempt.pipe_name
        = [GameData.pipeName (TEXT "Ana")] ∧
      (anaAndBob.broadcast noneReachable ⟨8, 0, TEXT "Eve"⟩ (-1)).map Attempt.pipe_name
        = [GameData.pipeName (TEXT "Ana"), GameData.pipeName (TEXT "Bob")] :=
  ⟨(broadcast_attempts allReachable anaAndBob ⟨8, 0, TEXT "Eve"⟩ 2).1.trans (by decide),
    ((broadcast_attempts noneReachable anaAndBob ⟨8, 0, TEXT "Eve"⟩ (-1)).2.2 rfl).trans
      (by decide)⟩

/-! ## Score query -/

theorem mem_replace_or {K V : Type} [DecidableEq K] (m : List (K × V)) (k : K) (v : V)
    (e : K × V) (h : e ∈ StdMap.replace m k v) : e = (k, v) ∨ e ∈ m := by
  induction m with
  | nil => simp [StdMap.replace] at h
  | cons x rest ih =>
    obtain ⟨k0, v0⟩ := x
    by_cases hk : k0 = k
    · simp only [StdMap.replace, hk, if_true, List.mem_cons] at h
      rcases h with h | h
      · exact Or.inl h
      · exact Or.inr (List.mem_cons_of_mem _ h)
    · simp only [StdMap.replace, hk, if_false, List.mem_cons] at h
      rcases h with h | h
      · exact Or.inr (by rw [h]; exact List.mem_cons_self _ _)
      · rcases ih h with h1 | h1
        · exact Or.inl h1
        · exact Or.inr (List.mem_cons_of_mem _ h1)

theorem mem_assign_or {K V : Type} [DecidableEq K] (lt : K → K → Bool) (m : List (K × V))
    (k : K) (v : V) (e : K × V) (h : e ∈ StdMap.assign lt m k v) : e = (k, v) ∨ e ∈ m := by
  unfold StdMap.assign at h
  split at h
  · exact mem_replace_or m k v e h
  · exact List.mem_cons.mp ((StdMap.insertNew_perm lt m k v).subset h)

theorem newScore_nonneg (s d : Int) : 0 ≤ GameData.newScore s d := by
  unfold GameData.newScore
  split
  · exact Int.le_refl 0
  · omega

theorem name_map_updateFound_eq (g : GameData) (n : WString) (p : Player) (d : Int) :
    (g.updateFound n p d).2.name_map = StdMap.replace g.name_map n
      ⟨p.id, GameData.newScore p.score d, p.pipe_name, p.update_handle⟩ := by
  simp only [GameData.updateFound, GameData.newScore]
  split <;> rfl

theorem name_map_remove_subset (g : GameData) (n : WString) :
    ∀ e ∈ (g.remove n).2.name_map, e ∈ g.name_map := by
  intro e
  have h : e ∈ StdMap.erase g.name_map n → e ∈ g.name_map :=
    fun he => ((StdMap.mem_erase _ _ _).mp he).1
  simp only [GameData.remove]
  split
  · split
    · split
      · exact h
      · exact h
    · exact h
  · exact id

theorem name_map_removeId_subset (g : GameData) (i : Int) :
    ∀ e ∈ (g.removeId i).2.name_map, e ∈ g.name_map := by
  intro e
  simp only [GameData.removeId]
  split
  · split
    · split
      · exact fun he => ((StdMap.mem_erase _ _ _).mp he).1
      · exact fun he => ((StdMap.mem_erase _ _ _).mp he).1
    · exact id
  · exact id

/-- No call makes a score negative. -/
theorem call_scores_nonneg (r r' : Registry) (c : Call) (rep : Reply)
    (h : ∀ e ∈ r.data.name_map, 0 ≤ e.2.score) (hc : r.call c = some (rep, r')) :
    ∀ e ∈ r'.data.name_map, 0 ≤ e.2.score := by
  cases c with
  | insert os name =>
    replace hc := (call_insert r _ _ os name hc).2
    rw [← hc.2]
    rcases GameData.insert_outcome os r.pid_gen r.data name 0 with h1 | ⟨-, hn, hroom, hev, hp⟩
    · show ∀ e ∈ (r.data.insertFormatted os r.pid_gen name 0).2.2.name_map, 0 ≤ e.2.score
      rw [h1.2.2]
      exact h
    · show ∀ e ∈ (r.data.insertFormatted os r.pid_gen name 0).2.2.name_map, 0 ≤ e.2.score
      rw [GameData.insert_of_accept os r.pid_gen r.data name 0 hn hroom hev hp]
      intro e he
      rcases mem_assign_or _ _ _ _ e he with h2 | h2
      · rw [h2]
      · exact h e h2
  | remove name =>
    simp only [Registry.call, Option.some.injEq, Prod.mk.injEq] at hc
    rw [← hc.2]
    exact fun e he => h e (name_map_remove_subset _ _ e he)
  | removeId id =>
    simp only [Registry.call, Option.some.injEq, Prod.mk.injEq] at hc
    rw [← hc.2]
    exact fun e he => h e (name_map_removeId_subset _ _ e he)
  | update id d =>
    simp only [Registry.call, Option.map_eq_some', Prod.mk.injEq] at hc
    obtain ⟨x, hx, -, hr⟩ := hc
    rw [← hr]
    show ∀ e ∈ x.2.name_map, 0 ≤ e.2.score
    unfold GameData.update at hx
    split at hx
    · cases hx
      exact h
    · split at hx
      · exact absurd hx (by simp)
      · cases hx
        rw [name_map_updateFound_eq]
        intro e he
        rcases mem_replace_or _ _ _ e he with h2 | h2
        · rw [h2]
          exact newScore_nonneg _ _
        · exact h e h2
  | updateName name d =>
    simp only [Registry.call, Option.map_eq_some', Prod.mk.injEq] at hc
    obtain ⟨x, hx, -, hr⟩ := hc
    rw [← hr]
    show ∀ e ∈ x.2.name_map, 0 ≤ e.2.score
    unfold GameData.updateName at hx
    split at hx
    · exact absurd hx (by simp)
    · cases hx
      rw [name_map_updateFound_eq]
      intro e he
      rcases mem_replace_or _ _ _ e he with h2 | h2
      · rw [h2]
        exact newScore_nonneg _ _
      · exact h e h2

theorem run_scores_nonneg (cs : List Call) (r r' : Registry) (replies : List Reply)
    (h : ∀ e ∈ r.data.name_map, 0 ≤ e.2.score) (hrun : r.run cs = some (replies, r')) :
    ∀ e ∈ r'.data.name_map, 0 ≤ e.2.score := by
  induction cs generalizing r replies with
  | nil =>
    simp only [Registry.run, Option.some.injEq, Prod.mk.injEq] at hrun
    rw [← hrun.2]
    exact h
  | cons c cs ih =>
    unfold Registry.run at hrun
    split at hrun
    · exact absurd hrun (by simp)
    · rename_i x hx
      simp only [Option.map_eq_some', Prod.mk.injEq] at hrun
      obtain ⟨y, hy, -, hr⟩ := hrun
      subst hr
      exact ih x.2 y.1 (call_scores_nonneg r x.2 c x.1 h hx) hy

/-- C13: `Ana`, id 1 and score 0, guesses `cat` on the row `catdoghens` with `cat` in the
dictionary. The guess is accepted and one GUESS frame is broadcast with her new score 1 in
its id field, but its payload is the first eleven units of her pipe name, `\\.\pipe\An`,
not her name. -/
theorem guess_frame_carries_pipe_name :
    onlyAna.byName (TEXT "Ana") = 1 ∧ onlyAna.score 1 = 0 ∧
      (handleGuess allReachable anaPlaying 1 (TEXT "cat")).map
          (fun r => r.2.map Attempt.packet)
        = some [⟨MsgFlags.GUESS.val, 1, TEXT "\\\\.\\pipe\\An"⟩] ∧
      TEXT "\\\\.\\pipe\\An" ≠ TEXT "Ana" := by
  decide

/-- C12: `Ana` sends the word made of `c`, the letter U+0161 and `t`. The word is not in the
dictionary, which holds `cat` only, and is not formable from the row `catdoghens`; yet the
handler raises her score from 0 to 1, sets the clear event and broadcasts a GUESS frame,
because it keeps only the low byte of each unit and so validates `cat`. -/
theorem narrowed_guess_is_accepted :
    frameWord caronGuess = [99, 353, 116] ∧
      StdMap.find anaPlaying.word_map (frameWord caronGuess) = none ∧
      ¬ formable (frameWord caronGuess) anaPlaying.state.array 10 ∧
      guessOf caronGuess = TEXT "cat" ∧
      anaPlaying.data.score 1 = 0 ∧ anaPlaying.clear_handle = false ∧
      (handleGuess allReachable anaPlaying 1 caronGuess).map
          (fun r => (r.1.data.score 1, r.1.clear_handle, r.2.map (fun a => a.packet.code)))
        = some (1, true, [MsgFlags.GUESS.val]) := by
  decide

/-- C20: with an active length of 12, a row holding `abcdefghijkl`, the cursor at 0 and the
clear event set, one pass of the game thread resets the event and writes the new letter at
position 0, but positions 10 and 11 still hold `k` and `l`: clear zeroes ARRAY_SIZE = 10
positions, whatever the active length. -/
theorem clear_leaves_positions_past_ten :
    twelveLetterGame.state.t = 12 ∧ twelveLetterGame.clear_handle = true ∧
      (game twelveLetterGame 0 25).1.clear_handle = false ∧
      (game twelveLetterGame 0 25).1.state.array
        = [122, 0, 0, 0, 0, 0, 0, 0, 0, 0, 107, 108] := by
  decide

/-! ## An accepted guess -/

theorem tableIndex_some (c : Nat) (j : Nat) (h : tableIndex c = some j) :
    97 ≤ c ∧ c ≤ 122 := by
  unfold tableIndex at h
  simp only at h
  split at h
  · omega
  · exact absurd h (by simp)

theorem useLetters_true (t : List Int) (w : List Nat) (h : useLetters t w = some true) :
    ∀ c ∈ w, 97 ≤ c ∧ c ≤ 122 := by
  induction w generalizing t with
  | nil => simp
  | cons c cs ih =>
    unfold useLetters at h
    split at h
    · exact absurd h (by simp)
    · rename_i j hj
      simp only at h
      split at h
      · exact absurd h (by simp)
      · intro x hx
        rcases List.mem_cons.mp hx with hx | hx
        · rw [hx]
          exact tableIndex_some c j hj
        · exact ih _ h x hx

theorem word_match_true (wm : List (WString × Bool)) (w : List Nat) (array : List TCHAR)
    (h : word_match wm w array = some true) : ∀ c ∈ w, 97 ≤ c ∧ c ≤ 122 := by
  unfold word_match at h
  split at h
  · exact absurd h (by simp)
  · split at h
    · exact absurd h (by simp)
    · exact absurd h (by simp)
    · rename_i hu
      exact useLetters_true _ _ hu

theorem narrow_letter (c : Nat) (h : 97 ≤ c ∧ c ≤ 122) : narrow c = c := by
  have h1 : c % 256 = c := Nat.mod_eq_of_lt (by omega)
  have h2 : c < 128 := by omega
  unfold narrow
  simp [h1, h2]

theorem guessOf_letters (buffer : WString)
    (h : ∀ c : Nat, c ∈ frameWord buffer → 97 ≤ c ∧ c ≤ 122) :
    guessOf buffer = frameWord buffer ∧ cstr (guessOf buffer) = frameWord buffer := by
  have h1 : guessOf buffer = frameWord buffer := by
    unfold guessOf
    conv_rhs => rw [← List.map_id (frameWord buffer)]
    apply List.map_congr_left
    intro c hc
    exact narrow_letter c (h c hc)
  refine ⟨h1, ?_⟩
  rw [h1]
  unfold cstr
  apply List.takeWhile_eq_self_iff.mpr
  intro c hc
  have h97 := (h c hc).1
  simp only [decide_eq_true_eq]
  intro h0
  rw [h0] at h97
  exact absurd h97 (by decide)

/-- In a consistent registry, for a player registered under the id with a score from 0 up to
2^31 - 2, and a frame whose word is not empty and is accepted by word_match against the
current row, the guess handler raises that player's score by exactly 1 and sets the clear
event; the entries of every other player, the ids and the names registered, and the letter
row are as before. -/
theorem accepted_guess_of_consistent (os : Win32) (s : Server) (id : Int) (n : WString)
    (p : Player) (buffer : WString) (hw : s.data.WellFormed) (hc : s.data.Consistent)
    (hid : StdMap.find s.data.id_map id = some n)
    (hp : StdMap.find s.data.name_map n = some p)
    (hlow : 0 ≤ p.score) (hhigh : p.score < 2147483647)
    (hne : frameWord buffer ≠ [])
    (hacc : word_match s.word_map (frameWord buffer) s.state.array = some true) :
    ∃ s' pushes, handleGuess os s id buffer = some (s', pushes) ∧
      s'.data.score id = p.score + 1 ∧ s'.clear_handle = true ∧
      (∀ n', n' ≠ n → StdMap.find s'.data.name_map n' = StdMap.find s.data.name_map n') ∧
      s'.data.id_map = s.data.id_map ∧
      s'.data.name_map.map Prod.fst = s.data.name_map.map Prod.fst ∧
      s'.state = s.state := by
  have hl := GameData.linked_of_consistent _ hw hc
  have hmem := StdMap.mem_of_find _ _ _ hp
  have hg := guessOf_letters buffer (word_match_true _ _ _ hacc)
  have hname : s.data.playerName id = some p.pipe_name := by
    simp [GameData.playerName, hid, hp]
  have hnew : GameData.newScore p.score 1 = p.score + 1 := by
    rw [GameData.newScore_eq_max _ _ (by unfold isInt32; omega)]
    omega
  have hupd : s.data.update id 1 = some (true, s.data.rescored n p (p.score + 1)) := by
    simp only [GameData.update, hid, hp, GameData.updateFound_present _ hw hl n p hmem 1, hnew]
  have hfind : StdMap.find (s.data.rescored n p (p.score + 1)).name_map n
      = some ⟨p.id, p.score + 1, p.pipe_name, p.update_handle⟩ :=
    StdMap.find_replace_self _ _ _ (by rw [hp]; rfl)
  have hguess : guessOf buffer ≠ [] := by
    rw [hg.1]
    exact hne
  refine ⟨⟨s.data.rescored n p (p.score + 1), s.pid_gen, s.state, true, s.word_map⟩,
    (s.data.rescored n p (p.score + 1)).broadcast os
      ⟨MsgFlags.GUESS.val, (s.data.rescored n p (p.score + 1)).score id,
        tcsncpy p.pipe_name (ARRAY_SIZE + 1)⟩ (-1),
    ?_, ?_, rfl, ?_, rfl, ?_, rfl⟩
  · simp only [handleGuess, hname, hguess, if_false, hg.2, hacc, hupd]
  · have hid' : StdMap.find (s.data.rescored n p (p.score + 1)).id_map id = some n := hid
    simp only [GameData.score, hid', hfind]
  · intro n' hn'
    exact StdMap.find_replace_ne _ _ _ _ hn'
  · exact StdMap.map_fst_replace _ _ _

/-! ## Logout by name -/

theorem handleLogoutName_present (os : Win32) (g : GameData) (n : WString) (p : Player)
    (hw : g.WellFormed) (hl : g.Linked) (hp : StdMap.find g.name_map n = some p)
    (hid : p.id ≠ -1) :
    handleLogoutName os g n
      = (g.without n p,
          deliver os p.pipe_name ⟨MsgFlags.LOGOUT.val, 0, []⟩ false ::
            (g.without n p).name_map.map (fun pr => deliver os pr.2.pipe_name
              ⟨MsgFlags.PLAYER_LOGOUT.val, 0, tcsncpy n (ARRAY_SIZE + 1)⟩ true)) := by
  have hmem := StdMap.mem_of_find _ _ _ hp
  have hfid := StdMap.find_of_mem _ _ _ hw.2.1 (hl.1 _ hmem).1
  have hgood := GameData.good_remove g hw hl n p hmem
  have hfilter : ∀ b : Bool, (g.without n p).name_map.filter
        (fun pr => !(b && decide (pr.2.id = p.id)))
      = (g.without n p).name_map := by
    intro b
    apply List.filter_eq_self.mpr
    intro pr hpr
    have h1 := (hgood.2.1 pr hpr).1
    have h2 : pr.2.id ≠ p.id := ((StdMap.mem_erase _ _ _).mp h1).2
    simp [h2]
  simp only [handleLogoutName, GameData.byName, hp, hid, ne_eq, not_false_eq_true, if_true,
    GameData.send, hfid, GameData.remove_present g hw hl n p hp, GameData.broadcast, hfilter,
    List.singleton_append]

/-- In a consistent registry, for a player registered under the name with an id other than
-1, the logout by name leaves the registry that remove(name) leaves, in which the name and
the id are in no index; the first push attempted is the LOGOUT frame to the pipe of that
player, written whenever that pipe can be opened and written to, and it is followed by one
PLAYER_LOGOUT frame to each of the players that remain. -/
theorem kick_of_consistent (os : Win32) (g : GameData) (n : WString) (p : Player)
    (hw : g.WellFormed) (hc : g.Consistent) (hp : StdMap.find g.name_map n = some p)
    (hid : p.id ≠ -1) :
    (handleLogoutName os g n).1 = (g.remove n).2 ∧
      StdMap.find (handleLogoutName os g n).1.name_map n = none ∧
      StdMap.find (handleLogoutName os g n).1.id_map p.id = none ∧
      (∀ sc, (sc, n) ∉ (handleLogoutName os g n).1.score_map) ∧
      (handleLogoutName os g n).2
        = deliver os p.pipe_name ⟨MsgFlags.LOGOUT.val, 0, []⟩ false ::
            (handleLogoutName os g n).1.name_map.map (fun pr => deliver os pr.2.pipe_name
              ⟨MsgFlags.PLAYER_LOGOUT.val, 0, tcsncpy n (ARRAY_SIZE + 1)⟩ true) ∧
      (os.CreateFile p.pipe_name = true → os.WriteFile p.pipe_name = true →
        (deliver os p.pipe_name ⟨MsgFlags.LOGOUT.val, 0, []⟩ false).outcome
          = Delivery.delivered) := by
  have hl := GameData.linked_of_consistent g hw hc
  rw [handleLogoutName_present os g n p hw hl hp hid, GameData.remove_present g hw hl n p hp]
  refine ⟨rfl, ?_, ?_, ?_, rfl, ?_⟩
  · exact StdMap.find_erase_self _ _
  · exact StdMap.find_erase_self _ _
  · exact GameData.without_name_absent g hw hl n p (StdMap.mem_of_find _ _ _ hp)
  · intro h1 h2
    simp [deliver, h1, h2]

theorem run_churn_empty (k : Nat) (c : Int) (rest : List Call) (hc : isInt32 c) :
    ∃ reps, (⟨⟨c⟩, GameData.empty⟩ : Registry).run (churn k ++ rest)
      = ((⟨⟨wrap32 (c + k)⟩, GameData.empty⟩ : Registry).run rest).map
          (fun y => (reps ++ y.1, y.2)) := by
  induction k generalizing c with
  | zero =>
    refine ⟨[], ?_⟩
    have h0 : wrap32 (c + ((0 : Nat) : Int)) = c := by
      rw [Nat.cast_zero, add_zero]
      exact wrap32_of_isInt32 c hc
    rw [h0]
    simp [churn]
  | succ k ih =>
    obtain ⟨reps, hreps⟩ := ih (wrap32 (c + 1)) (isInt32_wrap32 _)
    have hstate : wrap32 (wrap32 (c + 1) + (k : Int)) = wrap32 (c + ((k + 1 : Nat) : Int)) := by
      unfold wrap32
      push_cast
      omega
    refine ⟨Reply.login ⟨MsgFlags.LOGIN.val, wrap32 (c + 1)⟩ :: Reply.done true :: reps, ?_⟩
    have hstep := run_login_logout c GameData.empty (TEXT "Bob") (churn k ++ rest) (by decide)
      (GameData.linked_of_consistent _ (by decide) (by decide)) (by decide) (by decide)
      (by simp [GameData.empty]) (by decide)
    show (⟨⟨c⟩, GameData.empty⟩ : Registry).run
        (Call.insert allReachable (TEXT "Bob") :: Call.remove (TEXT "Bob") :: (churn k ++ rest))
      = _
    rw [hstep, hreps, hstate, Option.map_map]
    rfl

/-- The player whose login received id -1, the 4294967295th id the generator hands out, is
not kicked: byName returns her id, the handler takes it for the not-found mark, and she is
neither sent a frame nor removed. -/
theorem id_minus_one_is_skipped :
    ∃ replies r, Registry.fresh.run loginNumberMinusOne = some (replies, r) ∧
      r.data.byName (TEXT "Ana") = -1 ∧ r.data.playerExists (TEXT "Ana") = true ∧
      handleLogoutName allReachable r.data (TEXT "Ana") = (r.data, []) := by
  obtain ⟨reps, hreps⟩ := run_churn_empty 4294967294 0 [Call.insert allReachable (TEXT "Ana")]
    (by decide)
  have h2 : wrap32 (0 + ((4294967294 : Nat) : Int)) = -2 := by
    unfold wrap32
    omega
  have h3 : (⟨⟨-2⟩, GameData.empty⟩ : Registry).run [Call.insert allReachable (TEXT "Ana")]
      = some ([Reply.login ⟨0, -1⟩], ⟨⟨-1⟩, anaMinusOne⟩) := by decide
  refine ⟨reps ++ [Reply.login ⟨0, -1⟩], ⟨⟨-1⟩, anaMinusOne⟩, ?_, by decide, by decide,
    by decide⟩
  unfold loginNumberMinusOne
  show (⟨⟨0⟩, GameData.empty⟩ : Registry).run _ = _
  rw [hreps, h2, h3]
  rfl

/-! ## Leaderboard text -/

theorem strLoop_nonneg (l : List (Int × WString)) (k : Int) (h0 : 0 ≤ k)
    (hk : k < 2147483648) : strLoop l k = l.take k.toNat := by
  induction l generalizing k with
  | nil => simp [strLoop]
  | cons pr rest ih =>
    by_cases hz : k = 0
    · simp [strLoop, hz]
    · have hw : wrap32 (k - 1) = k - 1 := by
        apply wrap32_of_isInt32
        unfold isInt32
        omega
      have hs : k.toNat = (k - 1).toNat + 1 := by omega
      simp only [strLoop, hz, if_false, hw, ih (k - 1) (by omega) (by omega), hs,
        List.take_succ_cons]

theorem strLoop_negative (l : List (Int × WString)) (n : Int) (hn : n < 0)
    (hlen : (l.length : Int) ≤ n + 2147483648) : strLoop l n = l := by
  induction l generalizing n with
  | nil => simp [strLoop]
  | cons pr rest ih =>
    simp only [List.length_cons, Nat.cast_add, Nat.cast_one] at hlen
    have hz : n ≠ 0 := by omega
    have hw : wrap32 (n - 1) = n - 1 := by
      apply wrap32_of_isInt32
      unfold isInt32
      omega
    simp only [strLoop, hz, if_false, hw, ih (n - 1) (by omega) (by omega)]

theorem strLoop_take (l : List (Int × WString)) (n : Int) : ∃ k, strLoop l n = l.take k := by
  induction l generalizing n with
  | nil => exact ⟨0, by simp [strLoop]⟩
  | cons pr rest ih =>
    by_cases hz : n = 0
    · exact ⟨0, by simp [strLoop, hz]⟩
    · obtain ⟨k, hk⟩ := ih (wrap32 (n - 1))
      exact ⟨k + 1, by simp [strLoop, hz, hk]⟩

theorem sorted_by_score (l : List (Int × WString)) (hs : scoreSorted l)
    (hr : ∀ e ∈ l, 0 ≤ e.1 ∧ e.1 < 2147483648) : l.Pairwise (fun a b => b.1 ≤ a.1) := by
  unfold scoreSorted at hs
  refine List.Pairwise.imp_of_mem ?_ hs
  intro a b ha hb hab
  have h1 := hr a ha
  have h2 := hr b hb
  simp only [scoreComp, toU32, decide_eq_false_iff_not, gt_iff_lt, not_lt] at hab
  omega

theorem digitChar_range (d : Nat) (hd : d < 10) :
    48 ≤ (Nat.digitChar d).toNat ∧ (Nat.digitChar d).toNat ≤ 57 := by
  interval_cases d <;> decide

theorem toDigitsCore_range (fuel : Nat) (n : Nat) (ds : List Char)
    (hds : ∀ c ∈ ds, 48 ≤ c.toNat ∧ c.toNat ≤ 57) :
    ∀ c ∈ Nat.toDigitsCore 10 fuel n ds, 48 ≤ c.toNat ∧ c.toNat ≤ 57 := by
  induction fuel generalizing n ds with
  | zero => simpa [Nat.toDigitsCore] using hds
  | succ fuel ih =>
    have hcons : ∀ c ∈ Nat.digitChar (n % 10) :: ds, 48 ≤ c.toNat ∧ c.toNat ≤ 57 := by
      intro c hc
      rcases List.mem_cons.mp hc with h | h
      · rw [h]
        exact digitChar_range _ (Nat.mod_lt _ (by decide))
      · exact hds c h
    simp only [Nat.toDigitsCore]
    split
    · exact hcons
    · exact ih _ _ hcons

theorem toDigitsCore_ne_nil (fuel : Nat) (n : Nat) (ds : List Char) (hds : ds ≠ []) :
    Nat.toDigitsCore 10 fuel n ds ≠ [] := by
  induction fuel generalizing n ds with
  | zero => simpa [Nat.toDigitsCore] using hds
  | succ fuel ih =>
    simp only [Nat.toDigitsCore]
    split
    · simp
    · exact ih _ _ (by simp)

/-- The decimal text of a score that is not negative is a non-empty run of digits. -/
theorem decimal_digits (x : Int) (hx : 0 ≤ x) :
    decimal x ≠ [] ∧ ∀ c ∈ decimal x, 48 ≤ c ∧ c ≤ 57 := by
  obtain ⟨n, rfl⟩ := Int.eq_ofNat_of_zero_le hx
  have hrepr : decimal (n : Int) = (Nat.toDigits 10 n).map Char.toNat := rfl
  rw [hrepr]
  constructor
  · intro h
    have h2 : Nat.toDigits 10 n = [] := List.map_eq_nil_iff.mp h
    unfold Nat.toDigits Nat.toDigitsCore at h2
    simp only at h2
    split at h2
    · simp at h2
    · exact toDigitsCore_ne_nil _ _ _ (by simp) h2
  · intro c hc
    obtain ⟨ch, hch, rfl⟩ := List.mem_map.mp hc
    exact toDigitsCore_range _ _ [] (by simp) ch hch

/-- A leaderboard line for a name without a line feed ends in the only line feed it has. -/
theorem line_feed_count (name : List Nat) (score : Int) (hname : 10 ∉ name) (hs : 0 ≤ score) :
    (TEXT "Nome: " ++ name ++ TEXT " Pontuaçăo: " ++ decimal score ++ TEXT "\n").count 10
      = 1 := by
  have h1 : (TEXT "Nome: ").count 10 = 0 := by decide
  have h2 : (TEXT " Pontuaçăo: ").count 10 = 0 := by decide
  have h3 : (TEXT "\n").count 10 = 1 := by decide
  have h4 : name.count 10 = 0 := List.count_eq_zero.mpr hname
  have h5 : (decimal score).count 10 = 0 := by
    apply List.count_eq_zero.mpr
    intro hin
    exact absurd ((decimal_digits score hs).2 10 hin).1 (by decide)
  simp only [List.count_append, h1, h2, h3, h4, h5]

theorem lines_feed_count (l : List (Int × List Nat)) (h : ∀ e ∈ l, 10 ∉ e.2 ∧ 0 ≤ e.1) :
    ((l.map (fun e => TEXT "Nome: " ++ e.2 ++ TEXT " Pontuaçăo: " ++ decimal e.1
      ++ TEXT "\n")).foldr (fun line text => line ++ text) []).count 10 = l.length := by
  induction l with
  | nil => rfl
  | cons e rest ih =>
    have he := h e (List.mem_cons_self _ _)
    simp only [List.map_cons, List.foldr_cons, List.length_cons]
    rw [List.count_append, ih (fun e' he' => h e' (List.mem_cons_of_mem _ he')),
      line_feed_count e.2 e.1 he.1 he.2]
    omega

/-- The text of str: the lines of the entries its loop lists. -/
theorem str_eq (g : GameData) (n : Int) :
    g.str n = ((strLoop g.score_map n).map (fun e => TEXT "Nome: " ++ e.2
      ++ TEXT " Pontuaçăo: " ++ decimal e.1 ++ TEXT "\n")).foldr
        (fun line text => line ++ text) [] := rfl

/-- C14: in a consistent registry with non-negative scores whose size count() can hold, the
full listing, score_map, has one entry for every registered player and is in non-increasing
score order. The text of str(-1) is one line `Nome: <name> Pontuaçăo: <score>` with a line
feed for each entry of the full listing, in that order, and the text of str(k) for k from 0
up is that for the first k entries, min(k, count()) of them; str(0) is empty. Every score
is written as a non-empty run of digits, and when no name holds a line feed the number of
line feeds in the text is the number of players listed. -/
theorem leaderboard_in_score_order (g : GameData) (hw : g.WellFormed)
    (hc : g.Consistent) (hnn : ∀ e ∈ g.name_map, 0 ≤ e.2.score)
    (hcount : g.name_map.length < 2147483648) :
    (g.score_map.Pairwise (fun a b => b.1 ≤ a.1) ∧ (g.score_map.length : Int) = g.count ∧
      ∀ e ∈ g.name_map, g.score_map.count (e.2.score, e.1) = 1) ∧
    g.str (-1)
      = (g.score_map.map (fun e => TEXT "Nome: " ++ e.2 ++ TEXT " Pontuaçăo: "
          ++ decimal e.1 ++ TEXT "\n")).foldr (fun line text => line ++ text) [] ∧
    (∀ k : Nat, k < 2147483648 →
      g.str k
        = ((g.score_map.take k).map (fun e => TEXT "Nome: " ++ e.2 ++ TEXT " Pontuaçăo: "
            ++ decimal e.1 ++ TEXT "\n")).foldr (fun line text => line ++ text) [] ∧
      ((g.score_map.take k).length : Int) = min (k : Int) g.count) ∧
    g.str 0 = [] ∧
    (∀ e ∈ g.score_map, decimal e.1 ≠ [] ∧ ∀ c ∈ decimal e.1, 48 ≤ c ∧ c ≤ 57) ∧
    ((∀ e ∈ g.name_map, (10 : TCHAR) ∉ e.1) →
      (g.str (-1)).count 10 = g.name_map.length ∧
      ∀ k : Nat, k < 2147483648 → (g.str k).count 10 = min k g.name_map.length) := by
  have hl := GameData.linked_of_consistent g hw hc
  have hlen : g.score_map.length = g.name_map.length := hc.2.1
  have hall : strLoop g.score_map (-1) = g.score_map :=
    strLoop_negative _ _ (by decide) (by omega)
  have htake : ∀ k : Nat, k < 2147483648 → strLoop g.score_map k = g.score_map.take k := by
    intro k hk
    rw [strLoop_nonneg _ _ (by omega) (by omega)]
    simp
  have hrange : ∀ e ∈ g.score_map, 0 ≤ e.1 ∧ e.1 < 2147483648 := by
    intro e he
    obtain ⟨q, hq, hqs⟩ := hl.2.2.1 e he
    have h1 := hnn _ hq
    have h2 := hw.2.2.2.1 e he
    unfold isInt32 at h2
    rw [hqs] at h1
    exact ⟨h1, h2.2⟩
  refine ⟨⟨sorted_by_score _ hw.2.2.1 hrange, ?_, ?_⟩, ?_, ?_, ?_, ?_, ?_⟩
  · rw [hlen]
    rfl
  · intro e he
    exact (hc.2.2 e he).2
  · rw [str_eq, hall]
  · intro k hk
    rw [str_eq, htake k hk]
    refine ⟨rfl, ?_⟩
    rw [List.length_take, hlen]
    simp only [GameData.count]
    omega
  · simp [GameData.str, strLoop_nonneg g.score_map 0 (by decide) (by decide)]
  · intro e he
    exact decimal_digits e.1 (hrange e he).1
  · intro hnames
    have hfeed : ∀ e ∈ g.score_map, 10 ∉ e.2 ∧ 0 ≤ e.1 := by
      intro e he
      obtain ⟨q, hq, -⟩ := hl.2.2.1 e he
      exact ⟨hnames _ hq, (hrange e he).1⟩
    constructor
    · rw [str_eq, hall, lines_feed_count _ hfeed, hlen]
    · intro k hk
      rw [str_eq, htake k hk, lines_feed_count _
        (fun e he => hfeed e (List.mem_of_mem_take he)), List.length_take, hlen]

/-- Witness for C14: the leaderboard after `Ana` has scored four points and `Bob` none. -/
theorem leaderboard_in_score_order_witness :
    anaAndBobScored.data.WellFormed ∧ anaAndBobScored.data.Consistent ∧
      anaAndBobScored.data.score_map = [(4, TEXT "Ana"), (0, TEXT "Bob")] ∧
      anaAndBobScored.data.str (-1)
        = TEXT "Nome: Ana Pontuaçăo: 4\nNome: Bob Pontuaçăo: 0\n" ∧
      anaAndBobScored.data.str 1 = TEXT "Nome: Ana Pontuaçăo: 4\n" ∧
      anaAndBobScored.data.score_map.Pairwise (fun a b => b.1 ≤ a.1) ∧
      (anaAndBobScored.data.str (-1)).count 10 = anaAndBobScored.data.name_map.length :=
  ⟨by decide, by decide, by decide, by decide, by decide,
    (leaderboard_in_score_order anaAndBobScored.data (by decide) (by decide) (by decide)
      (by decide)).1.1,
    ((leaderboard_in_score_order anaAndBobScored.data (by decide) (by decide) (by decide)
      (by decide)).2.2.2.2.2 (by decide)).1⟩

/-! ## The listener -/

theorem update_of_playerName (g : GameData) (id : Int) (name : WString) (d : Int)
    (h : g.playerName id = some name) : ∃ u, g.update id d = some u := by
  unfold GameData.playerName at h
  cases hf : StdMap.find g.id_map id with
  | none => simp [hf] at h
  | some n =>
    cases hf2 : StdMap.find g.name_map n with
    | none => simp [hf, hf2] at h
    | some p => exact ⟨g.updateFound n p d, by simp only [GameData.update, hf, hf2]⟩

/-- The guess handler is undefined exactly when word_match is reached and is. -/
theorem handleGuess_cases (os : Win32) (s : Server) (id : Int) (buffer : WString) :
    (s.data.playerName id = none → handleGuess os s id buffer = some (s, [])) ∧
    (guessOf buffer = [] → handleGuess os s id buffer = some (s, [])) ∧
    (word_match s.word_map (cstr (guessOf buffer)) s.state.array = some false →
      handleGuess os s id buffer = some (s, [])) ∧
    (word_match s.word_map (cstr (guessOf buffer)) s.state.array = some true →
      ∃ r, handleGuess os s id buffer = some r) ∧
    (handleGuess os s id buffer = none ↔
      ((s.data.playerName id).isSome = true ∧ guessOf buffer ≠ [] ∧
        word_match s.word_map (cstr (guessOf buffer)) s.state.array = none)) := by
  cases hn : s.data.playerName id with
  | none => simp [handleGuess, hn]
  | some name =>
    by_cases hg : guessOf buffer = []
    · simp [handleGuess, hn, hg]
    · cases hm : word_match s.word_map (cstr (guessOf buffer)) s.state.array with
      | none => simp [handleGuess, hn, hg, hm]
      | some b =>
        cases b with
        | false => simp [handleGuess, hn, hg, hm]
        | true =>
          obtain ⟨u, hu⟩ := update_of_playerName s.data id name 1 hn
          simp [handleGuess, hn, hg, hm, hu]

/-- handleLogin returns unless insert does not: between an accepted insert and the broadcast
the name, of at most eight units, is copied into a buffer of 24. -/
theorem handleLogin_none (os : Win32) (s : Server) (name : WString) :
    handleLogin os s name = none ↔
      (s.data.playerExists name = false ∧ s.data.name_map.length < MAX_PLAYERS ∧
        8 < name.length) := by
  unfold handleLogin
  rw [GameData.insert_returns]
  by_cases hret : s.data.playerExists name = true ∨ MAX_PLAYERS ≤ s.data.name_map.length ∨
      name.length ≤ 8
  · rw [if_pos hret]
    have hno : ¬ (s.data.playerExists name = false ∧ s.data.name_map.length < MAX_PLAYERS ∧
        8 < name.length) := by
      rintro ⟨h1, h2, h3⟩
      rcases hret with h | h | h
      · rw [h1] at h
        exact Bool.false_ne_true h
      · omega
      · omega
    refine ⟨fun h => ?_, fun h => absurd h hno⟩
    exfalso
    simp only at h
    split at h
    · rename_i hflag
      rcases GameData.insert_outcome os s.pid_gen s.data name 0 with ho | ⟨-, h1, h2, -, -⟩
      · exact ho.1 hflag
      · have hfit : name.length ≤ 8 := by
          rcases hret with hh | hh | hh
          · rw [h1] at hh
            exact absurd hh Bool.false_ne_true
          · omega
          · exact hh
        have hcopy : name.length + 1 ≤ (ARRAY_SIZE + 2) * 2 := by
          simp only [ARRAY_SIZE]
          omega
        simp [_tcscpy_s, hcopy] at h
    · simp at h
  · rw [if_neg hret]
    refine ⟨fun _ => ?_, fun _ => rfl⟩
    have h1 : s.data.playerExists name = false := by
      cases hp : s.data.playerExists name with
      | false => rfl
      | true => exact absurd (Or.inl hp) hret
    exact ⟨h1, by omega, by omega⟩

/-- What the listener writes for a request frame: one reply for a LOGIN frame on which
handleLogin returns, one for a SCORE frame, the frame itself for a GUESS frame on which
handleGuess has defined behaviour, and nothing for any other code. It writes nothing at
all, not returning or with undefined behaviour, exactly on a LOGIN frame with a new name of
more than eight units while there is room, and on a GUESS frame of a registered player with
a guess that is not empty and on which word_match indexes outside its table. -/
theorem listen_replies (os : Win32) (s : Server) (input : Packet) :
    (input.code = MsgFlags.LOGIN.val →
      ∀ x, handleLogin os s (cstr input.buffer) = some x →
        _listen os s input = some (x.2.1, [Written.login x.1], x.2.2)) ∧
    (input.code = MsgFlags.SCORE.val →
      ∃ q, _listen os s input = some (s, [Written.packet q], [])) ∧
    (input.code = MsgFlags.GUESS.val →
      (s.data.playerName input.id = none ∨ guessOf input.buffer = [] ∨
          (∃ b, word_match s.word_map (cstr (guessOf input.buffer)) s.state.array = some b) →
        ∃ s' pushes, _listen os s input = some (s', [Written.packet input], pushes))) ∧
    (input.code ≠ MsgFlags.LOGIN.val → input.code ≠ MsgFlags.SCORE.val →
      input.code ≠ MsgFlags.GUESS.val →
      ∃ s' pushes, _listen os s input = some (s', [], pushes)) ∧
    (_listen os s input = none ↔
      ((input.code = MsgFlags.LOGIN.val ∧
          s.data.playerExists (cstr input.buffer) = false ∧
          s.data.name_map.length < MAX_PLAYERS ∧ 8 < (cstr input.buffer).length) ∨
        (input.code = MsgFlags.GUESS.val ∧ (s.data.playerName input.id).isSome = true ∧
          guessOf input.buffer ≠ [] ∧
          word_match s.word_map (cstr (guessOf input.buffer)) s.state.array = none))) := by
  have hcases := handleGuess_cases os s input.id input.buffer
  have hguess : input.code = MsgFlags.GUESS.val →
      _listen os s input = (handleGuess os s input.id input.buffer).map
        (fun r => (r.1, [Written.packet input], r.2)) := by
    intro h
    simp [_listen, h, MsgFlags.val]
  have hlogin : input.code = MsgFlags.LOGIN.val →
      _listen os s input = (handleLogin os s (cstr input.buffer)).map
        (fun r => (r.2.1, [Written.login r.1], r.2.2)) := by
    intro h
    simp only [_listen, h, if_true]
  refine ⟨?_, ?_, ?_, ?_, ?_⟩
  · intro h x hx
    rw [hlogin h, hx]
    rfl
  · intro h
    exact ⟨handleScoreRequest s.data input.id, by simp [_listen, h, MsgFlags.val]⟩
  · intro h hdef
    rw [hguess h]
    rcases hdef with h1 | h1 | ⟨b, h1⟩
    · exact ⟨s, [], by rw [hcases.1 h1]; rfl⟩
    · exact ⟨s, [], by rw [hcases.2.1 h1]; rfl⟩
    · cases b with
      | false => exact ⟨s, [], by rw [hcases.2.2.1 h1]; rfl⟩
      | true =>
        obtain ⟨r, hr⟩ := hcases.2.2.2.1 h1
        exact ⟨r.1, r.2, by rw [hr]; rfl⟩
  · intro h1 h2 h3
    by_cases h4 : input.code = MsgFlags.LOGOUT.val
    · exact ⟨⟨(handleLogout os s.data input.id).1, s.pid_gen, s.state, s.clear_handle,
          s.word_map⟩, (handleLogout os s.data input.id).2,
        by simp [_listen, h4, MsgFlags.val]⟩
    · exact ⟨s, [], by simp only [_listen, h1, h2, h3, h4, if_false]⟩
  · by_cases h : input.code = MsgFlags.GUESS.val
    · rw [hguess h, Option.map_eq_none', hcases.2.2.2.2]
      simp [h, MsgFlags.val]
    · by_cases h1 : input.code = MsgFlags.LOGIN.val
      · rw [hlogin h1, Option.map_eq_none', handleLogin_none]
        simp [h1, MsgFlags.val]
      · constructor
        · intro hnone
          by_cases h2 : input.code = MsgFlags.LOGOUT.val
          · simp [_listen, h2, MsgFlags.val] at hnone
          · by_cases h3 : input.code = MsgFlags.SCORE.val
            · simp [_listen, h3, MsgFlags.val] at hnone
            · simp [_listen, h1, h2, h3, h] at hnone
        · rintro (hh | hh)
          · exact absurd hh.1 h1
          · exact absurd hh.1 h

/-- C18: the listener reads a LOGIN frame with the new ten-letter name `Bartolomeu` while
only `Ana` is registered: handleLogin does not return, insert ending in the invalid
parameter handler, and no reply is written, where a LOGIN frame is to get exactly one. It
reads the GUESS frame of the registered player 1 with the word `c` after the first pass of
the game thread: word_match indexes outside its table and the listener has no defined
behaviour, where the frame is to be echoed. On the same servers a LOGIN frame with an
eight-letter name, a SCORE frame and a GUESS frame on a full row get their one reply, and a
LOGOUT frame gets none. -/
theorem listener_writes_no_reply :
    anaPlaying.data.playerExists tenLetterName = false ∧
      handleLogin noneReachable anaPlaying tenLetterName = none ∧
      _listen noneReachable anaPlaying ⟨MsgFlags.LOGIN.val, 0, tenLetterName⟩ = none ∧
      _listen allReachable anaPlaying ⟨MsgFlags.LOGIN.val, 0, tenLetterName⟩ = none ∧
      firstTick.data.playerName 1 = some (GameData.pipeName (TEXT "Ana")) ∧
      _listen allReachable firstTick ⟨MsgFlags.GUESS.val, 1, TEXT "c"⟩ = none ∧
      ((_listen noneReachable anaPlaying ⟨MsgFlags.LOGIN.val, 0, TEXT "Fernanda"⟩).map
          (fun r => r.2.1) = some [Written.login ⟨MsgFlags.NO_EVENT.val, -1⟩]) ∧
      ((_listen allReachable anaPlaying ⟨MsgFlags.SCORE.val, 1, []⟩).map (fun r => r.2.1)
        = some [Written.packet ⟨MsgFlags.SCORE.val, 0, []⟩]) ∧
      ((_listen allReachable anaPlaying ⟨MsgFlags.GUESS.val, 1, TEXT "cat"⟩).map
          (fun r => r.2.1) = some [Written.packet ⟨MsgFlags.GUESS.val, 1, TEXT "cat"⟩]) ∧
      ((_listen allReachable anaPlaying ⟨MsgFlags.LOGOUT.val, 1, []⟩).map (fun r => r.2.1)
        = some []) := by
  decide

/-! ## The semaphore over the shared letter row -/

theorem gate_step (g : Gate) (t : Thread) (hmax : g.semaphore.maximum = 22)
    (hsum : g.semaphore.count + g.writer + g.readers.length = 22) :
    (g.step t).semaphore.maximum = 22 ∧
      (g.step t).semaphore.count + (g.step t).writer + (g.step t).readers.length = 22 := by
  cases t with
  | game =>
    by_cases hw : g.writer < MAX_PLAYERS + 2
    · by_cases hc : 0 < g.semaphore.count
      · simp only [Gate.step, hw, if_true, Semaphore.wait, hc]
        exact ⟨hmax, by omega⟩
      · simp only [Gate.step, hw, if_true, Semaphore.wait, hc, if_false]
        exact ⟨hmax, hsum⟩
    · have hw22 : g.writer = 22 := by
        simp only [MAX_PLAYERS] at hw
        omega
      have hrel : g.semaphore.count + (MAX_PLAYERS + 2) ≤ g.semaphore.maximum := by
        simp only [MAX_PLAYERS]
        omega
      simp only [Gate.step, hw, if_false, Semaphore.release, hrel, if_true]
      refine ⟨hmax, ?_⟩
      simp only [MAX_PLAYERS]
      omega
  | reader i =>
    by_cases hi : i ∈ g.readers
    · have hpos : 0 < g.readers.length := List.length_pos_of_mem hi
      have hrel : g.semaphore.count + 1 ≤ g.semaphore.maximum := by omega
      have hlen : (g.readers.erase i).length = g.readers.length - 1 :=
        List.length_erase_of_mem hi
      simp only [Gate.step, hi, if_true, Semaphore.release, hrel]
      refine ⟨hmax, ?_⟩
      rw [hlen]
      omega
    · by_cases hc : 0 < g.semaphore.count
      · simp only [Gate.step, hi, if_false, Semaphore.wait, hc, if_true, List.length_cons]
        exact ⟨hmax, by omega⟩
      · simp only [Gate.step, hi, if_false, Semaphore.wait, hc]
        exact ⟨hmax, hsum⟩

theorem gate_run (schedule : List Thread) (g : Gate) (hmax : g.semaphore.maximum = 22)
    (hsum : g.semaphore.count + g.writer + g.readers.length = 22) :
    (g.run schedule).semaphore.maximum = 22 ∧
      (g.run schedule).semaphore.count + (g.run schedule).writer
        + (g.run schedule).readers.length = 22 := by
  induction schedule generalizing g with
  | nil => exact ⟨hmax, hsum⟩
  | cons t rest ih =>
    have h := gate_step g t hmax hsum
    exact ih (g.step t) h.1 h.2

/-- C19: the semaphore is created with MAX_PLAYERS + 2 = 22 units, and however the semaphore
calls of the game thread and of the one-unit readers interleave, the units the game thread
holds, the units the readers hold and the units available add up to 22. So once the game
thread has taken its 22 units no reader is between its wait and its release, no unit is
available, a reader that now waits stays waiting, and the release by the game thread puts
all 22 units back in one call. -/
theorem gate_conserves_units (schedule : List Thread) :
    (Gate.initial.run schedule).semaphore.count + (Gate.initial.run schedule).writer
        + (Gate.initial.run schedule).readers.length = MAX_PLAYERS + 2 ∧
      ((Gate.initial.run schedule).writer = MAX_PLAYERS + 2 →
        (Gate.initial.run schedule).readers = [] ∧
        (Gate.initial.run schedule).semaphore.count = 0 ∧
        (∀ i, (Gate.initial.run schedule).step (Thread.reader i) = Gate.initial.run schedule) ∧
        (Gate.initial.run schedule).step Thread.game = Gate.initial) := by
  obtain ⟨hmax, hsum⟩ := gate_run schedule Gate.initial rfl rfl
  generalize Gate.initial.run schedule = g at hmax hsum ⊢
  refine ⟨hsum, ?_⟩
  intro hw
  simp only [MAX_PLAYERS] at hw
  have hr : g.readers = [] := List.eq_nil_of_length_eq_zero (by omega)
  have hc : g.semaphore.count = 0 := by omega
  refine ⟨hr, hc, ?_, ?_⟩
  · intro i
    simp [Gate.step, hr, Semaphore.wait, hc]
  · have hnot : ¬ g.writer < MAX_PLAYERS + 2 := by
      simp only [MAX_PLAYERS]
      omega
    have hrel : g.semaphore.count + (MAX_PLAYERS + 2) ≤ g.semaphore.maximum := by
      simp only [MAX_PLAYERS]
      omega
    simp only [Gate.step, hnot, if_false, Semaphore.release, hrel, if_true, hr, hc, hmax]
    rfl

/-- Witness for C19: a reader is inside while the game thread starts its acquisitions; the
game thread gets its last unit only after the reader has released. -/
theorem gate_conserves_units_witness :
    (Gate.initial.run (Thread.reader 3 :: List.replicate 22 Thread.game)).writer = 21 ∧
      (Gate.initial.run (Thread.reader 3 :: (List.replicate 22 Thread.game
        ++ [Thread.reader 3, Thread.game]))).writer = MAX_PLAYERS + 2 ∧
      (Gate.initial.run (Thread.reader 3 :: (List.replicate 22 Thread.game
        ++ [Thread.reader 3, Thread.game]))).readers = [] :=
  ⟨by decide, by decide,
    ((gate_conserves_units (Thread.reader 3 :: (List.replicate 22 Thread.game
      ++ [Thread.reader 3, Thread.game]))).2 (by decide)).1⟩

/-! ## Configuration and the speed commands -/

/-- C21: the active length the game thread starts with is min(12, max(6, v)) for every
configured MAXLETRAS value v > 0 and the default 10 otherwise, also when the value cannot
be read; it is always between 6 and 12. -/
theorem letters_clamped (s : Server) (ritmo maxletras : Int) :
    ((gameStart s (_tmain ritmo maxletras).LETTERS).state.t : Int)
        = (if 0 < maxletras then min 12 (max 6 maxletras) else 10) ∧
      6 ≤ (gameStart s (_tmain ritmo maxletras).LETTERS).state.t ∧
      (gameStart s (_tmain ritmo maxletras).LETTERS).state.t ≤ 12 ∧
      (gameStart s (_tmain ritmo (dwordFromRegistryKey none)).LETTERS).state.t = 10 := by
  have hkey : dwordFromRegistryKey none = -1 := rfl
  simp only [gameStart, _tmain, Settings.initial, toU32, hkey]
  refine ⟨?_, ?_, ?_, by decide⟩
  · by_cases h0 : maxletras > 0
    · by_cases h6 : maxletras < 6
      · simp only [h0, h6, if_true]
        omega
      · by_cases h12 : maxletras > 12
        · simp only [h0, h6, h12, if_true, if_false]
          omega
        · simp only [h0, h6, h12, if_true, if_false]
          omega
    · simp only [h0, if_false]
      omega
  · split
    · split
      · omega
      · split <;> omega
    · omega
  · split
    · split
      · omega
      · split <;> omega
    · omega

theorem speedCommands_travar (k : Nat) (I : Int) (h0 : 0 ≤ I) (h1 : I < 4294967296) :
    speedCommands I (List.replicate k SpeedCommand.travar) = toU32 (I + 1000 * k) := by
  induction k generalizing I with
  | zero =>
    simp only [speedCommands, List.replicate, List.foldl, toU32]
    omega
  | succ k ih =>
    have hstep : speedCommands I (List.replicate (k + 1) SpeedCommand.travar)
        = speedCommands (travar I) (List.replicate k SpeedCommand.travar) := rfl
    have ht0 : 0 ≤ travar I := by
      simp only [travar, toU32]
      omega
    have ht1 : travar I < 4294967296 := by
      simp only [travar, toU32]
      omega
    rw [hstep, ih (travar I) ht0 ht1]
    simp only [travar, toU32]
    push_cast
    omega

/-- The speed-up command never leaves the interval below one second. -/
theorem acelerar_keeps_floor (I : Int) :
    1000 ≤ acelerar I ∧ acelerar I < 4294967296 := by
  simp only [acelerar, toU32]
  split <;> omega

/-- The slow-down command keeps the interval at or above one second as long as the sum stays
below `2^32`. -/
theorem travar_keeps_floor (I : Int) (h0 : 1000 ≤ I) (h1 : I + 1000 < 4294967296) :
    1000 ≤ travar I := by
  simp only [travar, toU32]
  omega

/-- The configured interval is at least one second as long as the product `ritmo * 1000`
stays within `int`. -/
theorem tmain_interval_floor (ritmo maxletras : Int) (h : ritmo ≤ 2147483) :
    1000 ≤ (_tmain ritmo maxletras).INTERVAL ∧
      (_tmain ritmo maxletras).INTERVAL < 4294967296 := by
  by_cases h0 : ritmo > 0
  · have hw : wrap32 (ritmo * 1000) = ritmo * 1000 := by
      unfold wrap32
      rw [Int.emod_eq_of_lt (by omega) (by omega)]
      omega
    have hu : toU32 (ritmo * 1000) = ritmo * 1000 := by
      unfold toU32
      exact Int.emod_eq_of_lt (by omega) (by omega)
    simp only [_tmain, h0, if_true, hw, hu]
    omega
  · simp only [_tmain, h0, if_false, Settings.initial]
    omega

/-- C22: with RITMO = 4294968 in the registry the product `ritmo * 1000` does not fit in 32
bits and the interval the server starts with is 704 ms; and from the default 2000 ms,
4294966 slow-down commands bring the `uint32_t` interval round to 704 ms. Both are below
the floor of 1000 ms. -/
theorem interval_below_floor :
    dwordFromRegistryKey (some 4294968) = 4294968 ∧
      (_tmain 4294968 0).INTERVAL = 704 ∧
      speedCommands Settings.initial.INTERVAL (List.replicate 4294966 SpeedCommand.travar)
        = 704 ∧
      (704 : Int) < 1000 := by
  refine ⟨by decide, by decide, ?_, by decide⟩
  rw [speedCommands_travar 4294966 Settings.initial.INTERVAL (by decide) (by decide)]
  decide

/-! ## One pass of the game thread -/

theorem length_clear (array : List TCHAR) : (clear array).length = array.length := by
  simp only [clear, List.length_append, List.length_replicate, List.length_drop, ARRAY_SIZE]
  omega

theorem game_state_t (s : Server) (i rand : Nat) : (game s i rand).1.state.t = s.state.t := rfl

theorem game_cursor (s : Server) (i rand : Nat) : (game s i rand).2 = (i + 1) % s.state.t := rfl

theorem gameLoop_cursor (rands : List Nat) (s : Server) (i : Nat) (hi : i < s.state.t) :
    (gameLoop s i rands).1.state.t = s.state.t ∧ (gameLoop s i rands).2 < s.state.t := by
  induction rands generalizing s i with
  | nil => exact ⟨rfl, hi⟩
  | cons rand rest ih =>
    have hpos : 0 < s.state.t := by omega
    have h := ih (game s i rand).1 (game s i rand).2
      (by rw [game_state_t, game_cursor]; exact Nat.mod_lt _ hpos)
    rw [game_state_t] at h
    exact h

theorem game_written (s : Server) (i rand : Nat) (hi : i < s.state.array.length) :
    (game s i rand).1.state.array.getD i 0 = 97 + rand % 26 := by
  have hlen : i < (if s.clear_handle then clear s.state.array else s.state.array).length := by
    split
    · rw [length_clear]; exact hi
    · exact hi
  simp only [game, List.getD_eq_getElem?_getD]
  rw [List.getElem?_set_self hlen]
  rfl

theorem game_elsewhere (s : Server) (i rand j : Nat) (hc : s.clear_handle = false)
    (hj : j ≠ i) :
    (game s i rand).1.state.array.getD j 0 = s.state.array.getD j 0 := by
  simp only [game, hc, List.getD_eq_getElem?_getD]
  rw [List.getElem?_set_ne (Ne.symm hj)]
  simp

/-- C25: in a pass of the game thread with an active length between 6 and 12 and the cursor
inside it, the unit written at the cursor is a lowercase letter, the cursor becomes
(i + 1) mod length, it stays below the length however many passes follow, and when the clear
event is not set every other position of the row reads as before. -/
theorem tick_writes_letter_and_advances (s : Server) (i rand : Nat)
    (ht : 6 ≤ s.state.t ∧ s.state.t ≤ 12) (hlen : s.state.t ≤ s.state.array.length)
    (hi : i < s.state.t) :
    (97 ≤ (game s i rand).1.state.array.getD i 0 ∧
        (game s i rand).1.state.array.getD i 0 ≤ 122) ∧
      ((game s i rand).2 = (i + 1) % s.state.t ∧ (game s i rand).2 < s.state.t ∧
        (game s i rand).1.state.t = s.state.t) ∧
      (∀ rands, (gameLoop s i rands).2 < s.state.t ∧ (gameLoop s i rands).2 < 12) ∧
      (s.clear_handle = false → ∀ j, j ≠ i →
        (game s i rand).1.state.array.getD j 0 = s.state.array.getD j 0) := by
  have hpos : 0 < s.state.t := by omega
  have hmod : rand % 26 < 26 := Nat.mod_lt _ (by decide)
  refine ⟨?_, ⟨rfl, Nat.mod_lt _ hpos, rfl⟩, ?_, ?_⟩
  · rw [game_written s i rand (by omega)]
    exact ⟨Nat.le_add_right 97 _, Nat.add_le_add_left (Nat.le_of_lt_succ hmod) 97⟩
  · intro rands
    have h := (gameLoop_cursor rands s i hi).2
    exact ⟨h, by omega⟩
  · intro hc j hj
    exact game_elsewhere s i rand j hc hj

/-- Witness for C25: the pass at cursor 3 of the ten-letter game of `Ana`, with 51 drawn. -/
theorem tick_writes_letter_and_advances_witness :
    (97 ≤ (game anaPlaying 3 51).1.state.array.getD 3 0 ∧
        (game anaPlaying 3 51).1.state.array.getD 3 0 ≤ 122) ∧
      ((game anaPlaying 3 51).2 = (3 + 1) % anaPlaying.state.t ∧
        (game anaPlaying 3 51).2 < anaPlaying.state.t ∧
        (game anaPlaying 3 51).1.state.t = anaPlaying.state.t) ∧
      (∀ rands, (gameLoop anaPlaying 3 rands).2 < anaPlaying.state.t ∧
        (gameLoop anaPlaying 3 rands).2 < 12) ∧
      (anaPlaying.clear_handle = false → ∀ j, j ≠ 3 →
        (game anaPlaying 3 51).1.state.array.getD j 0 = anaPlaying.state.array.getD j 0) :=
  tick_writes_letter_and_advances anaPlaying 3 51 (by decide) (by decide) (by decide)

/-! ## The push listener -/

/-- C23: whatever frame the push listener reads, the calls it makes on its pipe are connect,
read, flush and disconnect, with no write among them: no acknowledgment is written before
the connection is disconnected. So the read of the acknowledgment that follows the write of
the frame in broadcast has nothing to read, and the delivery ends as not acknowledged. -/
theorem listener_writes_no_acknowledgment (p : Packet) (os : Win32) (pipe_name : WString) :
    PipeCall.WriteFile ∉ (listenPipeThreadProc p).1 ∧
      (listenPipeThreadProc p).1.take 4
        = [PipeCall.ConnectNamedPipe, PipeCall.ReadFile, PipeCall.FlushFileBuffers,
           PipeCall.DisconnectNamedPipe] ∧
      acknowledged (listenPipeThreadProc p).1 = false ∧
      (deliver (listening p) pipe_name p true).outcome = Delivery.noAck ∧
      (os.CreateFile pipe_name = true → os.WriteFile pipe_name = true →
        os.ReadFile pipe_name = acknowledged (listenPipeThreadProc p).1 →
        (deliver os pipe_name p true).outcome = Delivery.noAck) := by
  have hack : acknowledged (listenPipeThreadProc p).1 = false := by
    unfold listenPipeThreadProc
    split <;> decide
  refine ⟨?_, ?_, hack, ?_, ?_⟩
  · unfold listenPipeThreadProc
    split <;> decide
  · unfold listenPipeThreadProc
    split <;> rfl
  · simp [deliver, listening, hack]
  · intro h1 h2 h3
    rw [hack] at h3
    simp [deliver, h1, h2, h3]

/-! ## Score update by a name that is not registered -/

/-- C24: the score update by name has a defined result exactly when the name is registered.
For a name that is not, it dereferences the end iterator of name_map instead of returning
false, on the empty registry as on one that holds another player; the update by id does
return false for an id that is not registered, and changes nothing. -/
theorem update_by_name_of_absent_name (g : GameData) (name : WString) (increment : Int) :
    (g.updateName name increment).isSome = g.playerExists name ∧
      GameData.empty.updateName (TEXT "Ana") 1 = none ∧
      onlyAna.updateName (TEXT "Bob") 1 = none ∧
      onlyAna.update 2 1 = some (false, onlyAna) := by
  refine ⟨?_, by decide, by decide, by decide⟩
  unfold GameData.updateName GameData.playerExists
  cases StdMap.find g.name_map name <;> rfl

/-! ## The frequency table of word_match -/

theorem countLetters_none (array : List TCHAR) (is : List Nat) (t : List Int) (i : Nat)
    (hi : i ∈ is) (h : tableIndex (array.getD i 0) = none) :
    countLetters array is t = none := by
  induction is generalizing t with
  | nil => cases hi
  | cons j rest ih =>
    unfold countLetters
    by_cases hj : i = j
    · subst hj
      rw [h]
    · have hrest : i ∈ rest := by
        cases hi with
        | head => exact absurd rfl hj
        | tail _ hmem => exact hmem
      cases htj : tableIndex (array.getD j 0) with
      | none => rfl
      | some k => exact ih _ hrest

/-- A row with a position not yet revealed among its first ten. -/
theorem word_match_unrevealed (word_map : List (WString × Bool)) (input : WString)
    (array : List TCHAR) (i : Nat) (hi : i < ARRAY_SIZE) (h0 : array.getD i 0 = 0) :
    word_match word_map input array = none := by
  have hnone : tableIndex (array.getD i 0) = none := by rw [h0]; rfl
  have hmem : i ∈ List.range ARRAY_SIZE := List.mem_range.mpr hi
  unfold word_match
  rw [countLetters_none array (List.range ARRAY_SIZE) _ i hmem hnone]

/-- C26: after the first pass of the game thread the row holds one letter and nine entries
not yet revealed. For such a zero entry the index `0 - 'a'` is outside the 26-entry table,
so the first loop of word_match leaves the table for every word, and with it the guess
handler for the guess `c` of the registered player 1. -/
theorem word_match_indexes_below_table :
    firstTick.state.array = [99, 0, 0, 0, 0, 0, 0, 0, 0, 0] ∧
      tableIndex 0 = none ∧
      word_match firstTick.word_map (TEXT "c") firstTick.state.array = none ∧
      handleGuess allReachable firstTick 1 (TEXT "c") = none := by
  decide

/-! ## The buffers of the derived names -/

theorem stprintf_fits (capacity : Nat) (a b c : WString) :
    (_stprintf_s capacity [a, b, c]).isSome
      = decide (a.length + b.length + c.length + 1 ≤ capacity) := by
  simp only [_stprintf_s, List.foldr, List.append_nil, List.length_append]
  by_cases h : a.length + (b.length + c.length) + 1 ≤ capacity
  · have h2 : a.length + b.length + c.length + 1 ≤ capacity := by omega
    simp [h, h2]
  · have h2 : ¬ a.length + b.length + c.length + 1 ≤ capacity := by omega
    simp [h, h2]

/-- The event name fits its buffer exactly when the name has at most eight units. -/
theorem insert_temp_fits (name : WString) :
    (insert_temp name).isSome = decide (name.length ≤ 8) ∧
      (eventName name).isSome = decide (name.length ≤ 8) := by
  have h6 : (TEXT "Local\\").length = 6 := by decide
  have h7 : (TEXT "_update").length = 7 := by decide
  unfold insert_temp eventName
  rw [stprintf_fits, h6, h7]
  simp only [ARRAY_SIZE]
  by_cases h : name.length ≤ 8
  · have h2 : 6 + name.length + 7 + 1 ≤ 2 * 10 + 2 := by omega
    simp [h, h2]
  · have h2 : ¬ 6 + name.length + 7 + 1 ≤ 2 * 10 + 2 := by omega
    simp [h, h2]

/-- C27: for the ten-letter name `Bartolomeu`, which the client accepts, the event name
`Local\Bartolomeu_update` takes 24 units with its terminator and does not fit the 22-unit
buffer, neither `temp` in insert nor `eventName` in the client; nor does it for a name of
nine letters, while a name of eight fits. The pipe name fits in both programs. -/
theorem event_name_overflows_buffer :
    tenLetterName.length = ARRAY_SIZE ∧
      parseCommandLineArguments tenLetterName = some tenLetterName ∧
      (GameData.updateEventName tenLetterName).length + 1 = 24 ∧
      2 * ARRAY_SIZE + 2 = 22 ∧
      insert_temp tenLetterName = none ∧
      eventName tenLetterName = none ∧
      insert_temp (TEXT "Francisca") = none ∧
      insert_temp (TEXT "Fernanda") = some (GameData.updateEventName (TEXT "Fernanda")) ∧
      insert_pipe_name tenLetterName = some (GameData.pipeName tenLetterName) ∧
      thisPipeName tenLetterName = some (GameData.pipeName tenLetterName) := by
  decide

/-! ## The two locks under the console commands and the guess handler -/

/-- A wait on a mutex that is free or owned by the calling thread returns, and the release
that follows puts the mutex back as it was. -/
theorem mutex_wait_release (m : Mutex) (thread : Nat)
    (hm : m = ⟨none, 0⟩ ∨ (m.owner = some thread ∧ 0 < m.count)) :
    ∃ m1, m.wait thread = some m1 ∧ m1.release thread = m ∧
      m1.owner = some thread ∧ 0 < m1.count ∧ m1.held thread = m.held thread + 1 := by
  rcases hm with h | ⟨ho, hc⟩
  · subst h
    exact ⟨⟨some thread, 1⟩, rfl, by simp [Mutex.release], rfl, Nat.one_pos,
      by simp [Mutex.held]⟩
  · obtain ⟨owner, count⟩ := m
    simp only at ho hc
    subst ho
    refine ⟨⟨some thread, count + 1⟩, by simp [Mutex.wait], ?_, rfl, by simp, ?_⟩
    · have h1 : ¬ count + 1 ≤ 1 := by omega
      simp [Mutex.release, h1]
    · simp [Mutex.held]

theorem semaphore_wait_release (s : Semaphore) (hs : 0 < s.count ∧ s.count ≤ s.maximum) :
    ∃ s1, s.wait = some s1 ∧ s1.release 1 = s := by
  obtain ⟨count, maximum⟩ := s
  simp only at hs
  refine ⟨⟨count - 1, maximum⟩, by simp [Semaphore.wait, hs.1], ?_⟩
  have h1 : count - 1 + 1 ≤ maximum := by omega
  have h2 : count - 1 + 1 = count := by omega
  show (if count - 1 + 1 ≤ maximum then (⟨count - 1 + 1, maximum⟩ : Semaphore)
    else ⟨count - 1, maximum⟩) = ⟨count, maximum⟩
  rw [if_pos h1, h2]

theorem run_mutex_pair (l : Locks) (thread : Nat)
    (hm : l.data_handle = ⟨none, 0⟩ ∨
      (l.data_handle.owner = some thread ∧ 0 < l.data_handle.count)) :
    Locks.run thread l
      [LockCall.WaitForSingleObject Handle.data_handle, LockCall.ReleaseMutex Handle.data_handle]
      = some l := by
  obtain ⟨m1, hw, hr, _, _, _⟩ := mutex_wait_release l.data_handle thread hm
  simp [Locks.run, Locks.call, hw, hr]

theorem run_semaphore_pair (l : Locks) (thread : Nat)
    (hs : 0 < l.semaphore_handle.count ∧
      l.semaphore_handle.count ≤ l.semaphore_handle.maximum) :
    Locks.run thread l
      [LockCall.WaitForSingleObject Handle.semaphore_handle,
       LockCall.ReleaseSemaphore Handle.semaphore_handle 1]
      = some l := by
  obtain ⟨s1, hw, hr⟩ := semaphore_wait_release l.semaphore_handle hs
  simp [Locks.run, Locks.call, hw, hr]

theorem run_excluir (l : Locks) (thread : Nat)
    (hm : l.data_handle = ⟨none, 0⟩ ∨
      (l.data_handle.owner = some thread ∧ 0 < l.data_handle.count)) :
    Locks.run thread l
      ([LockCall.WaitForSingleObject Handle.data_handle] ++ handleLogoutNameLocks
        ++ [LockCall.ReleaseMutex Handle.data_handle])
      = some l := by
  obtain ⟨m1, hw, hr, ho, hc, _⟩ := mutex_wait_release l.data_handle thread hm
  obtain ⟨m2, hw2, hr2, _, _, _⟩ := mutex_wait_release m1 thread (Or.inr ⟨ho, hc⟩)
  simp [Locks.run, Locks.call, handleLogoutNameLocks, hw, hw2, hr2, hr]

/-- The four commands other than `bot` leave both objects as they found them. -/
theorem commands_other_than_bot (data : GameData) (CreateProcess : Bool) (cmd args : WString)
    (l : Locks) (thread : Nat) (hcmd : cmd ≠ TEXT "bot")
    (hm : l.data_handle = ⟨none, 0⟩ ∨
      (l.data_handle.owner = some thread ∧ 0 < l.data_handle.count))
    (hs : 0 < l.semaphore_handle.count ∧
      l.semaphore_handle.count ≤ l.semaphore_handle.maximum) :
    Locks.run thread l (initCmds data CreateProcess cmd args) = some l := by
  unfold initCmds
  split
  · exact run_mutex_pair l thread hm
  · split
    · exact run_excluir l thread hm
    · split
      · exact run_semaphore_pair l thread hs
      · split
        · exact run_semaphore_pair l thread hs
        · rfl

/-- The `bot` command with an argument of one to twelve units leaves the calling thread
holding the mutex once more than before. -/
theorem bot_holds_mutex (data : GameData) (CreateProcess : Bool) (args : WString)
    (l : Locks) (thread : Nat) (h1 : 0 < args.length) (h12 : args.length ≤ ARRAY_SIZE + 2)
    (hm : l.data_handle = ⟨none, 0⟩ ∨
      (l.data_handle.owner = some thread ∧ 0 < l.data_handle.count)) :
    ∃ l1, Locks.run thread l (initCmds data CreateProcess (TEXT "bot") args) = some l1 ∧
      l1.data_handle.held thread = l.data_handle.held thread + 1 ∧
      l1.semaphore_handle = l.semaphore_handle := by
  obtain ⟨m1, hw, _, _, _, hheld⟩ := mutex_wait_release l.data_handle thread hm
  have hlen : ¬ (args.length = 0 ∨ args.length > ARRAY_SIZE + 2) := by omega
  have hrun : Locks.run thread l
      [LockCall.WaitForSingleObject Handle.data_handle,
       LockCall.ReleaseSemaphore Handle.data_handle 1] = some ⟨m1, l.semaphore_handle⟩ := by
    simp [Locks.run, Locks.call, hw]
  refine ⟨⟨m1, l.semaphore_handle⟩, ?_, hheld, rfl⟩
  have h1 : TEXT "bot" ≠ TEXT "listar" := by decide
  have h2 : TEXT "bot" ≠ TEXT "excluir" := by decide
  have h3 : TEXT "bot" ≠ TEXT "acelerar" := by decide
  have h4 : TEXT "bot" ≠ TEXT "travar" := by decide
  unfold initCmds
  rw [if_neg h1, if_neg h2, if_neg h3, if_neg h4, if_pos rfl, if_neg hlen]
  split
  · split <;> exact hrun
  · exact hrun

/-- C28: on the locks as created, the `bot` command for a name that is not registered leaves
the calling thread holding the registry mutex, which it did not hold before: its release
goes through ReleaseSemaphore, which fails on a mutex. A wait on the mutex by another
thread then does not return. The same happens when the name is registered and when the
process cannot be created. The other four commands leave both locks as they were. -/
theorem bot_command_keeps_mutex :
    (Locks.run 0 Locks.initial (initCmds GameData.empty true (TEXT "bot") (TEXT "Bot1"))
        = some ⟨⟨some 0, 1⟩, Locks.initial.semaphore_handle⟩) ∧
      Locks.initial.data_handle.held 0 = 0 ∧
      (⟨some 0, 1⟩ : Mutex).held 0 = 1 ∧
      Locks.call 1 ⟨⟨some 0, 1⟩, Locks.initial.semaphore_handle⟩
        (LockCall.WaitForSingleObject Handle.data_handle) = none ∧
      (Locks.run 0 Locks.initial (initCmds onlyAna false (TEXT "bot") (TEXT "Ana"))
        = some ⟨⟨some 0, 1⟩, Locks.initial.semaphore_handle⟩) ∧
      (∀ cmd ∈ [TEXT "listar", TEXT "excluir", TEXT "acelerar", TEXT "travar"],
        Locks.run 0 Locks.initial (initCmds onlyAna true cmd (TEXT "Ana"))
          = some Locks.initial) := by
  decide

/-! ## The frames of the bot -/

/-- C29: every frame the bot loop sends carries the bot's id and the chosen dictionary word,
but its code is the zero the frame was initialised with, LOGIN, not GUESS. For the bot with
id 1 and the word `cat` the listener answers with a login reply and no score changes; the
frame guessWord builds for the same word has code GUESS and scores. -/
theorem bot_frame_has_login_code (gameId : Int) (dictionary : List WString) (rand : Nat) :
    (∀ p, botThreadProc gameId dictionary rand = some p →
        p.code = MsgFlags.LOGIN.val ∧ p.code ≠ MsgFlags.GUESS.val ∧ p.id = gameId ∧
        p.buffer = dictionary.getD (rand % MAX_WORDS) []) ∧
      botThreadProc 1 [TEXT "cat"] 128 = some ⟨0, 1, TEXT "cat"⟩ ∧
      guessWord 1 (TEXT "cat") = some ⟨2, 1, TEXT "cat"⟩ ∧
      _listen noneReachable anaPlaying ⟨0, 1, TEXT "cat"⟩
        = some (anaPlaying, [Written.login ⟨MsgFlags.NO_EVENT.val, -1⟩], []) ∧
      (_listen noneReachable anaPlaying ⟨2, 1, TEXT "cat"⟩).map
          (fun r => (r.1.data.score 1, r.2.1))
        = some (1, [Written.packet ⟨2, 1, TEXT "cat"⟩]) := by
  refine ⟨?_, by decide, by decide, by decide, by decide⟩
  intro p hp
  unfold botThreadProc _tcscpy_s at hp
  simp only at hp
  split at hp
  · simp only [Option.map_some', Option.some.injEq] at hp
    subst hp
    exact ⟨rfl, (by decide : MsgFlags.LOGIN.val ≠ MsgFlags.GUESS.val), rfl, rfl⟩
  · simp at hp

/-! ## A guess from an id that is not registered -/

/-- C30: for an id that is not registered and any word, the guess handler returns the server
as it was (no score changed, the clear event as before), attempts no push, and its calls
on the two locks, wait semaphore, wait mutex, release semaphore, release mutex, leave both
as they were. -/
theorem guess_from_unregistered_id (os : Win32) (s : Server) (gameId : Int)
    (buffer : WString) (l : Locks) (thread : Nat)
    (hid : StdMap.find s.data.id_map gameId = none)
    (hm : l.data_handle = ⟨none, 0⟩ ∨
      (l.data_handle.owner = some thread ∧ 0 < l.data_handle.count))
    (hs : 0 < l.semaphore_handle.count ∧
      l.semaphore_handle.count ≤ l.semaphore_handle.maximum) :
    handleGuess os s gameId buffer = some (s, []) ∧
      Locks.run thread l (handleGuessLocks s gameId) = some l := by
  have hname : s.data.playerName gameId = none := by
    simp [GameData.playerName, hid]
  obtain ⟨m1, hw, hr, _, _, _⟩ := mutex_wait_release l.data_handle thread hm
  obtain ⟨s1, hsw, hsr⟩ := semaphore_wait_release l.semaphore_handle hs
  refine ⟨?_, ?_⟩
  · simp [handleGuess, hname]
  · simp [handleGuessLocks, hname, Locks.run, Locks.call, hw, hr, hsw, hsr]

/-- Witness for C30: the id 7 on the server where only `Ana`, id 1, is registered, with the
word `cat`, which is formable and in the dictionary. -/
theorem guess_from_unregistered_id_witness :
    handleGuess allReachable anaPlaying 7 (TEXT "cat") = some (anaPlaying, []) ∧
      Locks.run 1 Locks.initial (handleGuessLocks anaPlaying 7) = some Locks.initial :=
  guess_from_unregistered_id allReachable anaPlaying 7 (TEXT "cat") Locks.initial 1
    (by decide) (Or.inl rfl) (by decide)

/-! ## Registries reached within 2^32 accepted logins -/

/-- A registry reached from the fresh one within 2^32 accepted logins is well formed and
consistent, and no score in it is negative. -/
theorem reached_consistent (cs : List Call) (replies : List Reply) (r : Registry)
    (hrun : Registry.fresh.run cs = some (replies, r))
    (hb : (acceptedIds replies).length ≤ 4294967296) :
    r.data.WellFormed ∧ r.data.Consistent ∧ ∀ e ∈ r.data.name_map, 0 ≤ e.2.score := by
  have hinv := run_inv cs Registry.fresh r 0 replies inv_fresh hrun (by omega)
  obtain ⟨hw, hl, -, -⟩ := hinv
  exact ⟨hw, GameData.consistent_of_linked _ hw hl,
    run_scores_nonneg cs Registry.fresh r replies
      (by intro e he; simp [Registry.fresh, GameData.empty] at he) hrun⟩

/-- The session of `wrapAround` ends in the registry in which `Ana` and `Bob` both hold
id 1. -/
theorem wrapAround_collides :
    ∃ replies, Registry.fresh.run wrapAround = some (replies, ⟨⟨1⟩, collided⟩) := by
  have h1 : Registry.fresh.call (Call.insert allReachable (TEXT "Ana"))
      = some (Reply.login ⟨0, 1⟩, ⟨⟨1⟩, onlyAna⟩) := by decide
  obtain ⟨reps, hreps⟩ := run_churn 4294967295 1 [Call.insert allReachable (TEXT "Bob")]
    (by decide) (by
      intro j hj
      unfold wrap32
      omega)
  have h2 : wrap32 (1 + ((4294967295 : Nat) : Int)) = 0 := by
    unfold wrap32
    omega
  have h3 : (⟨⟨0⟩, onlyAna⟩ : Registry).run [Call.insert allReachable (TEXT "Bob")]
      = some ([Reply.login ⟨0, 1⟩], ⟨⟨1⟩, collided⟩) := by decide
  refine ⟨Reply.login ⟨0, 1⟩ :: (reps ++ [Reply.login ⟨0, 1⟩]), ?_⟩
  unfold wrapAround
  rw [Registry.run, h1]
  simp only []
  rw [hreps, h2, h3]
  rfl

/-- C4 (amended): in a registry reached from the empty one by calls of which at most 2^32 are
accepted logins, for a player registered under `n` with record `p` and a delta whose sum
with the score fits in `int32_t`, update by id returns true, the stored score becomes
`max 0 (p.score + d)`, and the player has exactly one score_map entry, keyed by the new
score. -/
theorem update_clamps_at_zero (cs : List Call) (replies : List Reply) (r : Registry)
    (hrun : Registry.fresh.run cs = some (replies, r))
    (hb : (acceptedIds replies).length ≤ 4294967296)
    (n : WString) (p : Player) (d : Int) (hp : StdMap.find r.data.name_map n = some p)
    (hfit : isInt32 (p.score + d)) :
    ∃ g', r.data.update p.id d = some (true, g') ∧
      StdMap.find g'.name_map n
        = some ⟨p.id, max 0 (p.score + d), p.pipe_name, p.update_handle⟩ ∧
      g'.score p.id = max 0 (p.score + d) ∧
      g'.score_map.count (max 0 (p.score + d), n) = 1 ∧
      (∀ s, s ≠ max 0 (p.score + d) → (s, n) ∉ g'.score_map) := by
  obtain ⟨hw, hc, -⟩ := reached_consistent cs replies r hrun hb
  exact update_of_consistent r.data hw hc n p d hp hfit

/-- Witness for C4 (amended): after her login and three points, `Ana` has score 3, and delta
-1000 gives score 0. -/
theorem update_clamps_at_zero_witness :
    Registry.fresh.run [Call.insert allReachable (TEXT "Ana"), Call.update 1 3]
        = some ([Reply.login ⟨0, 1⟩, Reply.done true], ⟨⟨1⟩, anaScoresThree⟩) ∧
      StdMap.find anaScoresThree.name_map (TEXT "Ana")
        = some ⟨1, 3, GameData.pipeName (TEXT "Ana"), 1⟩ ∧
      isInt32 (3 + -1000) ∧
      ∃ g', anaScoresThree.update 1 (-1000) = some (true, g') ∧ g'.score 1 = 0 :=
  ⟨by decide, by decide, by decide,
    (update_clamps_at_zero [Call.insert allReachable (TEXT "Ana"), Call.update 1 3]
      [Reply.login ⟨0, 1⟩, Reply.done true] ⟨⟨1⟩, anaScoresThree⟩ (by decide) (by decide)
      (TEXT "Ana") ⟨1, 3, GameData.pipeName (TEXT "Ana"), 1⟩ (-1000) (by decide)
      (by decide)).imp (fun _ h => ⟨h.1, h.2.2.1⟩)⟩

/-- C4 as stated fails once the id generator has gone round: the session of `wrapAround`
ends in a registry in which `Ana` is present, with id 1 and score 0, and `Bob` holds id 1
too. The update of id 1 by 5 returns true and raises the score of `Bob`; the score of `Ana`
stays 0 and her score_map entry stays where it was. -/
theorem update_misses_player_on_shared_id :
    (∃ replies, Registry.fresh.run wrapAround = some (replies, ⟨⟨1⟩, collided⟩)) ∧
      StdMap.find collided.name_map (TEXT "Ana")
        = some ⟨1, 0, GameData.pipeName (TEXT "Ana"), 1⟩ ∧
      isInt32 (0 + 5) ∧
      (collided.update 1 5).map (fun x => (x.1, StdMap.find x.2.name_map (TEXT "Ana"),
          x.2.score_map))
        = some (true, some ⟨1, 0, GameData.pipeName (TEXT "Ana"), 1⟩,
            [(5, TEXT "Bob"), (0, TEXT "Ana")]) :=
  ⟨wrapAround_collides, by decide, by decide, by decide⟩

/-- C11 (amended): in a registry reached from the empty one by calls of which at most 2^32
are accepted logins, for a player registered under the id with a score below 2^31 - 1, and a
frame whose word is not empty and is accepted by word_match against the current row, the
guess handler raises that player's score by exactly 1 and sets the clear event; the entries
of every other player, the ids and the names registered, and the letter row are as
before. -/
theorem accepted_guess_adds_one (os : Win32) (s : Server) (cs : List Call) (replies : List Reply)
    (id : Int) (n : WString) (p : Player) (buffer : WString)
    (hrun : Registry.fresh.run cs = some (replies, ⟨s.pid_gen, s.data⟩))
    (hb : (acceptedIds replies).length ≤ 4294967296)
    (hid : StdMap.find s.data.id_map id = some n)
    (hp : StdMap.find s.data.name_map n = some p)
    (hhigh : p.score < 2147483647)
    (hne : frameWord buffer ≠ [])
    (hacc : word_match s.word_map (frameWord buffer) s.state.array = some true) :
    ∃ s' pushes, handleGuess os s id buffer = some (s', pushes) ∧
      s'.data.score id = p.score + 1 ∧ s'.clear_handle = true ∧
      (∀ n', n' ≠ n → StdMap.find s'.data.name_map n' = StdMap.find s.data.name_map n') ∧
      s'.data.id_map = s.data.id_map ∧
      s'.data.name_map.map Prod.fst = s.data.name_map.map Prod.fst ∧
      s'.state = s.state := by
  obtain ⟨hw, hc, hnn⟩ := reached_consistent cs replies ⟨s.pid_gen, s.data⟩ hrun hb
  exact accepted_guess_of_consistent os s id n p buffer hw hc hid hp
    (hnn _ (StdMap.mem_of_find _ _ _ hp)) hhigh hne hacc

/-- Witness for C11 (amended): `Ana` guesses `cat` after her login. -/
theorem accepted_guess_adds_one_witness :
    Registry.fresh.run [Call.insert allReachable (TEXT "Ana")]
        = some ([Reply.login ⟨0, 1⟩], ⟨anaPlaying.pid_gen, anaPlaying.data⟩) ∧
      frameWord (TEXT "cat") ≠ [] ∧
      word_match anaPlaying.word_map (frameWord (TEXT "cat")) anaPlaying.state.array
        = some true ∧
      ∃ s' pushes, handleGuess allReachable anaPlaying 1 (TEXT "cat") = some (s', pushes) ∧
        s'.data.score 1 = 1 ∧ s'.clear_handle = true :=
  ⟨by decide, by decide, by decide,
    (accepted_guess_adds_one allReachable anaPlaying [Call.insert allReachable (TEXT "Ana")]
      [Reply.login ⟨0, 1⟩] 1 (TEXT "Ana") ⟨1, 0, GameData.pipeName (TEXT "Ana"), 1⟩
      (TEXT "cat") (by decide) (by decide) (by decide) (by decide) (by decide) (by decide)
      (by decide)).imp
      (fun _ h => h.imp (fun _ h' => ⟨h'.1, h'.2.1, h'.2.2.1⟩))⟩

/-- C11 as stated fails in two places. At the top of the score range: `Ana`, whose score has
been raised to 2147483647, makes an accepted guess and her score becomes 0. And once the id
generator has gone round: `Ana` and `Bob` both hold id 1 with score 0, and the accepted
guess from id 1 leaves `Ana` at 0 and raises `Bob` to 1. -/
theorem accepted_guess_not_plus_one :
    (Registry.fresh.run [Call.insert allReachable (TEXT "Ana"), Call.update 1 2147483647]
        = some ([Reply.login ⟨0, 1⟩, Reply.done true],
            ⟨anaAtTopPlaying.pid_gen, anaAtTopPlaying.data⟩) ∧
      anaAtTopPlaying.data.score 1 = 2147483647 ∧
      word_match anaAtTopPlaying.word_map (frameWord (TEXT "cat"))
        anaAtTopPlaying.state.array = some true ∧
      (handleGuess allReachable anaAtTopPlaying 1 (TEXT "cat")).map
          (fun r => r.1.data.score 1) = some 0) ∧
    ((∃ replies, Registry.fresh.run wrapAround
        = some (replies, ⟨collidedPlaying.pid_gen, collidedPlaying.data⟩)) ∧
      collidedPlaying.data.byName (TEXT "Ana") = 1 ∧
      collidedPlaying.data.byName (TEXT "Bob") = 1 ∧
      (StdMap.find collidedPlaying.data.name_map (TEXT "Ana")).map Player.score = some 0 ∧
      (StdMap.find collidedPlaying.data.name_map (TEXT "Bob")).map Player.score = some 0 ∧
      word_match collidedPlaying.word_map (frameWord (TEXT "cat"))
        collidedPlaying.state.array = some true ∧
      (handleGuess allReachable collidedPlaying 1 (TEXT "cat")).map
          (fun r => ((StdMap.find r.1.data.name_map (TEXT "Ana")).map Player.score,
            (StdMap.find r.1.data.name_map (TEXT "Bob")).map Player.score))
        = some (some 0, some 1)) :=
  ⟨⟨by decide, by decide, by decide, by decide⟩,
    ⟨wrapAround_collides, by decide, by decide, by decide, by decide, by decide, by decide⟩⟩

/-- C16 (amended): in a registry reached from the empty one by calls of which at most 2^32
are accepted logins, for a player registered under the name with an id other than -1, the
logout by name leaves the registry that remove(name) leaves, in which the name and the id
are in no index; the first push attempted, before the removal, is the LOGOUT frame to the
pipe of that player, delivered whenever that pipe can be opened and written to, and it is
followed by one PLAYER_LOGOUT frame to each of the players that remain. -/
theorem kick_by_name (cs : List Call) (replies : List Reply) (r : Registry)
    (hrun : Registry.fresh.run cs = some (replies, r))
    (hb : (acceptedIds replies).length ≤ 4294967296)
    (os : Win32) (n : WString) (p : Player)
    (hp : StdMap.find r.data.name_map n = some p) (hid : p.id ≠ -1) :
    (handleLogoutName os r.data n).1 = (r.data.remove n).2 ∧
      StdMap.find (handleLogoutName os r.data n).1.name_map n = none ∧
      StdMap.find (handleLogoutName os r.data n).1.id_map p.id = none ∧
      (∀ sc, (sc, n) ∉ (handleLogoutName os r.data n).1.score_map) ∧
      (handleLogoutName os r.data n).2
        = deliver os p.pipe_name ⟨MsgFlags.LOGOUT.val, 0, []⟩ false ::
            (handleLogoutName os r.data n).1.name_map.map (fun pr =>
              deliver os pr.2.pipe_name
                ⟨MsgFlags.PLAYER_LOGOUT.val, 0, tcsncpy n (ARRAY_SIZE + 1)⟩ true) ∧
      (os.CreateFile p.pipe_name = true → os.WriteFile p.pipe_name = true →
        (deliver os p.pipe_name ⟨MsgFlags.LOGOUT.val, 0, []⟩ false).outcome
          = Delivery.delivered) := by
  obtain ⟨hw, hc, -⟩ := reached_consistent cs replies r hrun hb
  exact kick_of_consistent os r.data n p hw hc hp hid

/-- Witness for C16 (amended): `Ana` is kicked while `Bob` stays. -/
theorem kick_by_name_witness :
    Registry.fresh.run
        [Call.insert allReachable (TEXT "Ana"), Call.insert allReachable (TEXT "Bob")]
        = some ([Reply.login ⟨0, 1⟩, Reply.login ⟨0, 2⟩], ⟨⟨2⟩, anaAndBob⟩) ∧
      (handleLogoutName allReachable anaAndBob (TEXT "Ana")).1.playerExists (TEXT "Ana")
        = false ∧
      (handleLogoutName allReachable anaAndBob (TEXT "Ana")).2.map
          (fun a => (a.pipe_name, a.packet.code, a.outcome))
        = [(GameData.pipeName (TEXT "Ana"), MsgFlags.LOGOUT.val, Delivery.delivered),
           (GameData.pipeName (TEXT "Bob"), MsgFlags.PLAYER_LOGOUT.val,
             Delivery.delivered)] :=
  ⟨by decide,
    by
      have h := (kick_by_name
        [Call.insert allReachable (TEXT "Ana"), Call.insert allReachable (TEXT "Bob")]
        [Reply.login ⟨0, 1⟩, Reply.login ⟨0, 2⟩] ⟨⟨2⟩, anaAndBob⟩ (by decide) (by decide)
        allReachable (TEXT "Ana") ⟨1, 0, GameData.pipeName (TEXT "Ana"), 1⟩ (by decide)
        (by decide)).2.1
      simp only [GameData.playerExists, h]
      rfl,
    by
      rw [(kick_by_name
        [Call.insert allReachable (TEXT "Ana"), Call.insert allReachable (TEXT "Bob")]
        [Reply.login ⟨0, 1⟩, Reply.login ⟨0, 2⟩] ⟨⟨2⟩, anaAndBob⟩ (by decide) (by decide)
        allReachable (TEXT "Ana") ⟨1, 0, GameData.pipeName (TEXT "Ana"), 1⟩ (by decide)
        (by decide)).2.2.2.2.1]
      decide⟩

/-- C16 as stated fails in three places. The player whose login received id -1 is neither
sent a frame nor removed. Once the id generator has gone round and `Ana` and `Bob` both
hold id 1, the kick of `Ana` sends its LOGOUT frame to the pipe of `Bob`, who stays
registered, and empties id_map. And when the pipe of the kicked player cannot be opened, no
frame is sent to her, and she is removed all the same. -/
theorem kick_misses_player :
    (∃ replies r, Registry.fresh.run loginNumberMinusOne = some (replies, r) ∧
      r.data.byName (TEXT "Ana") = -1 ∧ r.data.playerExists (TEXT "Ana") = true ∧
      handleLogoutName allReachable r.data (TEXT "Ana") = (r.data, [])) ∧
    ((∃ replies, Registry.fresh.run wrapAround = some (replies, ⟨⟨1⟩, collided⟩)) ∧
      collided.byName (TEXT "Ana") = 1 ∧
      (handleLogoutName allReachable collided (TEXT "Ana")).2.map
          (fun a => (a.pipe_name, a.packet.code))
        = [(GameData.pipeName (TEXT "Bob"), MsgFlags.LOGOUT.val)] ∧
      (handleLogoutName allReachable collided (TEXT "Ana")).1.id_map = [] ∧
      (handleLogoutName allReachable collided (TEXT "Ana")).1.playerExists (TEXT "Bob")
        = true) ∧
    (Registry.fresh.run [Call.insert allReachable (TEXT "Ana")]
        = some ([Reply.login ⟨0, 1⟩], ⟨⟨1⟩, onlyAna⟩) ∧
      handleLogoutName noneReachable onlyAna (TEXT "Ana")
        = (GameData.empty,
            [⟨GameData.pipeName (TEXT "Ana"), ⟨MsgFlags.LOGOUT.val, 0, []⟩,
              Delivery.noPipe⟩])) :=
  ⟨id_minus_one_is_skipped,
    ⟨wrapAround_collides, by decide, by decide, by decide, by decide⟩,
    ⟨by decide, by decide⟩⟩

end WordGame
